import Mathlib

/-!
# PicoRX receiver DSP core: a shallow embedding of `rx_dsp.cpp`

Machine integers are mathematical integers, reduced explicitly at every place
where the C++ code stores into a fixed-width variable:

* `to_int16`, `to_int32` are the two's-complement readings of a value stored in
  an `int16_t` / `int32_t` (signed arithmetic is taken as wrapping, which is
  what the target compiler produces and what the CIC filter relies on);
* `to_uint8`, `to_uint16`, `to_uint32` are the reductions modulo `2^8`, `2^16`,
  `2^32`;
* `asr x n` is the arithmetic right shift `x >> n` (floor division by `2^n`);
* C++ `/` on integers truncates toward zero and is `Int.tdiv`.

Member variables of `class rx_dsp` and the function-local `static` variables
become fields of the structure `rx_dsp`; every member function becomes a
function from the state before the call to the state after it.
-/

namespace PicoRX

/-! ## Fixed-width integers -/

/-- Value of an integer stored into an `int16_t`. -/
def to_int16 (x : Int) : Int := (x + 32768) % 65536 - 32768

/-- Value of an integer stored into an `int32_t`. -/
def to_int32 (x : Int) : Int := (x + 2147483648) % 4294967296 - 2147483648

/-- Value of an integer stored into a `uint8_t`. -/
def to_uint8 (x : Int) : Int := x % 256

/-- Value of an integer stored into a `uint16_t`. -/
def to_uint16 (x : Int) : Int := x % 65536

/-- Value of an integer stored into a `uint32_t` (and into `size_t` on the 32-bit target). -/
def to_uint32 (x : Int) : Int := x % 4294967296

/-- Arithmetic right shift `x >> n` of a signed value. -/
def asr (x : Int) (n : Nat) : Int := x / 2 ^ n

/-- Array store `a[k] = v`. -/
def write {α : Type} (a : Nat → α) (k : Nat) (v : α) : Nat → α :=
  fun j => if j = k then v else a j

/-! ## Constants, tables and collaborators declared outside `rx_dsp.cpp` -/

/-- Record `s_filter_control` handed to the spectral filter (fields as used by `rx_dsp.cpp`). -/
structure s_filter_control where
  capture : Bool
  lower_sideband : Bool
  upper_sideband : Bool
  start_bin : Int
  stop_bin : Int
  enable_auto_notch : Bool
deriving DecidableEq

/-- Modelled from the spec: the constants of `rx_definitions.h`, the helpers and the sine
table of `utils.h`, the spectral filter `fft_filter::process_sample` and the floating-point
library calls are not part of `rx_dsp.cpp`; they are parameters of the embedding.
`σ` is the internal state of the spectral filter.  `process_sample` receives the filter
state, the `real` and `imag` blocks, the filter control and the capture buffer and returns
the new filter state, the blocks rewritten in place and the capture buffer.
`dBm_of amplitude gain` stands for
`roundf(full_scale_dBm - amplifier_gain_dB + 20.0*log10f(amplitude / full_scale_signal_strength))`,
`log_scale magnitude min max` for the clamped value
`255.0f*(log10f(magnitude)-logmin)/(logmax-logmin)` stored into a byte, `dB10_of r` for
`256/(2*logf(r))` and `s9_threshold_of gain` for the `powf` expression of `set_gain_cal_dB`.
`adc_block_size` fits the `uint16_t` counters of the loops of `process_block`, which would
not terminate otherwise. -/
structure rx_config (σ : Type) where
  adc_block_size : Nat
  adc_block_size_fits : adc_block_size < 65536
  cic_decimation_rate : Nat
  decimation_rate : Nat
  cic_bit_growth : Nat
  extra_bits : Nat
  adc_sample_rate : Nat
  sin_table : Nat → Int
  rectangular_2_magnitude : Int → Int → Int
  rectangular_2_phase : Int → Int → Int
  process_sample : σ → (Nat → Int) → (Nat → Int) → s_filter_control → (Nat → Int) →
    σ × (Nat → Int) × (Nat → Int) × (Nat → Int)
  dBm_of : Int → Int → Int
  log_scale : Int → Int → Int → Int
  dB10_of : Int → Int
  s9_threshold_of : Int → Int

/-- Mode numbers, in the column order of the tables of `set_mode`. -/
def AM : Int := 0
/-- Synchronous AM. -/
def AMSYNC : Int := 1
/-- Lower sideband. -/
def LSB : Int := 2
/-- Upper sideband. -/
def USB : Int := 3
/-- Narrow-band FM. -/
def FM : Int := 4
/-- Morse (CW). -/
def CW : Int := 5

/-- Modelled from the spec: the member declarations of `class rx_dsp` are in `rx_dsp.h`,
which is not available; the fields are the members used by `rx_dsp.cpp`, with the widths
the data model gives (32-bit CIC registers, 32-bit unsigned NCO phase and increment, 32-bit
leaky maximum and DC trackers).  `x1`, `y1` (de-emphasis), `phi_locked`, `freq_locked`
(AMSYNC loop) and `max`, `min` (spectrum trackers) are the function-local statics.
`spectrum_semaphore` is the number of permits of the binary semaphore.  The counters
`decimate_count` and `hang_timer` and the configuration members are stored as assigned. -/
structure rx_dsp (σ : Type) where
  dc : Int
  phase : Int
  frequency : Int
  swap_iq : Int
  decimate_count : Int
  integratori1 : Int
  integratorq1 : Int
  integratori2 : Int
  integratorq2 : Int
  integratori3 : Int
  integratorq3 : Int
  integratori4 : Int
  integratorq4 : Int
  delayi0 : Int
  delayq0 : Int
  delayi1 : Int
  delayq1 : Int
  delayi2 : Int
  delayq2 : Int
  delayi3 : Int
  delayq3 : Int
  mode : Int
  audio_dc : Int
  phi_locked : Int
  freq_locked : Int
  last_phase : Int
  cw_sidetone_phase : Int
  cw_sidetone_frequency_Hz : Int
  deemphasis : Int
  x1 : Int
  y1 : Int
  max_hold : Int
  hang_timer : Int
  attack_factor : Int
  decay_factor : Int
  hang_time : Int
  squelch_threshold : Int
  signal_amplitude : Int
  amplifier_gain_dB : Int
  s9_threshold : Int
  filter_control : s_filter_control
  capture_filter_control : s_filter_control
  capture : Nat → Int
  spectrum_semaphore : Nat
  max : Int
  min : Int
  fft_filter_inst : σ

variable {σ : Type}

/-! ## De-emphasis -/

/-- Coefficient table `deemph_taps[2][3]`. -/
def deemph_taps (i j : Nat) : Int :=
  match i, j with
  | 0, 0 => 25222
  | 0, 1 => 25222
  | 0, 2 => 17676
  | 1, 0 => 17500
  | 1, 1 => 17500
  | 1, 2 => 2231
  | _, _ => 0

/-- Member `rx_dsp::apply_deemphasis`: returns the output sample and the new state. -/
def apply_deemphasis (s : rx_dsp σ) (x : Int) : Int × rx_dsp σ :=
  if s.deemphasis = 0 then (x, s)
  else
    let i : Nat := (to_uint32 (s.deemphasis - 1)).toNat
    let y : Int := to_int16 (asr (x * deemph_taps i 0) 15 + asr (s.x1 * deemph_taps i 1) 15
      - asr (s.y1 * deemph_taps 0 2) 15)
    (y, { s with x1 := x, y1 := y })

/-! ## Automatic gain control -/

/-- Member `rx_dsp::automatic_gain_control`: returns the output sample and the new state. -/
def automatic_gain_control (s : rx_dsp σ) (audio_in : Int) : Int × rx_dsp σ :=
  let extra_bits : Nat := 16
  let audio : Int := audio_in
  let audio_scaled : Int := to_int32 (audio * 2 ^ extra_bits)
  let s1 : rx_dsp σ :=
    if audio_scaled > s.max_hold then
      { s with
        max_hold := to_int32 (s.max_hold
          + asr (to_int32 (audio_scaled - s.max_hold)) s.attack_factor.toNat),
        hang_timer := s.hang_time }
    else if s.hang_timer ≠ 0 then
      { s with hang_timer := s.hang_timer - 1 }
    else if s.max_hold > 0 then
      { s with max_hold := to_int32 (s.max_hold - asr s.max_hold s.decay_factor.toNat) }
    else s
  let magnitude : Int := to_int16 (asr s1.max_hold extra_bits)
  let limit : Int := 32767
  let setpoint : Int := to_int16 (Int.tdiv limit 2)
  let audio : Int :=
    if magnitude > 0 then
      let gain : Int := to_int16 (Int.tdiv setpoint magnitude)
      let gain : Int := if gain < 1 then 1 else gain
      to_int32 (audio * gain)
    else audio
  let audio : Int := if audio > setpoint then to_int32 (setpoint + asr (audio - setpoint) 1) else audio
  let audio : Int := if audio < -setpoint then to_int32 (-setpoint - asr (audio + setpoint) 1) else audio
  let audio : Int := if audio > limit then limit else audio
  let audio : Int := if audio < -limit then -limit else audio
  (to_int16 audio, s1)

/-! ## CIC decimator and frequency shifter -/

/-- Member `rx_dsp::decimate`: `i` and `q` are passed by reference, so the result is the
returned flag, the values of `i` and `q` after the call, and the new state.  The shift
counts are those of the C++ code when `extra_bits < cic_bit_growth`. -/
def decimate (P : rx_config σ) (s : rx_dsp σ) (i q : Int) : Bool × Int × Int × rx_dsp σ :=
  let integratori1 := to_int32 (s.integratori1 + i)
  let integratorq1 := to_int32 (s.integratorq1 + q)
  let integratori2 := to_int32 (s.integratori2 + integratori1)
  let integratorq2 := to_int32 (s.integratorq2 + integratorq1)
  let integratori3 := to_int32 (s.integratori3 + integratori2)
  let integratorq3 := to_int32 (s.integratorq3 + integratorq2)
  let integratori4 := to_int32 (s.integratori4 + integratori3)
  let integratorq4 := to_int32 (s.integratorq4 + integratorq3)
  let s1 : rx_dsp σ := { s with
    integratori1 := integratori1, integratorq1 := integratorq1,
    integratori2 := integratori2, integratorq2 := integratorq2,
    integratori3 := integratori3, integratorq3 := integratorq3,
    integratori4 := integratori4, integratorq4 := integratorq4,
    decimate_count := s.decimate_count + 1 }
  if s1.decimate_count ≥ P.cic_decimation_rate then
    let combi1 := to_int32 (integratori4 - s.delayi0)
    let combq1 := to_int32 (integratorq4 - s.delayq0)
    let combi2 := to_int32 (combi1 - s.delayi1)
    let combq2 := to_int32 (combq1 - s.delayq1)
    let combi3 := to_int32 (combi2 - s.delayi2)
    let combq3 := to_int32 (combq2 - s.delayq2)
    let combi4 := to_int32 (combi3 - s.delayi3)
    let combq4 := to_int32 (combq3 - s.delayq3)
    let bias : Int := 2 ^ (P.cic_bit_growth - P.extra_bits - 1)
    (true,
     to_int16 (asr (to_int32 (combi4 - bias)) (P.cic_bit_growth - P.extra_bits)),
     to_int16 (asr (to_int32 (combq4 - bias)) (P.cic_bit_growth - P.extra_bits)),
     { s1 with
       decimate_count := 0,
       delayi0 := integratori4, delayq0 := integratorq4,
       delayi1 := combi1, delayq1 := combq1,
       delayi2 := combi2, delayq2 := combq2,
       delayi3 := combi3, delayq3 := combq3 })
  else (false, i, q, s1)

/-- Member `rx_dsp::frequency_shift`: the values of `i` and `q` after the call and the new
state. -/
def frequency_shift (P : rx_config σ) (s : rx_dsp σ) (i q : Int) : Int × Int × rx_dsp σ :=
  let scaled_phase : Int := to_uint16 (s.phase / 2 ^ 21)
  let rotation_i : Int := to_int16 (P.sin_table (Int.land (scaled_phase + 512) 2047).toNat)
  let rotation_q : Int := to_int16 (-P.sin_table scaled_phase.toNat)
  let bias : Int := 2 ^ 14
  let i_shifted : Int := to_int16 (asr (to_int32 (i * rotation_i - q * rotation_q + bias)) 15)
  let q_shifted : Int := to_int16 (asr (to_int32 (q * rotation_i + i * rotation_q + bias)) 15)
  (i_shifted, q_shifted, { s with phase := to_uint32 (s.phase + s.frequency) })

/-! ## Demodulator -/

/-- Constant `AMSYNC_ALPHA`. -/
def AMSYNC_ALPHA : Int := 4225
/-- Constant `AMSYNC_BETA`. -/
def AMSYNC_BETA : Int := 4531
/-- Constant `AMSYNC_F_MIN`. -/
def AMSYNC_F_MIN : Int := -419
/-- Constant `AMSYNC_F_MAX`. -/
def AMSYNC_F_MAX : Int := 419
/-- Constant `AMSYNC_FIX_MAX`. -/
def AMSYNC_FIX_MAX : Int := 32767

/-- Member `rx_dsp::demodulate`: returns the audio sample and the new state. -/
def demodulate (P : rx_config σ) (s : rx_dsp σ) (i q : Int) : Int × rx_dsp σ :=
  if s.mode = AM then
    let amplitude : Int := to_int16 (P.rectangular_2_magnitude i q)
    let audio_dc : Int := to_int32 (amplitude + (s.audio_dc - asr s.audio_dc 5))
    (to_int16 (amplitude - asr audio_dc 5), { s with audio_dc := audio_dc })
  else if s.mode = AMSYNC then
    let idx : Int :=
      if s.phi_locked < 0 then to_uint32 (AMSYNC_FIX_MAX + 1 + s.phi_locked)
      else to_uint32 s.phi_locked
    let vco_i : Int := to_int16 (P.sin_table (Int.land (to_uint32 (idx / 2 ^ 4 + 512)) 2047).toNat)
    let vco_q : Int := to_int16 (P.sin_table (Int.land (idx / 2 ^ 4) 2047).toNat)
    let synced_i : Int := to_int16 (asr (to_int32 (i * vco_i + q * vco_q)) 15)
    let synced_q : Int := to_int16 (asr (to_int32 (-i * vco_q + q * vco_i)) 15)
    let err : Int := to_int16 (-to_int16 (P.rectangular_2_phase synced_i synced_q))
    let freq_locked : Int := to_int32 (s.freq_locked + asr (AMSYNC_BETA * err) 15)
    let phi_locked : Int := to_int32 (s.phi_locked + (freq_locked + asr (AMSYNC_ALPHA * err) 15))
    let freq_locked : Int := if freq_locked > AMSYNC_F_MAX then AMSYNC_F_MAX else freq_locked
    let freq_locked : Int := if freq_locked < AMSYNC_F_MIN then AMSYNC_F_MIN else freq_locked
    let phi_locked : Int :=
      if phi_locked > AMSYNC_FIX_MAX then phi_locked - (AMSYNC_FIX_MAX + 1) else phi_locked
    let phi_locked : Int :=
      if phi_locked < -AMSYNC_FIX_MAX then phi_locked + (AMSYNC_FIX_MAX + 1) else phi_locked
    let audio_dc : Int := to_int32 (synced_q + (s.audio_dc - asr s.audio_dc 5))
    (to_int16 (synced_q - asr audio_dc 5),
     { s with phi_locked := phi_locked, freq_locked := freq_locked, audio_dc := audio_dc })
  else if s.mode = FM then
    let phase : Int := to_int16 (P.rectangular_2_phase i q)
    let frequency : Int := to_int16 (phase - s.last_phase)
    (frequency, { s with last_phase := phase })
  else if s.mode = LSB ∨ s.mode = USB then
    (i, s)
  else
    let cw_sidetone_phase : Int := to_uint32 (s.cw_sidetone_phase
      + Int.tdiv (s.cw_sidetone_frequency_Hz * 2048 * P.decimation_rate) P.adc_sample_rate)
    let rotation_i : Int := to_int16 (P.sin_table (Int.land (cw_sidetone_phase + 512) 2047).toNat)
    let rotation_q : Int := to_int16 (-P.sin_table (Int.land cw_sidetone_phase 2047).toNat)
    (to_int16 (asr (to_int32 (i * rotation_i - q * rotation_q)) 15),
     { s with cw_sidetone_phase := cw_sidetone_phase })

/-! ## Block processing -/

/-- Variables live in the first loop of `process_block`: the receiver state, the local
arrays `real` and `imag`, `decimated_index` and `sample_accumulator`. -/
structure sample_locals (σ : Type) where
  self : rx_dsp σ
  real : Nat → Int
  imag : Nat → Int
  decimated_index : Int
  sample_accumulator : Int

/-- Body of the first loop of `process_block` for the raw sample `samples[idx]`. -/
def sample_step (P : rx_config σ) (samples : Nat → Nat) (idx : Nat) (st : sample_locals σ) :
    sample_locals σ :=
  let raw_sample : Int := to_int16 (samples idx)
  let sample_accumulator : Int := to_int32 (st.sample_accumulator + raw_sample)
  let sample : Int := to_int16 (raw_sample - st.self.dc)
  let i : Int := to_int16 (((idx % 2 ^^^ 1 ^^^ st.self.swap_iq.toNat : Nat) : Int) * sample)
  let q : Int := to_int16 (((idx % 2 ^^^ st.self.swap_iq.toNat : Nat) : Int) * sample)
  match decimate P st.self i q with
  | (true, i, q, s1) =>
    match frequency_shift P s1 i q with
    | (i, q, s2) =>
      { self := s2,
        real := write st.real st.decimated_index.toNat i,
        imag := write st.imag st.decimated_index.toNat q,
        decimated_index := to_uint16 (st.decimated_index + 1),
        sample_accumulator := sample_accumulator }
  | (false, _, _, s1) => { st with self := s1, sample_accumulator := sample_accumulator }

/-- The loop `for(uint16_t idx=0; idx<adc_block_size; idx++)`: `n` iterations remain and the
next index is `idx`. -/
def sample_loop (P : rx_config σ) (samples : Nat → Nat) :
    Nat → Nat → sample_locals σ → sample_locals σ
  | 0, _, st => st
  | n + 1, idx, st => sample_loop P samples n (idx + 1) (sample_step P samples idx st)

/-- Variables live in the second loop of `process_block`: the receiver state, the output
array `audio_samples` and `magnitude_sum`. -/
structure audio_locals (σ : Type) where
  self : rx_dsp σ
  audio_samples : Nat → Int
  magnitude_sum : Int

/-- Demodulation, de-emphasis and AGC of one filtered sample: the value of `audio` just
before the squelch test, and the state. -/
def audio_chain (P : rx_config σ) (s : rx_dsp σ) (i q : Int) : Int × rx_dsp σ :=
  match demodulate P s i q with
  | (audio, s1) =>
    match apply_deemphasis s1 (to_int16 audio) with
    | (audio, s2) => automatic_gain_control s2 (to_int16 audio)

/-- Body of the second loop of `process_block` for the filtered sample `idx`. -/
def audio_step (P : rx_config σ) (real imag : Nat → Int) (idx : Nat) (st : audio_locals σ) :
    audio_locals σ :=
  let i : Int := to_int16 (real idx)
  let q : Int := to_int16 (imag idx)
  let amplitude : Int := to_int32 (P.rectangular_2_magnitude i q)
  let magnitude_sum : Int := to_int32 (st.magnitude_sum + amplitude)
  match audio_chain P st.self i q with
  | (audio, s1) =>
    let audio : Int := if s1.signal_amplitude < s1.squelch_threshold then 0 else audio
    { self := s1,
      audio_samples := write st.audio_samples idx (to_int16 audio),
      magnitude_sum := magnitude_sum }

/-- The loop `for(uint16_t idx=0; idx<adc_block_size/decimation_rate; idx++)`: `n`
iterations remain and the next index is `idx`. -/
def audio_loop (P : rx_config σ) (real imag : Nat → Int) :
    Nat → Nat → audio_locals σ → audio_locals σ
  | 0, _, st => st
  | n + 1, idx, st => audio_loop P real imag n (idx + 1) (audio_step P real imag idx st)

/-- Non-blocking `sem_try_acquire`: whether a permit was taken, and the permits left. -/
def sem_try_acquire (permits : Nat) : Bool × Nat :=
  if permits = 0 then (false, 0) else (true, permits - 1)

/-- Function `sem_release` of a semaphore with at most one permit. -/
def sem_release (permits : Nat) : Nat := if permits = 0 then 1 else permits

/-- First part of `process_block`: the loop over the raw samples (DC removal, I/Q split,
CIC decimation, frequency shift).  The local arrays start out as zero. -/
def process_block_front (P : rx_config σ) (s : rx_dsp σ) (samples : Nat → Nat) :
    sample_locals σ :=
  sample_loop P samples P.adc_block_size 0
    { self := s, real := fun _ => 0, imag := fun _ => 0,
      decimated_index := 0, sample_accumulator := 0 }

/-- Middle part of `process_block`: capture hand-off and the call of the spectral filter.
Returns the state and the filtered `real` and `imag` blocks. -/
def process_block_filter (P : rx_config σ) (st : sample_locals σ) :
    rx_dsp σ × (Nat → Int) × (Nat → Int) :=
  let acquired := sem_try_acquire st.self.spectrum_semaphore
  let filter_control : s_filter_control := { st.self.filter_control with capture := acquired.1 }
  match P.process_sample st.self.fft_filter_inst st.real st.imag filter_control st.self.capture with
  | (fft, real, imag, capture) =>
    ({ st.self with
       filter_control := filter_control,
       capture_filter_control := filter_control,
       fft_filter_inst := fft,
       capture := capture,
       spectrum_semaphore := if filter_control.capture then sem_release acquired.2 else acquired.2 },
     real, imag)

/-- Result of `process_block`: the returned count, the output array and the state. -/
structure block_result (σ : Type) where
  count : Int
  audio_samples : Nat → Int
  self : rx_dsp σ

/-- Member `rx_dsp::process_block`.  `samples` is the raw input block, `audio_samples` the
caller's output array before the call. -/
def process_block (P : rx_config σ) (s : rx_dsp σ) (samples : Nat → Nat)
    (audio_samples : Nat → Int) : block_result σ :=
  let front := process_block_front P s samples
  match process_block_filter P front with
  | (s1, real, imag) =>
    let back := audio_loop P real imag (P.adc_block_size / P.decimation_rate) 0
      { self := s1, audio_samples := audio_samples, magnitude_sum := 0 }
    { count := to_uint16 ((P.adc_block_size / P.decimation_rate : Nat) : Int),
      audio_samples := back.audio_samples,
      self := { back.self with
        signal_amplitude :=
          to_int32 (Int.tdiv (to_int32 (back.magnitude_sum * P.decimation_rate)) P.adc_block_size),
        dc := to_int32 (Int.tdiv front.sample_accumulator P.adc_block_size) } }

/-! ## Signal strength and spectrum read-out -/

/-- Member `rx_dsp::get_signal_strength_dBm`. -/
def get_signal_strength_dBm (P : rx_config σ) (s : rx_dsp σ) : Int :=
  if s.signal_amplitude = 0 then -130
  else to_int16 (P.dBm_of s.signal_amplitude s.amplifier_gain_dB)

/-- Member `rx_dsp::get_filter_config`. -/
def get_filter_config (s : rx_dsp σ) : s_filter_control := s.capture_filter_control

/-- The loop of `get_spectrum` that finds `new_max` and `new_min` over the non-zero bins. -/
def minmax_loop (capture : Nat → Int) : Nat → Nat → Int × Int → Int × Int
  | 0, _, st => st
  | n + 1, i, (new_max, new_min) =>
    let magnitude : Int := to_uint16 (capture i)
    minmax_loop capture n (i + 1)
      (if magnitude = 0 then (new_max, new_min)
       else (if new_max < magnitude then magnitude else new_max,
             if magnitude < new_min then magnitude else new_min))

/-- Variables live in the output loops of `get_spectrum`: the byte index `f` and the output
array `spectrum`. -/
structure spectrum_locals where
  f : Int
  spectrum : Nat → Int

/-- Body shared by the two output loops of `get_spectrum` for capture bin `i`. -/
def spectrum_step (P : rx_config σ) (capture : Nat → Int) (min max : Int) (i : Nat)
    (st : spectrum_locals) : spectrum_locals :=
  let magnitude : Int := to_uint16 (capture i)
  let value : Int := if magnitude = 0 then 0 else to_uint8 (P.log_scale magnitude min max)
  { f := to_uint8 (st.f + 1), spectrum := write st.spectrum st.f.toNat value }

/-- An output loop of `get_spectrum`: `n` iterations remain and the next bin is `i`. -/
def spectrum_loop (P : rx_config σ) (capture : Nat → Int) (min max : Int) :
    Nat → Nat → spectrum_locals → spectrum_locals
  | 0, _, st => st
  | n + 1, i, st =>
    spectrum_loop P capture min max n (i + 1) (spectrum_step P capture min max i st)

/-- Result of `get_spectrum`: the output array, the reference parameter `dB10` and the state. -/
structure spectrum_result (σ : Type) where
  spectrum : Nat → Int
  dB10 : Int
  self : rx_dsp σ

/-- Member `rx_dsp::get_spectrum`.  `spectrum` is the caller's array before the call.  The
blocking acquire does not return while no permit is available, which is the result `none`. -/
def get_spectrum (P : rx_config σ) (s : rx_dsp σ) (spectrum : Nat → Int) :
    Option (spectrum_result σ) :=
  if s.spectrum_semaphore = 0 then none
  else
    let lowest_max : Int := 2500
    let new := minmax_loop s.capture 256 0 (0, 65535)
    let max : Int := to_uint16 (s.max - s.max / 2 + new.1 / 2)
    let min : Int := to_uint16 (s.min - s.min / 2 + new.2 / 2)
    let st := spectrum_loop P s.capture min (if max < lowest_max then lowest_max else max)
      128 128 { f := 0, spectrum := spectrum }
    let st := spectrum_loop P s.capture min (if max < lowest_max then lowest_max else max)
      127 0 st
    some { spectrum := st.spectrum,
           dB10 := to_uint8 (P.dB10_of (Int.tdiv max min)),
           self := { s with max := max, min := min } }

/-! ## Configuration and construction -/

/-- Table `start_bins` of `set_mode`. -/
def start_bins (mode : Nat) : Int :=
  match mode with
  | 2 => 3
  | 3 => 3
  | _ => 0

/-- Table `stop_bins` of `set_mode` (row `bw`, column `mode`). -/
def stop_bins (bw mode : Nat) : Int :=
  (([[19, 19, 16, 16, 31, 0], [22, 22, 19, 19, 34, 1], [25, 25, 22, 22, 37, 2],
     [28, 28, 25, 25, 40, 3], [31, 31, 28, 28, 43, 4]] : List (List Int)).getD bw []).getD mode 0

/-- Member `rx_dsp::set_mode`. -/
def set_mode (s : rx_dsp σ) (val bw : Int) : rx_dsp σ :=
  { s with
    mode := val,
    filter_control := { s.filter_control with
      lower_sideband := decide (val ≠ USB),
      upper_sideband := decide (val ≠ LSB),
      start_bin := start_bins val.toNat,
      stop_bin := stop_bins bw.toNat val.toNat } }

/-- Member `rx_dsp::set_agc_speed`. -/
def set_agc_speed (s : rx_dsp σ) (agc_setting : Int) : rx_dsp σ :=
  if agc_setting = 0 then { s with attack_factor := 2, decay_factor := 10, hang_time := 1562 }
  else if agc_setting = 1 then { s with attack_factor := 2, decay_factor := 11, hang_time := 3906 }
  else if agc_setting = 2 then { s with attack_factor := 2, decay_factor := 12, hang_time := 15625 }
  else { s with attack_factor := 2, decay_factor := 14, hang_time := 31250 }

/-- Member `rx_dsp::set_auto_notch`. -/
def set_auto_notch (s : rx_dsp σ) (enable_auto_notch : Bool) : rx_dsp σ :=
  { s with filter_control := { s.filter_control with enable_auto_notch := enable_auto_notch } }

/-- Member `rx_dsp::set_deemphasis`. -/
def set_deemphasis (s : rx_dsp σ) (deemph : Int) : rx_dsp σ := { s with deemphasis := deemph }

/-- Member `rx_dsp::set_swap_iq`. -/
def set_swap_iq (s : rx_dsp σ) (val : Int) : rx_dsp σ := { s with swap_iq := val }

/-- Member `rx_dsp::set_cw_sidetone_Hz`. -/
def set_cw_sidetone_Hz (s : rx_dsp σ) (val : Int) : rx_dsp σ :=
  { s with cw_sidetone_frequency_Hz := val }

/-- The constructor `rx_dsp::rx_dsp()`, applied to the object as it is before the
constructor body runs (`raw`); members the body does not assign keep their value. -/
def rx_dsp_init (raw : rx_dsp σ) : rx_dsp σ :=
  let s : rx_dsp σ := { raw with dc := 0, phase := 0, frequency := 0, swap_iq := 0 }
  let s := set_mode s AM 2
  let s : rx_dsp σ := { s with spectrum_semaphore := 1 }
  let s := set_agc_speed s 3
  let s : rx_dsp σ := { s with filter_control := { s.filter_control with enable_auto_notch := false } }
  { s with
    decimate_count := 0,
    integratori1 := 0, integratorq1 := 0,
    integratori2 := 0, integratorq2 := 0,
    integratori3 := 0, integratorq3 := 0,
    integratori4 := 0, integratorq4 := 0,
    delayi0 := 0, delayq0 := 0,
    delayi1 := 0, delayq1 := 0,
    delayi2 := 0, delayq2 := 0,
    delayi3 := 0, delayq3 := 0 }

/-! ## A small instance of the parameters -/

/-- Modelled from the spec: the 2048-entry sine table of `utils.h` is not available.  This
table carries only its cardinal values, `sin_table[0] = 0`, `sin_table[512] = 32767`,
`sin_table[1024] = 0`, `sin_table[1536] = -32767`, and is 0 elsewhere. -/
def demo_sin_table (k : Nat) : Int :=
  if k % 2048 = 512 then 32767 else if k % 2048 = 1536 then -32767 else 0

/-- Modelled from the spec: `rectangular_2_magnitude` of `utils.h` is not available; the
spec describes it as `sqrt(i²+q²)` or an equivalent fixed-point approximation.  This is the
approximation "larger component plus a quarter of the smaller". -/
def demo_magnitude (i q : Int) : Int :=
  let absi := if i > 0 then i else -i
  let absq := if q > 0 then q else -q
  if absi > absq then absi + Int.tdiv absq 4 else absq + Int.tdiv absi 4

/-- Modelled from the spec: `fft_filter::process_sample` is not available; the spec gives its
contract only: it returns a further-decimated I/Q block (factor 2) in place and writes the
capture buffer only when capture is requested.  This model has no state, passes every
frequency, keeps every second sample and never writes the capture buffer. -/
def demo_process_sample (st : Unit) (real imag : Nat → Int) (_ : s_filter_control)
    (capture : Nat → Int) : Unit × (Nat → Int) × (Nat → Int) × (Nat → Int) :=
  (st, fun k => real (2 * k), fun k => imag (2 * k), capture)

/-- An instance of the parameters with a block of 64 raw samples, CIC factor 16, overall
decimation 32, bit growth 16 and 2 extra bits, with the table, the magnitude and the
spectral filter above.  The floating-point conversions are stand-ins. -/
def demo_config : rx_config Unit where
  adc_block_size := 64
  adc_block_size_fits := by decide
  cic_decimation_rate := 16
  decimation_rate := 32
  cic_bit_growth := 16
  extra_bits := 2
  adc_sample_rate := 500000
  sin_table := demo_sin_table
  rectangular_2_magnitude := demo_magnitude
  rectangular_2_phase := fun _ _ => 0
  process_sample := demo_process_sample
  dBm_of := fun amplitude gain => amplitude - gain - 100
  log_scale := fun magnitude _ _ => magnitude
  dB10_of := fun r => r
  s9_threshold_of := fun gain => gain

/-- A filter control with every field cleared. -/
def demo_filter_control : s_filter_control :=
  { capture := false, lower_sideband := false, upper_sideband := false,
    start_bin := 0, stop_bin := 0, enable_auto_notch := false }

/-- An object with every member zero (the spectrum trackers at their initial values). -/
def demo_raw : rx_dsp Unit :=
  { dc := 0, phase := 0, frequency := 0, swap_iq := 0, decimate_count := 0,
    integratori1 := 0, integratorq1 := 0, integratori2 := 0, integratorq2 := 0,
    integratori3 := 0, integratorq3 := 0, integratori4 := 0, integratorq4 := 0,
    delayi0 := 0, delayq0 := 0, delayi1 := 0, delayq1 := 0, delayi2 := 0, delayq2 := 0,
    delayi3 := 0, delayq3 := 0, mode := 0, audio_dc := 0, phi_locked := 0, freq_locked := 0,
    last_phase := 0, cw_sidetone_phase := 0, cw_sidetone_frequency_Hz := 0, deemphasis := 0,
    x1 := 0, y1 := 0, max_hold := 0, hang_timer := 0, attack_factor := 0, decay_factor := 0,
    hang_time := 0, squelch_threshold := 0, signal_amplitude := 0, amplifier_gain_dB := 0,
    s9_threshold := 0, filter_control := demo_filter_control,
    capture_filter_control := demo_filter_control,
    capture := fun _ => 0, spectrum_semaphore := 0, max := 65523, min := 1,
    fft_filter_inst := () }

/-- The freshly constructed receiver. -/
def demo_fresh : rx_dsp Unit := rx_dsp_init demo_raw

/-- Modelled from the spec: the 2048-entry sine table of `utils.h` is not available.  This
table carries its values at the multiples of 45 degrees (amplitude 32767, so 23170 on the
diagonals) and is 0 elsewhere. -/
def demo_sin_table_octants (k : Nat) : Int :=
  if k % 2048 = 256 then 23170 else if k % 2048 = 512 then 32767
  else if k % 2048 = 768 then 23170 else if k % 2048 = 1280 then -23170
  else if k % 2048 = 1536 then -32767 else if k % 2048 = 1792 then -23170 else 0

/-- The small instance with the sine table known at the multiples of 45 degrees. -/
def demo_config_octants : rx_config Unit :=
  { demo_config with sin_table := demo_sin_table_octants }

/-! ## Derived notions used in the statements -/

/-- Receiver state at the start of iteration `k` of the second loop of `process_block`,
when the loop is entered in state `s` with the filtered blocks `real` and `imag`. -/
def audio_state (P : rx_config σ) (real imag : Nat → Int) (s : rx_dsp σ) : Nat → rx_dsp σ
  | 0 => s
  | k + 1 =>
    (audio_chain P (audio_state P real imag s k) (to_int16 (real k)) (to_int16 (imag k))).2

/-- Output of the AGC (the value of `audio` just before the squelch test) in iteration `k`
of the second loop of `process_block`. -/
def agc_output (P : rx_config σ) (real imag : Nat → Int) (s : rx_dsp σ) (k : Nat) : Int :=
  (audio_chain P (audio_state P real imag s k) (to_int16 (real k)) (to_int16 (imag k))).1

/-- Receiver state before sample `n` when `demodulate` is called on the successive samples
`(i 0, q 0), (i 1, q 1), ...` starting in state `s`. -/
def demodulate_state (P : rx_config σ) (i q : Nat → Int) (s : rx_dsp σ) : Nat → rx_dsp σ
  | 0 => s
  | n + 1 => (demodulate P (demodulate_state P i q s n) (i n) (q n)).2

/-- Audio sample returned by `demodulate` for sample `n` of that sequence. -/
def demodulate_output (P : rx_config σ) (i q : Nat → Int) (s : rx_dsp σ) (n : Nat) : Int :=
  (demodulate P (demodulate_state P i q s n) (i n) (q n)).1

/-- Receiver state after `n` calls of `decimate`, each with the same sample pair `(i, q)`,
starting in state `s`. -/
def decimate_state (P : rx_config σ) (i q : Int) (s : rx_dsp σ) : Nat → rx_dsp σ
  | 0 => s
  | n + 1 => (decimate P (decimate_state P i q s n) i q).2.2.2

/-- Result of call number `n + 1` of that sequence: the flag and the values of `i` and `q`
after the call. -/
def decimate_output (P : rx_config σ) (i q : Int) (s : rx_dsp σ) (n : Nat) : Bool × Int × Int :=
  ((decimate P (decimate_state P i q s n) i q).1,
   (decimate P (decimate_state P i q s n) i q).2.1,
   (decimate P (decimate_state P i q s n) i q).2.2.1)

/-- Byte that the output loops of `get_spectrum` store for capture bin `i`: 0 for a zero
bin, the log-scaled magnitude otherwise. -/
def spectrum_value (P : rx_config σ) (capture : Nat → Int) (min max : Int) (i : Nat) : Int :=
  (spectrum_step P capture min max i { f := 0, spectrum := fun _ => 0 }).spectrum 0

/-- The CIC registers as the constructor leaves them: counter, integrators and delays zero. -/
def cic_cleared (s : rx_dsp σ) : Prop :=
  s.decimate_count = 0 ∧
  (s.integratori1 = 0 ∧ s.integratori2 = 0 ∧ s.integratori3 = 0 ∧ s.integratori4 = 0) ∧
  (s.integratorq1 = 0 ∧ s.integratorq2 = 0 ∧ s.integratorq3 = 0 ∧ s.integratorq4 = 0) ∧
  (s.delayi0 = 0 ∧ s.delayi1 = 0 ∧ s.delayi2 = 0 ∧ s.delayi3 = 0) ∧
  (s.delayq0 = 0 ∧ s.delayq1 = 0 ∧ s.delayq2 = 0 ∧ s.delayq3 = 0)

/-- Unbounded value of the first integrator after `t` samples of the constant `c`. -/
def ideal_integrator1 (c : Int) (t : Nat) : Int := c * t

/-- Unbounded value of the second integrator after `t` samples of the constant `c`. -/
def ideal_integrator2 (c : Int) : Nat → Int
  | 0 => 0
  | t + 1 => ideal_integrator2 c t + ideal_integrator1 c (t + 1)

/-- Unbounded value of the third integrator after `t` samples of the constant `c`. -/
def ideal_integrator3 (c : Int) : Nat → Int
  | 0 => 0
  | t + 1 => ideal_integrator3 c t + ideal_integrator2 c (t + 1)

/-- Unbounded value of the fourth integrator after `t` samples of the constant `c`. -/
def ideal_integrator4 (c : Int) : Nat → Int
  | 0 => 0
  | t + 1 => ideal_integrator4 c t + ideal_integrator3 c (t + 1)

/-- Unbounded value of `delay0` after `j` decimation cycles of 16 samples. -/
def ideal_delay0 (c : Int) (j : Nat) : Int := ideal_integrator4 c (16 * j)

/-- Unbounded value of `delay1` (the first comb output) after `j` decimation cycles. -/
def ideal_delay1 (c : Int) : Nat → Int
  | 0 => 0
  | j + 1 => ideal_delay0 c (j + 1) - ideal_delay0 c j

/-- Unbounded value of `delay2` (the second comb output) after `j` decimation cycles. -/
def ideal_delay2 (c : Int) : Nat → Int
  | 0 => 0
  | j + 1 => ideal_delay1 c (j + 1) - ideal_delay1 c j

/-- Unbounded value of `delay3` (the third comb output) after `j` decimation cycles. -/
def ideal_delay3 (c : Int) : Nat → Int
  | 0 => 0
  | j + 1 => ideal_delay2 c (j + 1) - ideal_delay2 c j

/-- The CIC registers of `s` are the 32-bit images of the unbounded values after `t`
samples of the constant pair `(i, q)`. -/
def cic_tracks (i q : Int) (s : rx_dsp σ) (t : Nat) : Prop :=
  s.decimate_count = ((t % 16 : Nat) : Int) ∧
  (s.integratori1 = to_int32 (ideal_integrator1 i t) ∧
   s.integratori2 = to_int32 (ideal_integrator2 i t) ∧
   s.integratori3 = to_int32 (ideal_integrator3 i t) ∧
   s.integratori4 = to_int32 (ideal_integrator4 i t)) ∧
  (s.integratorq1 = to_int32 (ideal_integrator1 q t) ∧
   s.integratorq2 = to_int32 (ideal_integrator2 q t) ∧
   s.integratorq3 = to_int32 (ideal_integrator3 q t) ∧
   s.integratorq4 = to_int32 (ideal_integrator4 q t)) ∧
  (s.delayi0 = to_int32 (ideal_delay0 i (t / 16)) ∧
   s.delayi1 = to_int32 (ideal_delay1 i (t / 16)) ∧
   s.delayi2 = to_int32 (ideal_delay2 i (t / 16)) ∧
   s.delayi3 = to_int32 (ideal_delay3 i (t / 16))) ∧
  (s.delayq0 = to_int32 (ideal_delay0 q (t / 16)) ∧
   s.delayq1 = to_int32 (ideal_delay1 q (t / 16)) ∧
   s.delayq2 = to_int32 (ideal_delay2 q (t / 16)) ∧
   s.delayq3 = to_int32 (ideal_delay3 q (t / 16)))

/-- Constant `setpoint` of `automatic_gain_control` (`limit/2` with `limit = INT16_MAX`). -/
def agc_setpoint : Int := to_int16 (Int.tdiv 32767 2)

/-- Leaky max-hold part of `automatic_gain_control` (attack, hang, decay): the state after
the update of `max_hold` and `hang_timer`. -/
def agc_track (s : rx_dsp σ) (audio_in : Int) : rx_dsp σ :=
  if to_int32 (audio_in * 2 ^ 16) > s.max_hold then
    { s with
      max_hold := to_int32 (s.max_hold
        + asr (to_int32 (to_int32 (audio_in * 2 ^ 16) - s.max_hold)) s.attack_factor.toNat),
      hang_timer := s.hang_time }
  else if s.hang_timer ≠ 0 then
    { s with hang_timer := s.hang_timer - 1 }
  else if s.max_hold > 0 then
    { s with max_hold := to_int32 (s.max_hold - asr s.max_hold s.decay_factor.toNat) }
  else s

/-- Gain part of `automatic_gain_control`: the value of `audio` after `audio *= gain`, for
the tracked `max_hold`. -/
def agc_apply_gain (max_hold : Int) (audio : Int) : Int :=
  if to_int16 (asr max_hold 16) > 0 then
    to_int32 (audio *
      (if to_int16 (Int.tdiv agc_setpoint (to_int16 (asr max_hold 16))) < 1 then 1
       else to_int16 (Int.tdiv agc_setpoint (to_int16 (asr max_hold 16)))))
  else audio

/-- Soft-clip part of `automatic_gain_control`: the two `if` statements under
`//soft clip (compress)`. -/
def soft_clip (audio : Int) : Int :=
  let audio : Int :=
    if audio > agc_setpoint then to_int32 (agc_setpoint + asr (audio - agc_setpoint) 1) else audio
  if audio < -agc_setpoint then to_int32 (-agc_setpoint - asr (audio + agc_setpoint) 1) else audio

/-- Hard-clamp part of `automatic_gain_control`: the two `if` statements under
`//hard clamp`. -/
def hard_clamp (audio : Int) : Int :=
  let audio : Int := if audio > 32767 then 32767 else audio
  if audio < -32767 then -32767 else audio

/-- Receiver state after `n` calls of `automatic_gain_control`, each with the same input
sample `audio`, starting in state `s`. -/
def agc_state (s : rx_dsp σ) (audio : Int) : Nat → rx_dsp σ
  | 0 => s
  | n + 1 => (automatic_gain_control (agc_state s audio n) audio).2

/-- DC removal in the first loop of `process_block`: the local `sample` for the raw value
`raw` (`raw_sample` is the raw value read as `int16_t`, `sample = raw_sample - dc`). -/
def dc_removed (dc : Int) (raw : Nat) : Int := to_int16 (to_int16 raw - dc)

/-- I/Q split in the first loop of `process_block`: the locals `i` and `q` for the sample
index `idx` and the DC-corrected `sample`. -/
def iq_split (swap_iq : Int) (idx : Nat) (sample : Int) : Int × Int :=
  (to_int16 (((idx % 2 ^^^ 1 ^^^ swap_iq.toNat : Nat) : Int) * sample),
   to_int16 (((idx % 2 ^^^ swap_iq.toNat : Nat) : Int) * sample))

/-- Rest of the body of the first loop of `process_block`, after the call of `decimate` has
returned `r`: frequency shift and store when a decimated sample was produced. -/
def sample_store (P : rx_config σ) (st : sample_locals σ) (sample_accumulator : Int)
    (r : Bool × Int × Int × rx_dsp σ) : sample_locals σ :=
  match r with
  | (true, i, q, s1) =>
    match frequency_shift P s1 i q with
    | (i, q, s2) =>
      { self := s2,
        real := write st.real st.decimated_index.toNat i,
        imag := write st.imag st.decimated_index.toNat q,
        decimated_index := to_uint16 (st.decimated_index + 1),
        sample_accumulator := sample_accumulator }
  | (false, _, _, s1) => { st with self := s1, sample_accumulator := sample_accumulator }

/-- Variables of the first loop of `process_block` at the start of iteration `idx`, when
the block `samples` is processed from the receiver state `s`. -/
def sample_state (P : rx_config σ) (samples : Nat → Nat) (s : rx_dsp σ) : Nat → sample_locals σ
  | 0 => { self := s, real := fun _ => 0, imag := fun _ => 0,
           decimated_index := 0, sample_accumulator := 0 }
  | idx + 1 => sample_step P samples idx (sample_state P samples s idx)

/-- The DC-corrected local `sample` of iteration `idx` of the first loop. -/
def block_sample (P : rx_config σ) (samples : Nat → Nat) (s : rx_dsp σ) (idx : Nat) : Int :=
  dc_removed (sample_state P samples s idx).self.dc (samples idx)

/-- The pair `(i, q)` passed to `decimate` in iteration `idx` of the first loop. -/
def cic_feed (P : rx_config σ) (samples : Nat → Nat) (s : rx_dsp σ) (idx : Nat) : Int × Int :=
  iq_split (sample_state P samples s idx).self.swap_iq idx (block_sample P samples s idx)

/-- Members that the first loop of `process_block` only reads or does not use: they are
the same in `t` as in `s`. -/
def front_frame (s t : rx_dsp σ) : Prop :=
  t.dc = s.dc ∧ t.swap_iq = s.swap_iq ∧ t.filter_control = s.filter_control ∧
  t.capture_filter_control = s.capture_filter_control ∧
  t.spectrum_semaphore = s.spectrum_semaphore

/-- Members that the second loop of `process_block` does not use: they are the same in `t`
as in `s`. -/
def back_frame (s t : rx_dsp σ) : Prop :=
  t.filter_control = s.filter_control ∧ t.capture_filter_control = s.capture_filter_control ∧
  t.spectrum_semaphore = s.spectrum_semaphore ∧ t.dc = s.dc

/-- Receiver state after `t` calls of `decimate` with the successive sample pairs
`(i 0, q 0), (i 1, q 1), ...`, starting in state `s`. -/
def decimate_run (P : rx_config σ) (i q : Nat → Int) (s : rx_dsp σ) : Nat → rx_dsp σ
  | 0 => s
  | t + 1 => (decimate P (decimate_run P i q s t) (i t) (q t)).2.2.2

/-- Whether call number `t + 1` of that sequence returns true. -/
def decimate_fires (P : rx_config σ) (i q : Nat → Int) (s : rx_dsp σ) (t : Nat) : Bool :=
  (decimate P (decimate_run P i q s t) (i t) (q t)).1

/-- The fresh receiver of the small instance while the consumer holds the capture lock (no
permit left), with an older snapshot whose `start_bin` is 7. -/
def demo_locked : rx_dsp Unit :=
  { demo_fresh with
    spectrum_semaphore := 0,
    capture_filter_control := { demo_filter_control with start_bin := 7 } }

/-- Value of the local `combi4` (the fourth comb stage of the I channel) in a call of
`decimate` with the sample `i` from state `s` that completes a decimation cycle. -/
def decimate_combi4 (s : rx_dsp σ) (i : Int) : Int :=
  let integratori1 := to_int32 (s.integratori1 + i)
  let integratori2 := to_int32 (s.integratori2 + integratori1)
  let integratori3 := to_int32 (s.integratori3 + integratori2)
  let integratori4 := to_int32 (s.integratori4 + integratori3)
  let combi1 := to_int32 (integratori4 - s.delayi0)
  let combi2 := to_int32 (combi1 - s.delayi1)
  let combi3 := to_int32 (combi2 - s.delayi2)
  to_int32 (combi3 - s.delayi3)

/-- Value of the local `combq4` (the fourth comb stage of the Q channel) in a call of
`decimate` with the sample `q` from state `s` that completes a decimation cycle. -/
def decimate_combq4 (s : rx_dsp σ) (q : Int) : Int :=
  let integratorq1 := to_int32 (s.integratorq1 + q)
  let integratorq2 := to_int32 (s.integratorq2 + integratorq1)
  let integratorq3 := to_int32 (s.integratorq3 + integratorq2)
  let integratorq4 := to_int32 (s.integratorq4 + integratorq3)
  let combq1 := to_int32 (integratorq4 - s.delayq0)
  let combq2 := to_int32 (combq1 - s.delayq1)
  let combq3 := to_int32 (combq2 - s.delayq2)
  to_int32 (combq3 - s.delayq3)

/-- Bit-growth removal as the specification describes it, for comparison with `decimate`:
the comb value `x` divided by `2^n` and rounded to nearest, `(x + 2^(n-1)) >> n` in 32-bit
arithmetic, as a 16-bit value. -/
def spec_rounded_shift (x : Int) (n : Nat) : Int :=
  to_int16 (asr (to_int32 (x + 2 ^ (n - 1))) n)

/-- Integer division `a / b` of the C++ code, where a zero divisor has no result. -/
def checked_div (a b : Int) : Option Int :=
  if b = 0 then none else some (Int.tdiv a b)

/-- Gain part of `automatic_gain_control` with the division `setpoint/magnitude` checked:
the value of `audio` after `audio *= gain`, or `none` if the division is evaluated with
`magnitude = 0`. -/
def agc_apply_gain_checked (max_hold : Int) (audio : Int) : Option Int :=
  let magnitude : Int := to_int16 (asr max_hold 16)
  if magnitude > 0 then
    (checked_div agc_setpoint magnitude).map fun quotient =>
      let gain : Int := to_int16 quotient
      let gain : Int := if gain < 1 then 1 else gain
      to_int32 (audio * gain)
  else some audio

/-- Phase detector of the AMSYNC branch of `demodulate`: the local `err` for the sample
`(i, q)` in state `s`. -/
def amsync_err (P : rx_config σ) (s : rx_dsp σ) (i q : Int) : Int :=
  let idx : Int :=
    if s.phi_locked < 0 then to_uint32 (AMSYNC_FIX_MAX + 1 + s.phi_locked)
    else to_uint32 s.phi_locked
  let vco_i : Int := to_int16 (P.sin_table (Int.land (to_uint32 (idx / 2 ^ 4 + 512)) 2047).toNat)
  let vco_q : Int := to_int16 (P.sin_table (Int.land (idx / 2 ^ 4) 2047).toNat)
  let synced_i : Int := to_int16 (asr (to_int32 (i * vco_i + q * vco_q)) 15)
  let synced_q : Int := to_int16 (asr (to_int32 (-i * vco_q + q * vco_i)) 15)
  to_int16 (-to_int16 (P.rectangular_2_phase synced_i synced_q))

/-- Loop filter of the AMSYNC branch of `demodulate`: `freq_locked` after the update by the
phase error `err` and the clamp. -/
def amsync_freq_locked (freq_locked err : Int) : Int :=
  let freq_locked : Int := to_int32 (freq_locked + asr (AMSYNC_BETA * err) 15)
  let freq_locked : Int := if freq_locked > AMSYNC_F_MAX then AMSYNC_F_MAX else freq_locked
  if freq_locked < AMSYNC_F_MIN then AMSYNC_F_MIN else freq_locked

/-- Loop filter of the AMSYNC branch of `demodulate`: `phi_locked` after the update by the
new (not yet clamped) `freq_locked` and the phase error `err`, and the wrap. -/
def amsync_phi_locked (phi_locked freq_locked err : Int) : Int :=
  let freq_locked : Int := to_int32 (freq_locked + asr (AMSYNC_BETA * err) 15)
  let phi_locked : Int := to_int32 (phi_locked + (freq_locked + asr (AMSYNC_ALPHA * err) 15))
  let phi_locked : Int :=
    if phi_locked > AMSYNC_FIX_MAX then phi_locked - (AMSYNC_FIX_MAX + 1) else phi_locked
  if phi_locked < -AMSYNC_FIX_MAX then phi_locked + (AMSYNC_FIX_MAX + 1) else phi_locked

/-- Modelled from the spec: `rectangular_2_phase` of `utils.h` is not available.  This is
the small instance with a phase function that reports -20000 for every sample, so that the
AMSYNC phase error is 20000 throughout. -/
def demo_config_lagging : rx_config Unit :=
  { demo_config with rectangular_2_phase := fun _ _ => -20000 }

/-- The fresh receiver of the small instance with a capture buffer whose only non-zero bin
is bin 5, of magnitude 1. -/
def demo_captured : rx_dsp Unit :=
  { demo_fresh with capture := fun k => if k = 5 then 1 else 0 }

theorem to_int16_range (x : Int) : -32768 ≤ to_int16 x ∧ to_int16 x ≤ 32767 := by
  unfold to_int16; omega

theorem to_int16_of_range {x : Int} (h1 : -32768 ≤ x) (h2 : x ≤ 32767) : to_int16 x = x := by
  unfold to_int16; omega

theorem to_int32_range (x : Int) : -2147483648 ≤ to_int32 x ∧ to_int32 x ≤ 2147483647 := by
  unfold to_int32; omega

theorem to_int32_of_range {x : Int} (h1 : -2147483648 ≤ x) (h2 : x ≤ 2147483647) :
    to_int32 x = x := by
  unfold to_int32; omega

theorem write_same {α : Type} (a : Nat → α) (k : Nat) (v : α) : write a k v k = v := by
  simp [write]

theorem write_other {α : Type} (a : Nat → α) (k j : Nat) (v : α) (h : j ≠ k) :
    write a k v j = a j := by
  simp [write, h]

/-! ## Automatic gain control: output range -/

/-- The two hard-clamp statements followed by the conversion to `int16_t`. -/
theorem hard_clamp_range (a : Int) :
    -32767 ≤ to_int16 (if (if a > 32767 then 32767 else a) < -32767 then -32767
        else (if a > 32767 then 32767 else a)) ∧
      to_int16 (if (if a > 32767 then 32767 else a) < -32767 then -32767
        else (if a > 32767 then 32767 else a)) ≤ 32767 := by
  unfold to_int16
  split_ifs <;> omega

/-- C2: for every input sample and every AGC state (no restriction on `max_hold`,
`hang_timer`, the attack and decay factors or `hang_time`) the sample returned by
`automatic_gain_control` lies between -32767 and 32767. -/
theorem automatic_gain_control_range (s : rx_dsp σ) (audio_in : Int) :
    -32767 ≤ (automatic_gain_control s audio_in).1 ∧
      (automatic_gain_control s audio_in).1 ≤ 32767 := by
  unfold automatic_gain_control
  exact hard_clamp_range _

/-! ## De-emphasis bypass -/

/-- C4: with `deemphasis == 0` the de-emphasis filter returns its input unchanged and leaves
the whole state, in particular the delay taps `x1` and `y1`, as it was. -/
theorem apply_deemphasis_bypass (s : rx_dsp σ) (x : Int) (h : s.deemphasis = 0) :
    (apply_deemphasis s x).1 = x ∧ (apply_deemphasis s x).2 = s ∧
      (apply_deemphasis s x).2.x1 = s.x1 ∧ (apply_deemphasis s x).2.y1 = s.y1 := by
  simp [apply_deemphasis, h]

/-- Witness of C4: the bypass at the most negative 16-bit sample, with non-zero taps. -/
theorem apply_deemphasis_bypass_witness :
    ({ demo_raw with x1 := 11, y1 := -5 } : rx_dsp Unit).deemphasis = 0 ∧
      (apply_deemphasis { demo_raw with x1 := 11, y1 := -5 } (-32768)).1 = -32768 ∧
      (apply_deemphasis { demo_raw with x1 := 11, y1 := -5 } (-32768)).2.x1 = 11 ∧
      (apply_deemphasis { demo_raw with x1 := 11, y1 := -5 } (-32768)).2.y1 = -5 :=
  ⟨rfl, (apply_deemphasis_bypass _ (-32768) rfl).1,
    (apply_deemphasis_bypass { demo_raw with x1 := 11, y1 := -5 } (-32768) rfl).2.2.1,
    (apply_deemphasis_bypass { demo_raw with x1 := 11, y1 := -5 } (-32768) rfl).2.2.2⟩

/-! ## Frequency shifter at zero offset -/

/-- C6: with the phase accumulator and the increment both 0, and a sine table with
`sin_table[0] = 0` and `sin_table[512] = 32767`, `frequency_shift` maps every 16-bit pair
`(i, q)` to a pair that differs from it by at most 1 in each component, and the phase
accumulator is still 0 afterwards. -/
theorem frequency_shift_zero_offset (P : rx_config σ) (s : rx_dsp σ) (i q : Int)
    (hphase : s.phase = 0) (hfreq : s.frequency = 0)
    (hsin : P.sin_table 0 = 0) (hcos : P.sin_table 512 = 32767)
    (hi : -32768 ≤ i ∧ i ≤ 32767) (hq : -32768 ≤ q ∧ q ≤ 32767) :
    |(frequency_shift P s i q).1 - i| ≤ 1 ∧ |(frequency_shift P s i q).2.1 - q| ≤ 1 ∧
      (frequency_shift P s i q).2.2.phase = 0 := by
  have h512 : (Int.land (to_uint16 ((0 : Int) / 2 ^ 21) + 512) 2047).toNat = 512 := by decide
  have h0 : (to_uint16 ((0 : Int) / 2 ^ 21)).toNat = 0 := by decide
  have hc : to_int16 32767 = 32767 := by decide
  have hs : to_int16 (-0) = 0 := by decide
  simp only [frequency_shift, hphase, hfreq, h512, h0, hsin, hcos, hc, hs, mul_zero, sub_zero,
    add_zero]
  have key : ∀ x : Int, -32768 ≤ x → x ≤ 32767 →
      |to_int16 (asr (to_int32 (x * 32767 + 2 ^ 14)) 15) - x| ≤ 1 := by
    intro x hx1 hx2
    rw [to_int32_of_range (by omega) (by omega)]
    have hr : -32768 ≤ asr (x * 32767 + 2 ^ 14) 15 ∧ asr (x * 32767 + 2 ^ 14) 15 ≤ 32767 := by
      unfold asr; omega
    rw [to_int16_of_range hr.1 hr.2, abs_le]
    unfold asr; omega
  exact ⟨key i hi.1 hi.2, key q hq.1 hq.2, by decide⟩

/-- Witness of C6: the fresh receiver of the small instance and the sample pair
`(-32768, 32767)`, which the shifter maps to `(-32767, 32766)`. -/
theorem frequency_shift_zero_offset_witness :
    (demo_fresh.phase = 0 ∧ demo_fresh.frequency = 0 ∧
      demo_config.sin_table 0 = 0 ∧ demo_config.sin_table 512 = 32767) ∧
    (|(frequency_shift demo_config demo_fresh (-32768) 32767).1 - (-32768)| ≤ 1 ∧
      |(frequency_shift demo_config demo_fresh (-32768) 32767).2.1 - 32767| ≤ 1 ∧
      (frequency_shift demo_config demo_fresh (-32768) 32767).2.2.phase = 0) ∧
    (frequency_shift demo_config demo_fresh (-32768) 32767).1 = -32767 ∧
    (frequency_shift demo_config demo_fresh (-32768) 32767).2.1 = 32766 :=
  ⟨⟨rfl, rfl, rfl, rfl⟩,
    frequency_shift_zero_offset demo_config demo_fresh (-32768) 32767 rfl rfl rfl rfl
      (by decide) (by decide),
    by decide, by decide⟩

/-! ## Signal strength read-out -/

/-- C9: `get_signal_strength_dBm` returns -130 whenever `signal_amplitude` is 0, whatever
the gain calibration and whatever the logarithmic conversion `dBm_of` would give (any two
parameter sets agree, so the conversion is not consulted); when `signal_amplitude` is not 0
the result is the logarithmic conversion of the amplitude, stored into an `int16_t`. -/
theorem get_signal_strength_dBm_sentinel (P P' : rx_config σ) (s : rx_dsp σ) (gain : Int) :
    (s.signal_amplitude = 0 →
      get_signal_strength_dBm P { s with amplifier_gain_dB := gain } = -130 ∧
      get_signal_strength_dBm P { s with amplifier_gain_dB := gain } =
        get_signal_strength_dBm P' s) ∧
    (s.signal_amplitude ≠ 0 →
      get_signal_strength_dBm P s = to_int16 (P.dBm_of s.signal_amplitude s.amplifier_gain_dB)) := by
  constructor
  · intro h
    simp [get_signal_strength_dBm, h]
  · intro h
    simp [get_signal_strength_dBm, h]

/-- Witness of C9: amplitude 0 with gain calibration 57 gives -130; amplitude 1000 takes
the conversion of the small instance. -/
theorem get_signal_strength_dBm_sentinel_witness :
    get_signal_strength_dBm demo_config { demo_raw with amplifier_gain_dB := 57 } = -130 ∧
    get_signal_strength_dBm demo_config { demo_raw with signal_amplitude := 1000 } =
      to_int16 (demo_config.dBm_of 1000 0) :=
  ⟨((get_signal_strength_dBm_sentinel demo_config demo_config demo_raw 57).1 rfl).1,
    (get_signal_strength_dBm_sentinel demo_config demo_config
      { demo_raw with signal_amplitude := 1000 } 0).2 (by decide)⟩

/-! ## Members that the per-sample functions leave alone -/

theorem decimate_squelch (P : rx_config σ) (s : rx_dsp σ) (i q : Int) :
    (decimate P s i q).2.2.2.signal_amplitude = s.signal_amplitude ∧
      (decimate P s i q).2.2.2.squelch_threshold = s.squelch_threshold := by
  unfold decimate
  simp only []
  split_ifs <;> exact ⟨rfl, rfl⟩

theorem frequency_shift_squelch (P : rx_config σ) (s : rx_dsp σ) (i q : Int) :
    (frequency_shift P s i q).2.2.signal_amplitude = s.signal_amplitude ∧
      (frequency_shift P s i q).2.2.squelch_threshold = s.squelch_threshold :=
  ⟨rfl, rfl⟩

theorem demodulate_squelch (P : rx_config σ) (s : rx_dsp σ) (i q : Int) :
    (demodulate P s i q).2.signal_amplitude = s.signal_amplitude ∧
      (demodulate P s i q).2.squelch_threshold = s.squelch_threshold := by
  unfold demodulate
  simp only []
  split_ifs <;> exact ⟨rfl, rfl⟩

theorem apply_deemphasis_squelch (s : rx_dsp σ) (x : Int) :
    (apply_deemphasis s x).2.signal_amplitude = s.signal_amplitude ∧
      (apply_deemphasis s x).2.squelch_threshold = s.squelch_threshold := by
  unfold apply_deemphasis
  simp only []
  split_ifs <;> exact ⟨rfl, rfl⟩

theorem automatic_gain_control_squelch (s : rx_dsp σ) (x : Int) :
    (automatic_gain_control s x).2.signal_amplitude = s.signal_amplitude ∧
      (automatic_gain_control s x).2.squelch_threshold = s.squelch_threshold := by
  unfold automatic_gain_control
  simp only []
  split_ifs <;> exact ⟨rfl, rfl⟩

theorem audio_chain_eq (P : rx_config σ) (s : rx_dsp σ) (i q : Int) :
    audio_chain P s i q =
      automatic_gain_control
        (apply_deemphasis (demodulate P s i q).2 (to_int16 (demodulate P s i q).1)).2
        (to_int16 (apply_deemphasis (demodulate P s i q).2 (to_int16 (demodulate P s i q).1)).1) :=
  rfl

theorem audio_chain_squelch (P : rx_config σ) (s : rx_dsp σ) (i q : Int) :
    (audio_chain P s i q).2.signal_amplitude = s.signal_amplitude ∧
      (audio_chain P s i q).2.squelch_threshold = s.squelch_threshold := by
  rw [audio_chain_eq]
  have h1 := demodulate_squelch P s i q
  have h2 := apply_deemphasis_squelch (demodulate P s i q).2 (to_int16 (demodulate P s i q).1)
  have h3 := automatic_gain_control_squelch
    (apply_deemphasis (demodulate P s i q).2 (to_int16 (demodulate P s i q).1)).2
    (to_int16 (apply_deemphasis (demodulate P s i q).2 (to_int16 (demodulate P s i q).1)).1)
  exact ⟨h3.1.trans (h2.1.trans h1.1), h3.2.trans (h2.2.trans h1.2)⟩

theorem audio_chain_range (P : rx_config σ) (s : rx_dsp σ) (i q : Int) :
    -32767 ≤ (audio_chain P s i q).1 ∧ (audio_chain P s i q).1 ≤ 32767 := by
  rw [audio_chain_eq]
  unfold automatic_gain_control
  exact hard_clamp_range _

theorem sample_step_squelch (P : rx_config σ) (samples : Nat → Nat) (idx : Nat)
    (st : sample_locals σ) :
    (sample_step P samples idx st).self.signal_amplitude = st.self.signal_amplitude ∧
      (sample_step P samples idx st).self.squelch_threshold = st.self.squelch_threshold := by
  unfold sample_step
  simp only []
  split
  · next i q s1 h =>
    have h1 := decimate_squelch P st.self
      (to_int16 (((idx % 2 ^^^ 1 ^^^ st.self.swap_iq.toNat : Nat) : Int)
        * to_int16 (to_int16 (samples idx) - st.self.dc)))
      (to_int16 (((idx % 2 ^^^ st.self.swap_iq.toNat : Nat) : Int)
        * to_int16 (to_int16 (samples idx) - st.self.dc)))
    rw [h] at h1
    exact h1
  · next i q s1 h =>
    have h1 := decimate_squelch P st.self
      (to_int16 (((idx % 2 ^^^ 1 ^^^ st.self.swap_iq.toNat : Nat) : Int)
        * to_int16 (to_int16 (samples idx) - st.self.dc)))
      (to_int16 (((idx % 2 ^^^ st.self.swap_iq.toNat : Nat) : Int)
        * to_int16 (to_int16 (samples idx) - st.self.dc)))
    rw [h] at h1
    exact h1

theorem sample_loop_succ (P : rx_config σ) (samples : Nat → Nat) (n idx : Nat)
    (st : sample_locals σ) :
    sample_loop P samples (n + 1) idx st =
      sample_step P samples (idx + n) (sample_loop P samples n idx st) := by
  induction n generalizing idx st with
  | zero => rfl
  | succ n ih =>
    rw [sample_loop, ih (idx + 1) (sample_step P samples idx st), sample_loop]
    congr 1
    omega

theorem sample_loop_squelch (P : rx_config σ) (samples : Nat → Nat) (n idx : Nat)
    (st : sample_locals σ) :
    (sample_loop P samples n idx st).self.signal_amplitude = st.self.signal_amplitude ∧
      (sample_loop P samples n idx st).self.squelch_threshold = st.self.squelch_threshold := by
  induction n generalizing idx st with
  | zero => exact ⟨rfl, rfl⟩
  | succ n ih =>
    rw [sample_loop]
    have h1 := ih (idx + 1) (sample_step P samples idx st)
    have h2 := sample_step_squelch P samples idx st
    exact ⟨h1.1.trans h2.1, h1.2.trans h2.2⟩

theorem process_block_filter_squelch (P : rx_config σ) (st : sample_locals σ) :
    (process_block_filter P st).1.signal_amplitude = st.self.signal_amplitude ∧
      (process_block_filter P st).1.squelch_threshold = st.self.squelch_threshold :=
  ⟨rfl, rfl⟩

/-! ## The audio loop of `process_block` -/

theorem audio_step_self (P : rx_config σ) (real imag : Nat → Int) (idx : Nat)
    (st : audio_locals σ) :
    (audio_step P real imag idx st).self =
      (audio_chain P st.self (to_int16 (real idx)) (to_int16 (imag idx))).2 :=
  rfl

theorem audio_step_audio_samples (P : rx_config σ) (real imag : Nat → Int) (idx : Nat)
    (st : audio_locals σ) :
    (audio_step P real imag idx st).audio_samples =
      write st.audio_samples idx (to_int16
        (if (audio_chain P st.self (to_int16 (real idx)) (to_int16 (imag idx))).2.signal_amplitude
            < (audio_chain P st.self (to_int16 (real idx)) (to_int16 (imag idx))).2.squelch_threshold
         then 0
         else (audio_chain P st.self (to_int16 (real idx)) (to_int16 (imag idx))).1)) :=
  rfl

theorem audio_loop_succ (P : rx_config σ) (real imag : Nat → Int) (n idx : Nat)
    (st : audio_locals σ) :
    audio_loop P real imag (n + 1) idx st =
      audio_step P real imag (idx + n) (audio_loop P real imag n idx st) := by
  induction n generalizing idx st with
  | zero => rfl
  | succ n ih =>
    rw [audio_loop, ih (idx + 1) (audio_step P real imag idx st), audio_loop]
    congr 1
    omega

theorem audio_state_squelch (P : rx_config σ) (real imag : Nat → Int) (s : rx_dsp σ) (k : Nat) :
    (audio_state P real imag s k).signal_amplitude = s.signal_amplitude ∧
      (audio_state P real imag s k).squelch_threshold = s.squelch_threshold := by
  induction k with
  | zero => exact ⟨rfl, rfl⟩
  | succ k ih =>
    have h := audio_chain_squelch P (audio_state P real imag s k) (to_int16 (real k))
      (to_int16 (imag k))
    exact ⟨h.1.trans ih.1, h.2.trans ih.2⟩

/-- After `n` iterations from index 0 the loop has reached `audio_state n`, has stored the
squelched AGC output at every index below `n`, and has left every other index alone. -/
theorem audio_loop_spec (P : rx_config σ) (real imag : Nat → Int) (n : Nat)
    (st : audio_locals σ) :
    (audio_loop P real imag n 0 st).self = audio_state P real imag st.self n ∧
    (∀ k, k < n → (audio_loop P real imag n 0 st).audio_samples k =
      if st.self.signal_amplitude < st.self.squelch_threshold then 0
      else agc_output P real imag st.self k) ∧
    (∀ k, n ≤ k → (audio_loop P real imag n 0 st).audio_samples k = st.audio_samples k) := by
  induction n with
  | zero => exact ⟨rfl, fun k hk => absurd hk (Nat.not_lt_zero k), fun k _ => rfl⟩
  | succ n ih =>
    obtain ⟨hself, hlow, hhigh⟩ := ih
    rw [audio_loop_succ, Nat.zero_add]
    refine ⟨?_, ?_, ?_⟩
    · rw [audio_step_self, hself]; rfl
    · intro k hk
      rw [audio_step_audio_samples, hself]
      by_cases hkn : k = n
      · subst hkn
        rw [write_same]
        have hsq := audio_chain_squelch P (audio_state P real imag st.self k)
          (to_int16 (real k)) (to_int16 (imag k))
        have hst := audio_state_squelch P real imag st.self k
        have hr := audio_chain_range P (audio_state P real imag st.self k)
          (to_int16 (real k)) (to_int16 (imag k))
        rw [hsq.1, hsq.2, hst.1, hst.2]
        split_ifs
        · rfl
        · exact to_int16_of_range (by omega) (by omega)
      · rw [write_other _ _ _ _ hkn]
        exact hlow k (by omega)
    · intro k hk
      rw [audio_step_audio_samples, write_other _ _ _ _ (by omega)]
      exact hhigh k (by omega)

/-! ## Block length and squelch -/

/-- C1: for every input block and every receiver state `process_block` returns
`adc_block_size / decimation_rate` and writes exactly the indices below that count: the
value left at such an index does not depend on what the output array held before the call,
and every other index keeps its old value.  With CIC factor 16 and overall factor twice
that, the count is the input block length divided by 32. -/
theorem process_block_count (P : rx_config σ) (s : rx_dsp σ) (samples : Nat → Nat)
    (audio_samples audio_samples' : Nat → Int) :
    (process_block P s samples audio_samples).count
        = ((P.adc_block_size / P.decimation_rate : Nat) : Int) ∧
    (∀ k : Nat, k < P.adc_block_size / P.decimation_rate →
      (process_block P s samples audio_samples).audio_samples k
        = (process_block P s samples audio_samples').audio_samples k) ∧
    (∀ k : Nat, P.adc_block_size / P.decimation_rate ≤ k →
      (process_block P s samples audio_samples).audio_samples k = audio_samples k) ∧
    (P.cic_decimation_rate = 16 → P.decimation_rate = P.cic_decimation_rate * 2 →
      (process_block P s samples audio_samples).count = ((P.adc_block_size / 32 : Nat) : Int)) := by
  have hcount : (process_block P s samples audio_samples).count
      = ((P.adc_block_size / P.decimation_rate : Nat) : Int) := by
    have hsize := P.adc_block_size_fits
    have hle : P.adc_block_size / P.decimation_rate ≤ P.adc_block_size := Nat.div_le_self _ _
    show to_uint16 ((P.adc_block_size / P.decimation_rate : Nat) : Int) = _
    generalize P.adc_block_size / P.decimation_rate = m at hle
    unfold to_uint16
    omega
  refine ⟨hcount, ?_, ?_, ?_⟩
  · intro k hk
    have h1 := (audio_loop_spec P (process_block_filter P (process_block_front P s samples)).2.1
      (process_block_filter P (process_block_front P s samples)).2.2
      (P.adc_block_size / P.decimation_rate)
      { self := (process_block_filter P (process_block_front P s samples)).1,
        audio_samples := audio_samples, magnitude_sum := 0 }).2.1 k hk
    have h2 := (audio_loop_spec P (process_block_filter P (process_block_front P s samples)).2.1
      (process_block_filter P (process_block_front P s samples)).2.2
      (P.adc_block_size / P.decimation_rate)
      { self := (process_block_filter P (process_block_front P s samples)).1,
        audio_samples := audio_samples', magnitude_sum := 0 }).2.1 k hk
    exact h1.trans h2.symm
  · intro k hk
    exact (audio_loop_spec P (process_block_filter P (process_block_front P s samples)).2.1
      (process_block_filter P (process_block_front P s samples)).2.2
      (P.adc_block_size / P.decimation_rate)
      { self := (process_block_filter P (process_block_front P s samples)).1,
        audio_samples := audio_samples, magnitude_sum := 0 }).2.2 k hk
  · intro h16 h32
    rw [hcount, h32, h16]

/-- Witness of C1: the small instance (64 raw samples, factors 16 and 32) returns 2, writes
indices 0 and 1 and leaves index 2 alone. -/
theorem process_block_count_witness :
    (process_block demo_config demo_fresh (fun k => 1000 * k) (fun _ => 7)).count = 2 ∧
    (process_block demo_config demo_fresh (fun k => 1000 * k) (fun _ => 7)).audio_samples 1
      = (process_block demo_config demo_fresh (fun k => 1000 * k) (fun _ => 8)).audio_samples 1 ∧
    (process_block demo_config demo_fresh (fun k => 1000 * k) (fun _ => 7)).audio_samples 2 = 7 :=
  ⟨(process_block_count demo_config demo_fresh (fun k => 1000 * k) (fun _ => 7)
      (fun _ => 8)).2.2.2 rfl rfl,
    (process_block_count demo_config demo_fresh (fun k => 1000 * k) (fun _ => 7)
      (fun _ => 8)).2.1 1 (by decide),
    (process_block_count demo_config demo_fresh (fun k => 1000 * k) (fun _ => 7)
      (fun _ => 8)).2.2.1 2 (by decide)⟩

/-- C3: while `signal_amplitude < squelch_threshold` on entry, every audio sample written
by `process_block` is 0; otherwise every written sample is the AGC output for that sample
(`agc_output`, computed from the filtered block and the state the audio loop starts in). -/
theorem process_block_squelch (P : rx_config σ) (s : rx_dsp σ) (samples : Nat → Nat)
    (audio_samples : Nat → Int) (k : Nat) (hk : k < P.adc_block_size / P.decimation_rate) :
    (s.signal_amplitude < s.squelch_threshold →
      (process_block P s samples audio_samples).audio_samples k = 0) ∧
    (s.squelch_threshold ≤ s.signal_amplitude →
      (process_block P s samples audio_samples).audio_samples k =
        agc_output P (process_block_filter P (process_block_front P s samples)).2.1
          (process_block_filter P (process_block_front P s samples)).2.2
          (process_block_filter P (process_block_front P s samples)).1 k) := by
  have h := (audio_loop_spec P (process_block_filter P (process_block_front P s samples)).2.1
    (process_block_filter P (process_block_front P s samples)).2.2
    (P.adc_block_size / P.decimation_rate)
    { self := (process_block_filter P (process_block_front P s samples)).1,
      audio_samples := audio_samples, magnitude_sum := 0 }).2.1 k hk
  have hf := process_block_filter_squelch P (process_block_front P s samples)
  have hl := sample_loop_squelch P samples P.adc_block_size 0
    { self := s, real := fun _ => 0, imag := fun _ => 0,
      decimated_index := 0, sample_accumulator := 0 }
  have ha : (process_block_filter P (process_block_front P s samples)).1.signal_amplitude
      = s.signal_amplitude := hf.1.trans hl.1
  have ht : (process_block_filter P (process_block_front P s samples)).1.squelch_threshold
      = s.squelch_threshold := hf.2.trans hl.2
  simp only [ha, ht] at h
  constructor
  · intro hlt
    rw [if_pos hlt] at h
    exact h
  · intro hge
    rw [if_neg (not_lt.mpr hge)] at h
    exact h

/-- Witness of C3: on the small instance a threshold of 5 above the amplitude 0 mutes
sample 1, and with the threshold at 0 sample 1 is the AGC output. -/
theorem process_block_squelch_witness :
    (1 : Nat) < demo_config.adc_block_size / demo_config.decimation_rate ∧
    (process_block demo_config { demo_fresh with squelch_threshold := 5 }
      (fun k => 1000 * k) (fun _ => 7)).audio_samples 1 = 0 ∧
    (process_block demo_config demo_fresh (fun k => 1000 * k) (fun _ => 7)).audio_samples 1 =
      agc_output demo_config
        (process_block_filter demo_config
          (process_block_front demo_config demo_fresh (fun k => 1000 * k))).2.1
        (process_block_filter demo_config
          (process_block_front demo_config demo_fresh (fun k => 1000 * k))).2.2
        (process_block_filter demo_config
          (process_block_front demo_config demo_fresh (fun k => 1000 * k))).1 1 :=
  ⟨by decide,
    (process_block_squelch demo_config { demo_fresh with squelch_threshold := 5 }
      (fun k => 1000 * k) (fun _ => 7) 1 (by decide)).1 (by decide),
    (process_block_squelch demo_config demo_fresh (fun k => 1000 * k) (fun _ => 7) 1
      (by decide)).2 (by decide)⟩

/-! ## AM demodulation of a constant magnitude -/

/-- One AM step while the DC tracker is between 0 and `32 * m`. -/
theorem demodulate_am_step (P : rx_config σ) (s : rx_dsp σ) (i q m : Int)
    (hmode : s.mode = AM) (hm : 0 ≤ m ∧ m ≤ 32767) (hmag : P.rectangular_2_magnitude i q = m)
    (hd : 0 ≤ s.audio_dc ∧ s.audio_dc ≤ 32 * m) :
    (demodulate P s i q).2.mode = AM ∧
    (demodulate P s i q).2.audio_dc = m + (s.audio_dc - s.audio_dc / 32) ∧
    (demodulate P s i q).1 = m - (m + (s.audio_dc - s.audio_dc / 32)) / 32 := by
  have hm16 : to_int16 m = m := to_int16_of_range (by omega) (by omega)
  have h5 : ∀ x : Int, asr x 5 = x / 32 := fun x => by unfold asr; norm_num
  have hdc : to_int32 (m + (s.audio_dc - s.audio_dc / 32)) = m + (s.audio_dc - s.audio_dc / 32) :=
    to_int32_of_range (by omega) (by omega)
  have hout : to_int16 (m - (m + (s.audio_dc - s.audio_dc / 32)) / 32)
      = m - (m + (s.audio_dc - s.audio_dc / 32)) / 32 :=
    to_int16_of_range (by omega) (by omega)
  simp only [demodulate, hmode, if_true, hmag, hm16, h5, hdc, hout]
  exact ⟨trivial, trivial, trivial⟩

/-- Invariant of the AM run: the mode stays AM, the DC tracker stays between 0 and `32 * m`
and after `n` samples it has climbed to at least `min n (32 * m)`. -/
theorem demodulate_state_am (P : rx_config σ) (s : rx_dsp σ) (i q : Nat → Int) (m : Int)
    (hmode : s.mode = AM) (hdc : s.audio_dc = 0) (hm : 0 ≤ m ∧ m ≤ 32767)
    (hmag : ∀ n, P.rectangular_2_magnitude (i n) (q n) = m) (n : Nat) :
    (demodulate_state P i q s n).mode = AM ∧
    0 ≤ (demodulate_state P i q s n).audio_dc ∧
    (demodulate_state P i q s n).audio_dc ≤ 32 * m ∧
    ((n : Int) ≤ (demodulate_state P i q s n).audio_dc ∨
      (demodulate_state P i q s n).audio_dc = 32 * m) := by
  induction n with
  | zero =>
    refine ⟨hmode, ?_, ?_, ?_⟩
    · show 0 ≤ s.audio_dc; omega
    · show s.audio_dc ≤ 32 * m; omega
    · left; show ((0 : Nat) : Int) ≤ s.audio_dc; omega
  | succ n ih =>
    obtain ⟨h1, h2, h3, h4⟩ := ih
    have hs := demodulate_am_step P (demodulate_state P i q s n) (i n) (q n) m h1 hm (hmag n)
      ⟨h2, h3⟩
    show (demodulate P (demodulate_state P i q s n) (i n) (q n)).2.mode = AM ∧
      0 ≤ (demodulate P (demodulate_state P i q s n) (i n) (q n)).2.audio_dc ∧
      (demodulate P (demodulate_state P i q s n) (i n) (q n)).2.audio_dc ≤ 32 * m ∧
      (((n + 1 : Nat) : Int) ≤ (demodulate P (demodulate_state P i q s n) (i n) (q n)).2.audio_dc ∨
        (demodulate P (demodulate_state P i q s n) (i n) (q n)).2.audio_dc = 32 * m)
    rw [hs.2.1]
    refine ⟨hs.1, by omega, by omega, ?_⟩
    push_cast
    omega

/-- C7: in AM mode, with a constant magnitude `m` between 0 and 32767 on every sample and
the DC tracker started at 0, the demodulator output is never negative, never increases
from one sample to the next, and from sample `32 * m` on it is exactly 0, the DC tracker
having reached its fixed point `audio_dc >> 5 == m`. -/
theorem demodulate_am_constant_magnitude (P : rx_config σ) (s : rx_dsp σ) (i q : Nat → Int)
    (m : Int) (hmode : s.mode = AM) (hdc : s.audio_dc = 0) (hm : 0 ≤ m ∧ m ≤ 32767)
    (hmag : ∀ n, P.rectangular_2_magnitude (i n) (q n) = m) :
    (∀ n, 0 ≤ demodulate_output P i q s n) ∧
    (∀ n, demodulate_output P i q s (n + 1) ≤ demodulate_output P i q s n) ∧
    (∀ n : Nat, 32 * m ≤ n →
      demodulate_output P i q s n = 0 ∧ asr (demodulate_state P i q s (n + 1)).audio_dc 5 = m) := by
  have hinv := demodulate_state_am P s i q m hmode hdc hm hmag
  have hstep : ∀ n, (demodulate_state P i q s (n + 1)).audio_dc
        = m + ((demodulate_state P i q s n).audio_dc - (demodulate_state P i q s n).audio_dc / 32) ∧
      demodulate_output P i q s n
        = m - (m + ((demodulate_state P i q s n).audio_dc
            - (demodulate_state P i q s n).audio_dc / 32)) / 32 := by
    intro n
    obtain ⟨h1, h2, h3, _⟩ := hinv n
    have hs := demodulate_am_step P (demodulate_state P i q s n) (i n) (q n) m h1 hm (hmag n)
      ⟨h2, h3⟩
    exact ⟨hs.2.1, hs.2.2⟩
  refine ⟨?_, ?_, ?_⟩
  · intro n
    obtain ⟨_, h2, h3, _⟩ := hinv n
    rw [(hstep n).2]
    omega
  · intro n
    obtain ⟨_, h2, h3, _⟩ := hinv n
    obtain ⟨_, h2', h3', _⟩ := hinv (n + 1)
    rw [(hstep (n + 1)).2, (hstep n).2]
    rw [(hstep n).1] at h2' h3'
    rw [(hstep n).1]
    omega
  · intro n hn
    obtain ⟨_, h2, h3, h4⟩ := hinv n
    have h5 : ∀ x : Int, asr x 5 = x / 32 := fun x => by unfold asr; norm_num
    rw [(hstep n).2, h5, (hstep n).1]
    omega

/-- Witness of C7: magnitude 3 (the small instance gives `(3, 0)` magnitude 3) in the fresh
receiver, whose mode is AM and whose DC tracker is 0. -/
theorem demodulate_am_constant_magnitude_witness :
    (demo_fresh.mode = AM ∧ demo_fresh.audio_dc = 0 ∧ ((0 : Int) ≤ 3 ∧ (3 : Int) ≤ 32767) ∧
      ∀ n : Nat, demo_config.rectangular_2_magnitude ((fun _ => 3) n) ((fun _ => 0) n) = 3) ∧
    (∀ n, 0 ≤ demodulate_output demo_config (fun _ => 3) (fun _ => 0) demo_fresh n) ∧
    (∀ n, demodulate_output demo_config (fun _ => 3) (fun _ => 0) demo_fresh (n + 1)
      ≤ demodulate_output demo_config (fun _ => 3) (fun _ => 0) demo_fresh n) ∧
    (∀ n : Nat, 32 * (3 : Int) ≤ n →
      demodulate_output demo_config (fun _ => 3) (fun _ => 0) demo_fresh n = 0 ∧
      asr (demodulate_state demo_config (fun _ => 3) (fun _ => 0) demo_fresh (n + 1)).audio_dc 5
        = 3) ∧
    demodulate_output demo_config (fun _ => 3) (fun _ => 0) demo_fresh 0 = 3 :=
  ⟨⟨rfl, rfl, by decide, fun _ => rfl⟩,
    (demodulate_am_constant_magnitude demo_config demo_fresh (fun _ => 3) (fun _ => 0) 3
      rfl rfl (by decide) (fun _ => rfl)).1,
    (demodulate_am_constant_magnitude demo_config demo_fresh (fun _ => 3) (fun _ => 0) 3
      rfl rfl (by decide) (fun _ => rfl)).2.1,
    (demodulate_am_constant_magnitude demo_config demo_fresh (fun _ => 3) (fun _ => 0) 3
      rfl rfl (by decide) (fun _ => rfl)).2.2,
    by decide⟩

/-! ## Spectrum read-out order -/

theorem spectrum_loop_succ (P : rx_config σ) (capture : Nat → Int) (min max : Int) (n i : Nat)
    (st : spectrum_locals) :
    spectrum_loop P capture min max (n + 1) i st =
      spectrum_step P capture min max (i + n) (spectrum_loop P capture min max n i st) := by
  induction n generalizing i st with
  | zero => rfl
  | succ n ih =>
    rw [spectrum_loop, ih (i + 1) (spectrum_step P capture min max i st), spectrum_loop]
    congr 1
    omega

theorem spectrum_step_spectrum (P : rx_config σ) (capture : Nat → Int) (min max : Int) (i : Nat)
    (st : spectrum_locals) :
    (spectrum_step P capture min max i st).spectrum =
      write st.spectrum st.f.toNat (spectrum_value P capture min max i) :=
  rfl

/-- An output loop that starts at byte index `f` and runs `n` times with `f + n ≤ 255`
stores bin `i + k` at index `f + k` for every `k < n` and touches no other index. -/
theorem spectrum_loop_spec (P : rx_config σ) (capture : Nat → Int) (min max : Int) (n i : Nat)
    (st : spectrum_locals) (f : Nat) (hf : st.f = f) (hn : f + n ≤ 255) :
    (spectrum_loop P capture min max n i st).f = ((f + n : Nat) : Int) ∧
    (∀ k, k < n → (spectrum_loop P capture min max n i st).spectrum (f + k)
      = spectrum_value P capture min max (i + k)) ∧
    (∀ j, j < f ∨ f + n ≤ j →
      (spectrum_loop P capture min max n i st).spectrum j = st.spectrum j) := by
  induction n with
  | zero =>
    refine ⟨by simpa using hf, fun k hk => absurd hk (Nat.not_lt_zero k), fun j _ => rfl⟩
  | succ n ih =>
    obtain ⟨h1, h2, h3⟩ := ih (by omega)
    rw [spectrum_loop_succ]
    have hidx : (spectrum_loop P capture min max n i st).f.toNat = f + n := by
      rw [h1]; exact Int.toNat_ofNat _
    refine ⟨?_, ?_, ?_⟩
    · show to_uint8 ((spectrum_loop P capture min max n i st).f + 1) = _
      rw [h1]
      unfold to_uint8
      push_cast
      omega
    · intro k hk
      rw [spectrum_step_spectrum, hidx]
      by_cases hkn : k = n
      · subst hkn
        rw [write_same]
      · rw [write_other _ _ _ _ (by omega)]
        exact h2 k (by omega)
    · intro j hj
      rw [spectrum_step_spectrum, hidx, write_other _ _ _ _ (by omega)]
      exact h3 j (by omega)

/-- C10 (what the code does): whenever `get_spectrum` returns, output bytes 0..127 hold the
values of capture bins 128..255 and bytes 128..254 hold the values of bins 0..126, but byte
255 is not written at all (it keeps the caller's old content), so capture bin 127 never
reaches the output: the second loop runs `i < 127`. -/
theorem get_spectrum_skips_last_bin (P : rx_config σ) (s : rx_dsp σ) (spectrum : Nat → Int)
    (r : spectrum_result σ) (h : get_spectrum P s spectrum = some r) :
    r.spectrum 255 = spectrum 255 ∧
    (∀ f, f < 128 → r.spectrum f = spectrum_value P s.capture r.self.min
      (if r.self.max < 2500 then 2500 else r.self.max) (128 + f)) ∧
    (∀ f, 128 ≤ f → f < 255 → r.spectrum f = spectrum_value P s.capture r.self.min
      (if r.self.max < 2500 then 2500 else r.self.max) (f - 128)) := by
  unfold get_spectrum at h
  split_ifs at h with hsem
  simp only [Option.some.injEq] at h
  subst h
  simp only []
  generalize to_uint16 (s.min - s.min / 2 + (minmax_loop s.capture 256 0 (0, 65535)).2 / 2)
    = mn
  generalize (if to_uint16 (s.max - s.max / 2 + (minmax_loop s.capture 256 0 (0, 65535)).1 / 2)
    < 2500 then (2500 : Int)
    else to_uint16 (s.max - s.max / 2 + (minmax_loop s.capture 256 0 (0, 65535)).1 / 2)) = mx
  obtain ⟨a1, a2, a3⟩ := spectrum_loop_spec P s.capture mn mx 128 128
    { f := 0, spectrum := spectrum } 0 rfl (by omega)
  obtain ⟨b1, b2, b3⟩ := spectrum_loop_spec P s.capture mn mx 127 0
    (spectrum_loop P s.capture mn mx 128 128 { f := 0, spectrum := spectrum }) (0 + 128) a1
    (by omega)
  refine ⟨?_, ?_, ?_⟩
  · rw [b3 255 (by omega), a3 255 (by omega)]
  · intro f hf
    rw [b3 f (by omega)]
    have := a2 f hf
    rwa [Nat.zero_add] at this
  · intro f hf1 hf2
    have hb := b2 (f - 128) (by omega)
    have e : 0 + 128 + (f - 128) = f := by omega
    rw [e, Nat.zero_add] at hb
    exact hb

set_option maxRecDepth 100000 in
/-- Witness of C10: capture bin 127 holds 200 and every other bin 100; with the caller's
array full of 7 the call returns and leaves 7 at byte 255, and 100 at byte 254. -/
theorem get_spectrum_skips_last_bin_witness :
    ∃ r, get_spectrum demo_config
        { demo_raw with spectrum_semaphore := 1, capture := fun k => if k = 127 then 200 else 100 }
        (fun _ => 7) = some r ∧
      r.spectrum 255 = 7 ∧ r.spectrum 254 = 100 ∧ r.spectrum 0 = 100 :=
  ⟨_, rfl,
    (get_spectrum_skips_last_bin demo_config
      { demo_raw with spectrum_semaphore := 1, capture := fun k => if k = 127 then 200 else 100 }
      (fun _ => 7) _ rfl).1,
    by decide, by decide⟩

/-! ### Closed form of the CIC registers on a constant input -/

theorem ideal_integrator2_closed (c : Int) (t : Nat) :
    2 * ideal_integrator2 c t = c * t * (t + 1) := by
  induction t with
  | zero => simp [ideal_integrator2]
  | succ t ih =>
    simp only [ideal_integrator2, ideal_integrator1]
    push_cast
    linear_combination ih

theorem ideal_integrator3_closed (c : Int) (t : Nat) :
    6 * ideal_integrator3 c t = c * t * (t + 1) * (t + 2) := by
  induction t with
  | zero => simp [ideal_integrator3]
  | succ t ih =>
    have h2 := ideal_integrator2_closed c (t + 1)
    simp only [ideal_integrator3]
    push_cast at h2 ⊢
    linear_combination ih + 3 * h2

theorem ideal_integrator4_closed (c : Int) (t : Nat) :
    24 * ideal_integrator4 c t = c * t * (t + 1) * (t + 2) * (t + 3) := by
  induction t with
  | zero => simp [ideal_integrator4]
  | succ t ih =>
    have h3 := ideal_integrator3_closed c (t + 1)
    simp only [ideal_integrator4]
    push_cast at h3 ⊢
    linear_combination ih + 4 * h3

/-- From the fourth decimation cycle on the fourth comb stage is the input times `16^4`. -/
theorem ideal_comb4_settled (c : Int) (m : Nat) :
    ideal_delay3 c (m + 4) - ideal_delay3 c (m + 3) = c * 65536 := by
  have h0 := ideal_integrator4_closed c (16 * m)
  have h1 := ideal_integrator4_closed c (16 * (m + 1))
  have h2 := ideal_integrator4_closed c (16 * (m + 2))
  have h3 := ideal_integrator4_closed c (16 * (m + 3))
  have h4 := ideal_integrator4_closed c (16 * (m + 4))
  have d3a : ideal_delay3 c (m + 4) = ideal_delay2 c (m + 4) - ideal_delay2 c (m + 3) := rfl
  have d3b : ideal_delay3 c (m + 3) = ideal_delay2 c (m + 3) - ideal_delay2 c (m + 2) := rfl
  have d2a : ideal_delay2 c (m + 4) = ideal_delay1 c (m + 4) - ideal_delay1 c (m + 3) := rfl
  have d2b : ideal_delay2 c (m + 3) = ideal_delay1 c (m + 3) - ideal_delay1 c (m + 2) := rfl
  have d2c : ideal_delay2 c (m + 2) = ideal_delay1 c (m + 2) - ideal_delay1 c (m + 1) := rfl
  have d1a : ideal_delay1 c (m + 4)
      = ideal_integrator4 c (16 * (m + 4)) - ideal_integrator4 c (16 * (m + 3)) := rfl
  have d1b : ideal_delay1 c (m + 3)
      = ideal_integrator4 c (16 * (m + 3)) - ideal_integrator4 c (16 * (m + 2)) := rfl
  have d1c : ideal_delay1 c (m + 2)
      = ideal_integrator4 c (16 * (m + 2)) - ideal_integrator4 c (16 * (m + 1)) := rfl
  have d1d : ideal_delay1 c (m + 1)
      = ideal_integrator4 c (16 * (m + 1)) - ideal_integrator4 c (16 * m) := rfl
  push_cast at h0 h1 h2 h3 h4
  have key : 24 * (ideal_integrator4 c (16 * (m + 4)) - 4 * ideal_integrator4 c (16 * (m + 3))
      + 6 * ideal_integrator4 c (16 * (m + 2)) - 4 * ideal_integrator4 c (16 * (m + 1))
      + ideal_integrator4 c (16 * m)) = 24 * (c * 65536) := by
    linear_combination h4 - 4 * h3 + 6 * h2 - 4 * h1 + h0
  omega

theorem decimate_tracks (P : rx_config σ) (hrate : P.cic_decimation_rate = 16) (i q : Int)
    (s : rx_dsp σ) (t : Nat) (h : cic_tracks i q s t) :
    cic_tracks i q (decimate P s i q).2.2.2 (t + 1) := by
  obtain ⟨hc, ⟨hi1, hi2, hi3, hi4⟩, ⟨hq1, hq2, hq3, hq4⟩, ⟨di0, di1, di2, di3⟩,
    ⟨dq0, dq1, dq2, dq3⟩⟩ := h
  have a1 : ideal_integrator1 i (t + 1) = ideal_integrator1 i t + i := by
    simp only [ideal_integrator1]; push_cast; ring
  have a2 : ideal_integrator2 i (t + 1) = ideal_integrator2 i t + ideal_integrator1 i (t + 1) := rfl
  have a3 : ideal_integrator3 i (t + 1) = ideal_integrator3 i t + ideal_integrator2 i (t + 1) := rfl
  have a4 : ideal_integrator4 i (t + 1) = ideal_integrator4 i t + ideal_integrator3 i (t + 1) := rfl
  have b1 : ideal_integrator1 q (t + 1) = ideal_integrator1 q t + q := by
    simp only [ideal_integrator1]; push_cast; ring
  have b2 : ideal_integrator2 q (t + 1) = ideal_integrator2 q t + ideal_integrator1 q (t + 1) := rfl
  have b3 : ideal_integrator3 q (t + 1) = ideal_integrator3 q t + ideal_integrator2 q (t + 1) := rfl
  have b4 : ideal_integrator4 q (t + 1) = ideal_integrator4 q t + ideal_integrator3 q (t + 1) := rfl
  by_cases h15 : t % 16 = 15
  · have hfire : s.decimate_count + 1 ≥ ((P.cic_decimation_rate : Nat) : Int) := by
      rw [hc, hrate]; omega
    have hdiv : (t + 1) / 16 = t / 16 + 1 := by omega
    have hmod : (t + 1) % 16 = 0 := by omega
    have h16 : 16 * (t / 16 + 1) = t + 1 := by omega
    have k0 : ideal_delay0 i (t / 16 + 1) = ideal_integrator4 i (t + 1) := by
      unfold ideal_delay0; rw [h16]
    have k1 : ideal_delay1 i (t / 16 + 1) = ideal_delay0 i (t / 16 + 1) - ideal_delay0 i (t / 16) := rfl
    have k2 : ideal_delay2 i (t / 16 + 1) = ideal_delay1 i (t / 16 + 1) - ideal_delay1 i (t / 16) := rfl
    have k3 : ideal_delay3 i (t / 16 + 1) = ideal_delay2 i (t / 16 + 1) - ideal_delay2 i (t / 16) := rfl
    have l0 : ideal_delay0 q (t / 16 + 1) = ideal_integrator4 q (t + 1) := by
      unfold ideal_delay0; rw [h16]
    have l1 : ideal_delay1 q (t / 16 + 1) = ideal_delay0 q (t / 16 + 1) - ideal_delay0 q (t / 16) := rfl
    have l2 : ideal_delay2 q (t / 16 + 1) = ideal_delay1 q (t / 16 + 1) - ideal_delay1 q (t / 16) := rfl
    have l3 : ideal_delay3 q (t / 16 + 1) = ideal_delay2 q (t / 16 + 1) - ideal_delay2 q (t / 16) := rfl
    unfold cic_tracks decimate
    simp only [hfire, if_true, hdiv, hmod, hi1, hi2, hi3, hi4, hq1, hq2, hq3, hq4, di0, di1, di2,
      di3, dq0, dq1, dq2, dq3]
    unfold to_int32
    refine ⟨rfl, ⟨?_, ?_, ?_, ?_⟩, ⟨?_, ?_, ?_, ?_⟩, ⟨?_, ?_, ?_, ?_⟩, ⟨?_, ?_, ?_, ?_⟩⟩ <;> omega
  · have hfire : ¬ (s.decimate_count + 1 ≥ ((P.cic_decimation_rate : Nat) : Int)) := by
      rw [hc, hrate]; omega
    have hdiv : (t + 1) / 16 = t / 16 := by omega
    have hmod : (((t + 1) % 16 : Nat) : Int) = ((t % 16 : Nat) : Int) + 1 := by omega
    unfold cic_tracks decimate
    simp only [hfire, if_false, hdiv, hmod, hi1, hi2, hi3, hi4, hq1, hq2, hq3, hq4, di0, di1, di2,
      di3, dq0, dq1, dq2, dq3]
    unfold to_int32
    refine ⟨?_, ⟨?_, ?_, ?_, ?_⟩, ⟨?_, ?_, ?_, ?_⟩, ⟨?_, ?_, ?_, ?_⟩, ⟨?_, ?_, ?_, ?_⟩⟩ <;>
      first | trivial | omega

theorem decimate_state_tracks (P : rx_config σ) (hrate : P.cic_decimation_rate = 16) (i q : Int)
    (s : rx_dsp σ) (hs : cic_cleared s) (t : Nat) :
    cic_tracks i q (decimate_state P i q s t) t := by
  induction t with
  | zero =>
    obtain ⟨hc, ⟨hi1, hi2, hi3, hi4⟩, ⟨hq1, hq2, hq3, hq4⟩, ⟨di0, di1, di2, di3⟩,
      ⟨dq0, dq1, dq2, dq3⟩⟩ := hs
    unfold cic_tracks decimate_state
    simp [hc, hi1, hi2, hi3, hi4, hq1, hq2, hq3, hq4, di0, di1, di2, di3, dq0, dq1, dq2, dq3,
      ideal_integrator1, ideal_integrator2, ideal_integrator3, ideal_integrator4,
      ideal_delay0, ideal_delay1, ideal_delay2, ideal_delay3, to_int32]
  | succ t ih => exact decimate_tracks P hrate i q _ t ih

/-- Bit-growth removal of a settled comb value `v * 2^n` with `n = 16 - extra_bits`. -/
theorem bit_growth_removal (e : Nat) (he : e < 16) (c : Int)
    (hc : -32767 ≤ c * 2 ^ e ∧ c * 2 ^ e ≤ 32767) :
    to_int16 (asr (to_int32 (to_int32 (c * 65536) - 2 ^ (16 - e - 1))) (16 - e))
      = c * 2 ^ e - 1 := by
  unfold to_int16 asr to_int32
  interval_cases e <;> simp only [Nat.reduceSub, Nat.reducePow, Int.reducePow] at hc ⊢ <;> omega

/-- Outputs of a call of `decimate` that completes a decimation cycle, in terms of the
third comb delay before and after the call. -/
theorem decimate_fire_output (P : rx_config σ) (s : rx_dsp σ) (i q : Int)
    (hfire : s.decimate_count + 1 ≥ ((P.cic_decimation_rate : Nat) : Int)) :
    (decimate P s i q).1 = true ∧
    (decimate P s i q).2.1 = to_int16 (asr (to_int32
      (to_int32 ((decimate P s i q).2.2.2.delayi3 - s.delayi3)
        - 2 ^ (P.cic_bit_growth - P.extra_bits - 1))) (P.cic_bit_growth - P.extra_bits)) ∧
    (decimate P s i q).2.2.1 = to_int16 (asr (to_int32
      (to_int32 ((decimate P s i q).2.2.2.delayq3 - s.delayq3)
        - 2 ^ (P.cic_bit_growth - P.extra_bits - 1))) (P.cic_bit_growth - P.extra_bits)) := by
  simp only [decimate, hfire, if_true]
  exact ⟨trivial, trivial, trivial⟩

/-- Settled CIC output: with CIC factor 16, bit growth 16 and cleared registers, a
constant input `c` whose scaled value `c * 2^extra_bits` lies in [-32767, 32767] gives, on
the call that completes decimation cycle `k ≥ 4`, the output `c * 2^extra_bits - 1` on both
channels (one LSB below the scaled input, the bias being subtracted before the shift). -/
theorem decimate_constant_settled (P : rx_config σ) (s : rx_dsp σ) (c : Int) (k : Nat)
    (hrate : P.cic_decimation_rate = 16) (hgrowth : P.cic_bit_growth = 16)
    (heb : P.extra_bits < 16) (hs : cic_cleared s)
    (hc : -32767 ≤ c * 2 ^ P.extra_bits ∧ c * 2 ^ P.extra_bits ≤ 32767) (hk : 4 ≤ k) :
    decimate_output P c c s (16 * k - 1)
      = (true, c * 2 ^ P.extra_bits - 1, c * 2 ^ P.extra_bits - 1) := by
  obtain ⟨m, rfl⟩ : ∃ m, k = m + 4 := ⟨k - 4, by omega⟩
  have ht : 16 * (m + 4) - 1 = 16 * (m + 3) + 15 := by omega
  rw [ht]
  have h0 := decimate_state_tracks P hrate c c s hs (16 * (m + 3) + 15)
  have h1 : cic_tracks c c (decimate P (decimate_state P c c s (16 * (m + 3) + 15)) c c).2.2.2
      (16 * (m + 3) + 15 + 1) := decimate_tracks P hrate c c _ _ h0
  have hmod : (16 * (m + 3) + 15) % 16 = 15 := by omega
  have hdiv0 : (16 * (m + 3) + 15) / 16 = m + 3 := by omega
  have hdiv1 : (16 * (m + 3) + 15 + 1) / 16 = m + 4 := by omega
  have hfire : (decimate_state P c c s (16 * (m + 3) + 15)).decimate_count + 1
      ≥ ((P.cic_decimation_rate : Nat) : Int) := by
    rw [h0.1, hrate, hmod]; decide
  obtain ⟨o1, o2, o3⟩ := decimate_fire_output P (decimate_state P c c s (16 * (m + 3) + 15)) c c
    hfire
  have hi_old := h0.2.2.2.1.2.2.2
  have hq_old := h0.2.2.2.2.2.2.2
  have hi_new : (decimate P (decimate_state P c c s (16 * (m + 3) + 15)) c c).2.2.2.delayi3
      = to_int32 (ideal_delay3 c (m + 4)) := by
    have := h1.2.2.2.1.2.2.2
    rwa [hdiv1] at this
  have hq_new : (decimate P (decimate_state P c c s (16 * (m + 3) + 15)) c c).2.2.2.delayq3
      = to_int32 (ideal_delay3 c (m + 4)) := by
    have := h1.2.2.2.2.2.2.2
    rwa [hdiv1] at this
  rw [hdiv0] at hi_old hq_old
  have hsettled := ideal_comb4_settled c m
  have hcomb : to_int32 (to_int32 (ideal_delay3 c (m + 4)) - to_int32 (ideal_delay3 c (m + 3)))
      = to_int32 (c * 65536) := by
    rw [← hsettled]; unfold to_int32; omega
  have hout := bit_growth_removal P.extra_bits heb c hc
  rw [hi_new, hi_old, hcomb, hgrowth, hout] at o2
  rw [hq_new, hq_old, hcomb, hgrowth, hout] at o3
  unfold decimate_output
  rw [o1, o2, o3]

theorem decimate_flag (P : rx_config σ) (s : rx_dsp σ) (i q : Int) :
    (decimate P s i q).1 = true ↔ s.decimate_count + 1 ≥ ((P.cic_decimation_rate : Nat) : Int) := by
  unfold decimate
  simp only []
  split_ifs with h
  · exact ⟨fun _ => h, fun _ => rfl⟩
  · exact ⟨fun hf => absurd hf (by decide), fun hf => absurd hf h⟩

/-! ## CIC filter on a constant input -/

set_option maxRecDepth 100000 in
/-- C5 (as stated, refuted): on the small instance (CIC factor 16, bit growth 16, 2 extra
bits, cleared registers) the constant input -8192 has the scaled value -8192 * 4 = -32768,
which fits in 16 bits, but the output of the 4th decimation cycle is 32767 on both channels,
which is not within one LSB of -32768. -/
theorem decimate_constant_full_scale_wraps :
    cic_cleared demo_fresh ∧
    (-32768 ≤ (-8192 : Int) * 2 ^ demo_config.extra_bits ∧
      (-8192 : Int) * 2 ^ demo_config.extra_bits ≤ 32767) ∧
    decimate_output demo_config (-8192) (-8192) demo_fresh (16 * 4 - 1) = (true, 32767, 32767) ∧
    ¬ |(decimate_output demo_config (-8192) (-8192) demo_fresh (16 * 4 - 1)).2.1
        - (-8192) * 2 ^ demo_config.extra_bits| ≤ 1 := by
  unfold cic_cleared
  decide

/-- C5 (amended): with CIC factor 16, bit growth 16, fewer than 16 extra bits and cleared
CIC registers, feeding `decimate` the same constant `c` on every call, where
`c * 2^extra_bits` lies in [-32767, 32767], every call from the 64th on that produces an
output (every decimation cycle from the 4th on) returns on both channels a value within
one LSB of `c * 2^extra_bits`; the integrators wrap modulo `2^32`.  The call that
completes cycle `k` is call number `16 * k`. -/
theorem decimate_constant_within_one_lsb (P : rx_config σ) (s : rx_dsp σ) (c : Int)
    (hrate : P.cic_decimation_rate = 16) (hgrowth : P.cic_bit_growth = 16)
    (heb : P.extra_bits < 16) (hs : cic_cleared s)
    (hc : -32767 ≤ c * 2 ^ P.extra_bits ∧ c * 2 ^ P.extra_bits ≤ 32767) :
    (∀ n, 63 ≤ n → (decimate_output P c c s n).1 = true →
      |(decimate_output P c c s n).2.1 - c * 2 ^ P.extra_bits| ≤ 1 ∧
      |(decimate_output P c c s n).2.2 - c * 2 ^ P.extra_bits| ≤ 1) ∧
    (∀ k, 4 ≤ k → (decimate_output P c c s (16 * k - 1)).1 = true) := by
  have habs : |c * 2 ^ P.extra_bits - 1 - c * 2 ^ P.extra_bits| ≤ 1 := by
    rw [abs_le]; constructor <;> omega
  constructor
  · intro n hn hflag
    have htr := decimate_state_tracks P hrate c c s hs n
    have hfire := (decimate_flag P (decimate_state P c c s n) c c).mp hflag
    rw [htr.1, hrate] at hfire
    have hmod : n % 16 = 15 := by omega
    have hk : n = 16 * ((n + 1) / 16) - 1 := by omega
    have hset := decimate_constant_settled P s c ((n + 1) / 16) hrate hgrowth heb hs hc
      (by omega)
    rw [← hk] at hset
    rw [hset]
    exact ⟨habs, habs⟩
  · intro k hk
    rw [decimate_constant_settled P s c k hrate hgrowth heb hs hc hk]

set_option maxRecDepth 100000 in
/-- Witness of C5 (amended): the small instance with the constant 8191, whose scaled value
32764 is settled at 32763 in cycle 4, and with the constant 100, settled at 399. -/
theorem decimate_constant_within_one_lsb_witness :
    (demo_config.cic_decimation_rate = 16 ∧ demo_config.cic_bit_growth = 16 ∧
      demo_config.extra_bits < 16 ∧ cic_cleared demo_fresh ∧
      -32767 ≤ (8191 : Int) * 2 ^ demo_config.extra_bits ∧
      (8191 : Int) * 2 ^ demo_config.extra_bits ≤ 32767) ∧
    (|(decimate_output demo_config 8191 8191 demo_fresh 63).2.1
        - 8191 * 2 ^ demo_config.extra_bits| ≤ 1 ∧
      |(decimate_output demo_config 8191 8191 demo_fresh 63).2.2
        - 8191 * 2 ^ demo_config.extra_bits| ≤ 1) ∧
    decimate_output demo_config 8191 8191 demo_fresh 63 = (true, 32763, 32763) ∧
    decimate_output demo_config 100 100 demo_fresh 63 = (true, 399, 399) :=
  ⟨⟨rfl, rfl, by decide, by unfold cic_cleared; decide, by decide, by decide⟩,
    (decimate_constant_within_one_lsb demo_config demo_fresh 8191 rfl rfl (by decide)
      (by unfold cic_cleared; decide) (by decide)).1 63 (by decide) (by decide),
    by decide, by decide⟩

/-! ## The all-zero block -/

theorem audio_step_magnitude_sum (P : rx_config σ) (real imag : Nat → Int) (idx : Nat)
    (st : audio_locals σ) :
    (audio_step P real imag idx st).magnitude_sum
      = to_int32 (st.magnitude_sum
          + to_int32 (P.rectangular_2_magnitude (to_int16 (real idx)) (to_int16 (imag idx)))) :=
  rfl

/-- The member function is the composition of its four stages. -/
theorem automatic_gain_control_eq (s : rx_dsp σ) (audio_in : Int) :
    automatic_gain_control s audio_in =
      (to_int16 (hard_clamp (soft_clip (agc_apply_gain (agc_track s audio_in).max_hold audio_in))),
       agc_track s audio_in) :=
  rfl

/-! ## Automatic gain control: soft clip -/

/-- C11 (what the code does): for a 32-bit post-gain value `a`, the soft clip maps `a > S`
(with `S = 16383`) to `S + ((a - S) >> 1)` and leaves `|a| ≤ S` unchanged, but for
`a < -S` it returns `-S + (|a| - S + 1) / 2`, a value above `-S`: the half excess is
subtracted from `-S` with the wrong sign, so the negative side is folded back toward zero
(and beyond) instead of being compressed. -/
theorem soft_clip_cases (a : Int) (h1 : -2147483648 ≤ a) (h2 : a ≤ 2147483647) :
    (16383 < a → soft_clip a = 16383 + asr (a - 16383) 1) ∧
    (-16383 ≤ a → a ≤ 16383 → soft_clip a = a) ∧
    (a < -16383 → soft_clip a = -16383 + (-16383 - a + 1) / 2 ∧ -16383 < soft_clip a) := by
  have hs : agc_setpoint = 16383 := by decide
  unfold soft_clip
  simp only [hs]
  unfold asr to_int32
  refine ⟨fun h => ?_, fun h h' => ?_, fun h => ?_⟩
  · split_ifs <;> omega
  · split_ifs <;> omega
  · split_ifs <;> omega

/-- Witness of C11: the post-gain value -20000 becomes -14574 (the mirror image of the
positive side would be -18192), which is also what `automatic_gain_control` returns for
the input -20000 at unit gain; and with gain 16383 the input -8 is returned as +32767. -/
theorem soft_clip_cases_witness :
    ((-2147483648 : Int) ≤ -20000 ∧ (-20000 : Int) ≤ 2147483647 ∧ (-20000 : Int) < -16383) ∧
    (soft_clip (-20000) = -16383 + (-16383 - (-20000) + 1) / 2 ∧ -16383 < soft_clip (-20000)) ∧
    soft_clip (-20000) = -14574 ∧
    soft_clip 20000 = 18191 ∧
    (automatic_gain_control demo_raw (-20000)).1 = -14574 ∧
    (automatic_gain_control demo_raw 20000).1 = 18191 ∧
    (automatic_gain_control { demo_raw with max_hold := 65536, hang_timer := 5 } (-8)).1 = 32767 :=
  ⟨by decide, (soft_clip_cases (-20000) (by decide) (by decide)).2.2 (by decide),
    by decide, by decide, by decide, by decide, by decide⟩

/-! ### A sequence that closes a gap by the fraction `1 / 2^k` per step -/

theorem gap_step_bounds (k : Nat) (d : Int) (hd : 0 ≤ d) :
    0 ≤ d / 2 ^ k ∧ d / 2 ^ k ≤ d ∧ 2 ^ k * (d / 2 ^ k) ≤ d ∧ d < 2 ^ k * (d / 2 ^ k) + 2 ^ k := by
  have hT : (0 : Int) < 2 ^ k := by positivity
  have h1 := Int.ediv_add_emod d (2 ^ k)
  have h2 := Int.emod_nonneg d (ne_of_gt hT)
  have h3 := Int.emod_lt_of_pos d hT
  refine ⟨Int.ediv_nonneg hd (le_of_lt hT), Int.ediv_le_self _ hd, by linarith, by linarith⟩

theorem gap_nonneg (k : Nat) (D : Nat → Int) (h0 : 0 ≤ D 0)
    (hstep : ∀ n, D (n + 1) = D n - D n / 2 ^ k) (n : Nat) : 0 ≤ D n := by
  induction n with
  | zero => exact h0
  | succ n ih =>
    have hb := gap_step_bounds k (D n) ih
    rw [hstep]; linarith [hb.2.1]

theorem gap_antitone (k : Nat) (D : Nat → Int) (h0 : 0 ≤ D 0)
    (hstep : ∀ n, D (n + 1) = D n - D n / 2 ^ k) (n m : Nat) : D (n + m) ≤ D n := by
  induction m with
  | zero => exact le_refl _
  | succ m ih =>
    have hb := gap_step_bounds k (D (n + m)) (gap_nonneg k D h0 hstep (n + m))
    have : D (n + (m + 1)) = D (n + m) - D (n + m) / 2 ^ k := hstep (n + m)
    rw [this]; linarith [hb.1]

theorem gap_pos (k : Nat) (hk : 1 ≤ k) (D : Nat → Int) (h0 : 1 ≤ D 0)
    (hstep : ∀ n, D (n + 1) = D n - D n / 2 ^ k) (n : Nat) : 1 ≤ D n := by
  induction n with
  | zero => exact h0
  | succ n ih =>
    have hb := gap_step_bounds k (D n) (by linarith)
    have hT : (2 : Int) ≤ 2 ^ k := by
      calc (2 : Int) = 2 ^ 1 := by norm_num
        _ ≤ 2 ^ k := pow_le_pow_right₀ (by norm_num) hk
    have h2 : 2 * (D n / 2 ^ k) ≤ 2 ^ k * (D n / 2 ^ k) :=
      mul_le_mul_of_nonneg_right hT hb.1
    rw [hstep]; omega

/-- In `2^k` steps the gap is at least halved, up to `2^k`. -/
theorem gap_halving (k : Nat) (D : Nat → Int) (h0 : 0 ≤ D 0)
    (hstep : ∀ n, D (n + 1) = D n - D n / 2 ^ k) (n : Nat) :
    2 * D (n + 2 ^ k) ≤ D n + 2 * 2 ^ k := by
  have hT : (0 : Int) < 2 ^ k := by positivity
  have hn := gap_nonneg k D h0 hstep n
  have hq : (0 : Int) < 2 * 2 ^ k := by positivity
  have q1 := Int.ediv_add_emod (D n) (2 * 2 ^ k)
  have q2 := Int.emod_nonneg (D n) (ne_of_gt hq)
  have q3 := Int.emod_lt_of_pos (D n) hq
  have hqn : 0 ≤ D n / (2 * 2 ^ k) := Int.ediv_nonneg hn (le_of_lt hq)
  have inv : ∀ i : Nat, 2 * D (n + i) ≤ D n ∨ D (n + i) + i * (D n / (2 * 2 ^ k)) ≤ D n := by
    intro i
    induction i with
    | zero => right; simp
    | succ i ih =>
      have hi := gap_nonneg k D h0 hstep (n + i)
      have hb := gap_step_bounds k (D (n + i)) hi
      have e : D (n + (i + 1)) = D (n + i) - D (n + i) / 2 ^ k := hstep (n + i)
      by_cases hA : 2 * D (n + i) ≤ D n
      · left; rw [e]; linarith [hb.1]
      · right
        rcases ih with ih | ih
        · exact absurd ih hA
        · have hge : D n / (2 * 2 ^ k) ≤ D (n + i) / 2 ^ k := by
            apply Int.le_ediv_of_mul_le hT
            nlinarith
          rw [e]; push_cast; nlinarith
  rcases inv (2 ^ k) with h | h
  · linarith
  · push_cast at h
    nlinarith

theorem gap_after_halvings (k : Nat) (D : Nat → Int) (h0 : 0 ≤ D 0)
    (hstep : ∀ n, D (n + 1) = D n - D n / 2 ^ k) (j : Nat) :
    2 ^ j * D (j * 2 ^ k) ≤ D 0 + 2 ^ j * (2 * 2 ^ k) := by
  induction j with
  | zero => simp
  | succ j ih =>
    have hh := gap_halving k D h0 hstep (j * 2 ^ k)
    have e : (j + 1) * 2 ^ k = j * 2 ^ k + 2 ^ k := by ring
    rw [e]
    have hP : (0 : Int) ≤ 2 ^ j := by positivity
    have := mul_le_mul_of_nonneg_left hh hP
    rw [pow_succ]
    nlinarith

/-- From a gap below `2^31`, after `32 * 2^k + 1` steps the gap is below `2^k`. -/
theorem gap_settled (k : Nat) (D : Nat → Int) (h0 : 0 ≤ D 0) (h31 : D 0 < 2 ^ 31)
    (hstep : ∀ n, D (n + 1) = D n - D n / 2 ^ k) (n : Nat) (hn : 32 * 2 ^ k + 1 ≤ n) :
    D n ≤ 2 ^ k - 1 := by
  have hT : (0 : Int) < 2 ^ k := by positivity
  have h1 := gap_after_halvings k D h0 hstep 31
  have h2 : D (31 * 2 ^ k) ≤ 2 * 2 ^ k := by
    by_contra hc
    push_neg at hc
    have : (2 : Int) ^ 31 * (2 * 2 ^ k + 1) ≤ 2 ^ 31 * D (31 * 2 ^ k) :=
      mul_le_mul_of_nonneg_left (by linarith) (by positivity)
    nlinarith
  have inv : ∀ i : Nat, D (31 * 2 ^ k + i) ≤ 2 ^ k - 1 ∨ D (31 * 2 ^ k + i) + i ≤ 2 * 2 ^ k := by
    intro i
    induction i with
    | zero => right; simpa using h2
    | succ i ih =>
      have hi := gap_nonneg k D h0 hstep (31 * 2 ^ k + i)
      have hb := gap_step_bounds k (D (31 * 2 ^ k + i)) hi
      have e : D (31 * 2 ^ k + (i + 1)) = D (31 * 2 ^ k + i) - D (31 * 2 ^ k + i) / 2 ^ k :=
        hstep (31 * 2 ^ k + i)
      rcases ih with ih | ih
      · left; rw [e]; linarith [hb.1]
      · by_cases hlt : D (31 * 2 ^ k + i) ≤ 2 ^ k - 1
        · left; rw [e]; linarith [hb.1]
        · right
          have : 1 ≤ D (31 * 2 ^ k + i) / 2 ^ k := by
            apply Int.le_ediv_of_mul_le hT
            linarith
          rw [e]; push_cast; linarith
  have hfin : D (31 * 2 ^ k + (2 ^ k + 1)) ≤ 2 ^ k - 1 := by
    rcases inv (2 ^ k + 1) with h | h
    · exact h
    · push_cast at h; linarith
  obtain ⟨m, rfl⟩ : ∃ m, n = 31 * 2 ^ k + (2 ^ k + 1) + m := ⟨n - (32 * 2 ^ k + 1), by omega⟩
  exact le_trans (gap_antitone k D h0 hstep _ m) hfin
/-! ### The AGC under a constant positive input -/

theorem agc_state_succ (s : rx_dsp σ) (a : Int) (n : Nat) :
    agc_state s a (n + 1) = agc_track (agc_state s a n) a :=
  rfl

/-- Attack step: while `max_hold` is below the scaled input, it moves up by the gap shifted
right by `attack_factor`. -/
theorem agc_track_attack (s : rx_dsp σ) (a : Int) (ha : 1 ≤ a ∧ a ≤ 32767)
    (hm : 0 ≤ s.max_hold ∧ s.max_hold < a * 2 ^ 16) :
    (agc_track s a).max_hold
        = s.max_hold + (a * 2 ^ 16 - s.max_hold) / 2 ^ s.attack_factor.toNat ∧
      (agc_track s a).attack_factor = s.attack_factor := by
  have hs : to_int32 (a * 2 ^ 16) = a * 2 ^ 16 := to_int32_of_range (by omega) (by omega)
  have hb := gap_step_bounds s.attack_factor.toNat (a * 2 ^ 16 - s.max_hold) (by omega)
  have hd : to_int32 (a * 2 ^ 16 - s.max_hold) = a * 2 ^ 16 - s.max_hold :=
    to_int32_of_range (by omega) (by omega)
  unfold agc_track
  rw [hs, if_pos (by omega : a * 2 ^ 16 > s.max_hold), hd]
  refine ⟨?_, rfl⟩
  show to_int32 (s.max_hold + asr (a * 2 ^ 16 - s.max_hold) s.attack_factor.toNat) = _
  unfold asr
  exact to_int32_of_range (by omega) (by omega)

theorem agc_state_attack (s : rx_dsp σ) (a : Int) (ha : 1 ≤ a ∧ a ≤ 32767)
    (hm : s.max_hold = 0) (hk : 1 ≤ s.attack_factor) (n : Nat) :
    (agc_state s a n).attack_factor = s.attack_factor ∧
      0 ≤ (agc_state s a n).max_hold ∧ (agc_state s a n).max_hold < a * 2 ^ 16 ∧
      (agc_state s a (n + 1)).max_hold = (agc_state s a n).max_hold
        + (a * 2 ^ 16 - (agc_state s a n).max_hold) / 2 ^ s.attack_factor.toNat := by
  have hk1 : 1 ≤ s.attack_factor.toNat := by omega
  have hT : (2 : Int) ≤ 2 ^ s.attack_factor.toNat := by
    calc (2 : Int) = 2 ^ 1 := by norm_num
      _ ≤ 2 ^ s.attack_factor.toNat := pow_le_pow_right₀ (by norm_num) hk1
  induction n with
  | zero =>
    have h := agc_track_attack s a ha (by rw [hm]; omega)
    exact ⟨rfl, by show 0 ≤ s.max_hold; omega, by show s.max_hold < _; omega, h.1⟩
  | succ n ih =>
    obtain ⟨h1, h2, h3, h4⟩ := ih
    have hb := gap_step_bounds s.attack_factor.toNat (a * 2 ^ 16 - (agc_state s a n).max_hold)
      (by omega)
    have hq : 2 * ((a * 2 ^ 16 - (agc_state s a n).max_hold) / 2 ^ s.attack_factor.toNat)
        ≤ 2 ^ s.attack_factor.toNat
          * ((a * 2 ^ 16 - (agc_state s a n).max_hold) / 2 ^ s.attack_factor.toNat) :=
      mul_le_mul_of_nonneg_right hT hb.1
    have h0' : 0 ≤ (agc_state s a (n + 1)).max_hold := by rw [h4]; omega
    have h3' : (agc_state s a (n + 1)).max_hold < a * 2 ^ 16 := by rw [h4]; omega
    have hstep := agc_track_attack (agc_state s a (n + 1)) a ha ⟨h0', h3'⟩
    have hatt : (agc_state s a (n + 1)).attack_factor = s.attack_factor := by
      rw [agc_state_succ, (agc_track_attack (agc_state s a n) a ha ⟨h2, h3⟩).2, h1]
    refine ⟨hatt, h0', h3', ?_⟩
    rw [agc_state_succ s a (n + 1), hstep.1, hatt]

/-- Gain stage when the tracked magnitude is `a - 1`. -/
theorem agc_apply_gain_below (m a : Int) (ha : 1 ≤ a ∧ a ≤ 32767) (hmag : asr m 16 = a - 1) :
    agc_apply_gain m a
      = (if a = 1 then 1 else a * (if 16383 / (a - 1) < 1 then 1 else 16383 / (a - 1))) ∧
    (2 ≤ a → a ≤ 16384 →
      16383 - a < agc_apply_gain m a ∧ agc_apply_gain m a ≤ 16383 + 16383 / (a - 1)) := by
  have hs : agc_setpoint = 16383 := by decide
  have h16 : to_int16 (a - 1) = a - 1 := to_int16_of_range (by omega) (by omega)
  by_cases h1 : a = 1
  · subst h1
    refine ⟨?_, fun h => absurd h (by decide)⟩
    unfold agc_apply_gain
    rw [hmag]
    decide
  · have hpos : 0 < a - 1 := by omega
    have hdiv : Int.tdiv 16383 (a - 1) = 16383 / (a - 1) :=
      Int.tdiv_eq_ediv (by decide) (by omega)
    have q1 := Int.ediv_add_emod 16383 (a - 1)
    have q2 := Int.emod_nonneg 16383 (ne_of_gt hpos)
    have q3 := Int.emod_lt_of_pos 16383 hpos
    have q0 : 0 ≤ (16383 : Int) / (a - 1) := Int.ediv_nonneg (by decide) (by omega)
    have q4 : (16383 : Int) / (a - 1) ≤ 16383 := Int.ediv_le_self _ (by decide)
    have hg16 : to_int16 (16383 / (a - 1)) = 16383 / (a - 1) :=
      to_int16_of_range (by omega) (by omega)
    have hval : agc_apply_gain m a
        = a * (if 16383 / (a - 1) < 1 then 1 else 16383 / (a - 1)) := by
      unfold agc_apply_gain
      rw [hmag, h16, if_pos (by omega), hs, hdiv, hg16]
      apply to_int32_of_range
      · split_ifs <;> nlinarith
      · split_ifs <;> nlinarith
    refine ⟨by rw [hval, if_neg h1], fun h2 h3 => ?_⟩
    rw [hval]
    have hge : 1 ≤ (16383 : Int) / (a - 1) := Int.le_ediv_of_mul_le hpos (by omega)
    rw [if_neg (by omega)]
    constructor <;> nlinarith

/-! ## Automatic gain control: step response -/

set_option maxRecDepth 100000 in
/-- C12 (as stated, refuted): with the attack factor 2 of every AGC preset and the constant
input 1 from `max_hold = 0`, the tracked magnitude `max_hold >> 16` never becomes 1: there
is no bound after which it equals the input level.  After 60 samples `max_hold` is
`1 * 2^16 - 3` and the magnitude is 0; for the constant input 2 the magnitude is 1, the
gained value is 32766 and the output 24574, not within 2 of the setpoint 16383. -/
theorem agc_step_magnitude_short :
    (¬ ∃ N : Nat, ∀ n, N ≤ n → asr (agc_state demo_fresh 1 n).max_hold 16 = 1) ∧
    (agc_state demo_fresh 1 60).max_hold = 1 * 2 ^ 16 - 3 ∧
    asr (agc_state demo_fresh 1 60).max_hold 16 = 0 ∧
    asr (agc_state demo_fresh 2 60).max_hold 16 = 1 ∧
    agc_apply_gain (agc_state demo_fresh 2 60).max_hold 2 = 32766 ∧
    (automatic_gain_control (agc_state demo_fresh 2 60) 2).1 = 24574 := by
  refine ⟨?_, by decide, by decide, by decide, by decide, by decide⟩
  rintro ⟨N, hN⟩
  have h := agc_state_attack demo_fresh 1 (by decide) rfl (by decide) N
  have hN' := hN N (le_refl N)
  unfold asr at hN'
  omega

/-- C12 (amended): for a step input held constant at a level `a` in 1..32767, starting from
`max_hold = 0` with an attack factor in 1..16, `max_hold` never decreases and stays below
`a * 2^16`, and from sample `32 * 2^attack_factor + 1` on the gap `a * 2^16 - max_hold` is
between 1 and `2^attack_factor - 1`, so the tracked magnitude `max_hold >> 16` equals
`a - 1`; the gained value is then `a * max(1, 16383 / (a - 1))` for `a ≥ 2` (no gain is
applied for `a = 1`), which for `a ≤ 16384` lies above `16383 - a` and at most
`16383 / (a - 1)` above 16383. -/
theorem agc_step_response (s : rx_dsp σ) (a : Int) (ha : 1 ≤ a ∧ a ≤ 32767)
    (hm : s.max_hold = 0) (hk : 1 ≤ s.attack_factor ∧ s.attack_factor ≤ 16) :
    (∀ n, (agc_state s a n).max_hold ≤ (agc_state s a (n + 1)).max_hold) ∧
    (∀ n, (agc_state s a n).max_hold < a * 2 ^ 16) ∧
    (∀ n, 32 * 2 ^ s.attack_factor.toNat + 1 ≤ n →
      1 ≤ a * 2 ^ 16 - (agc_state s a n).max_hold ∧
      a * 2 ^ 16 - (agc_state s a n).max_hold ≤ 2 ^ s.attack_factor.toNat - 1 ∧
      asr (agc_state s a n).max_hold 16 = a - 1 ∧
      agc_apply_gain (agc_state s a n).max_hold a
        = (if a = 1 then 1 else a * (if 16383 / (a - 1) < 1 then 1 else 16383 / (a - 1))) ∧
      (2 ≤ a → a ≤ 16384 →
        16383 - a < agc_apply_gain (agc_state s a n).max_hold a ∧
        agc_apply_gain (agc_state s a n).max_hold a ≤ 16383 + 16383 / (a - 1))) := by
  have hinv := agc_state_attack s a ha hm hk.1
  refine ⟨fun n => ?_, fun n => (hinv n).2.2.1, fun n hn => ?_⟩
  · obtain ⟨_, h2, h3, h4⟩ := hinv n
    have hb := gap_step_bounds s.attack_factor.toNat (a * 2 ^ 16 - (agc_state s a n).max_hold)
      (by omega)
    rw [h4]; linarith [hb.1]
  · have hstep : ∀ n, a * 2 ^ 16 - (agc_state s a (n + 1)).max_hold
        = a * 2 ^ 16 - (agc_state s a n).max_hold
          - (a * 2 ^ 16 - (agc_state s a n).max_hold) / 2 ^ s.attack_factor.toNat := by
      intro n
      rw [(hinv n).2.2.2]; ring
    have h0 : a * 2 ^ 16 - (agc_state s a 0).max_hold = a * 2 ^ 16 := by
      show a * 2 ^ 16 - s.max_hold = _
      rw [hm]; ring
    have hset := gap_settled s.attack_factor.toNat
      (fun n => a * 2 ^ 16 - (agc_state s a n).max_hold)
      (by show 0 ≤ a * 2 ^ 16 - (agc_state s a 0).max_hold; rw [h0]; omega)
      (by show a * 2 ^ 16 - (agc_state s a 0).max_hold < 2 ^ 31; rw [h0]; omega)
      hstep n hn
    have hk16 : (2 : Int) ^ s.attack_factor.toNat ≤ 2 ^ 16 :=
      pow_le_pow_right₀ (by norm_num) (by omega)
    obtain ⟨_, h2, h3, _⟩ := hinv n
    have hmag : asr (agc_state s a n).max_hold 16 = a - 1 := by
      simp only [] at hset
      unfold asr
      omega
    exact ⟨by omega, hset, hmag, agc_apply_gain_below _ a ha hmag⟩

set_option maxRecDepth 100000 in
/-- Witness of C12 (amended): the fresh receiver (attack factor 2, `max_hold = 0`) with the
constant input 2: from sample 129 on the magnitude is 1; the gap of 3 is already reached at sample 60, where the gained value is 32766. -/
theorem agc_step_response_witness :
    (((1 : Int) ≤ 2 ∧ (2 : Int) ≤ 32767) ∧ demo_fresh.max_hold = 0 ∧
      (1 ≤ demo_fresh.attack_factor ∧ demo_fresh.attack_factor ≤ 16)) ∧
    (agc_state demo_fresh 2 129).max_hold < 2 * 2 ^ 16 ∧
    asr (agc_state demo_fresh 2 129).max_hold 16 = 2 - 1 ∧
    (agc_state demo_fresh 2 60).max_hold = 2 * 2 ^ 16 - 3 ∧
    agc_apply_gain (agc_state demo_fresh 2 60).max_hold 2 = 32766 :=
  ⟨⟨by decide, rfl, by decide⟩,
    (agc_step_response demo_fresh 2 (by decide) rfl (by decide)).2.1 129,
    ((agc_step_response demo_fresh 2 (by decide) rfl (by decide)).2.2 129 (by decide)).2.2.1,
    by decide, by decide⟩

/-! ## De-emphasis with a coefficient set selected -/

/-- C13 (as stated, refuted): with set 1 selected, `x = 1`, `x1 = 1` and `y1 = 0` the code
returns 0, because each product is shifted on its own (`25222 >> 15` is 0 twice), while
`(x*a0 + x1*a1 - y1*a2) >> 15` is `50444 >> 15 = 1`. -/
theorem apply_deemphasis_separate_shifts :
    (apply_deemphasis { demo_raw with deemphasis := 1, x1 := 1, y1 := 0 } 1).1 = 0 ∧
    to_int16 (asr (1 * deemph_taps 0 0 + 1 * deemph_taps 0 1 - 0 * deemph_taps 0 2) 15) = 1 ∧
    ¬ (apply_deemphasis { demo_raw with deemphasis := 1, x1 := 1, y1 := 0 } 1).1
      = to_int16 (asr (1 * deemph_taps 0 0 + 1 * deemph_taps 0 1 - 0 * deemph_taps 0 2) 15) := by
  decide

/-- C13 (amended): with de-emphasis set 1 selected, whose coefficients are
`(a0, a1, a2) = (25222, 25222, 17676)`, `apply_deemphasis` returns
`y = ((x*a0) >> 15) + ((x1*a1) >> 15) - ((y1*a2) >> 15)` as a 16-bit value, each product
being shifted on its own, for every input `x` and delay taps `x1`, `y1`; with set 1 or
set 2 selected it then sets `x1 := x` and `y1 := y`. -/
theorem apply_deemphasis_selected (s : rx_dsp σ) (x : Int)
    (hk : s.deemphasis = 1 ∨ s.deemphasis = 2) :
    (apply_deemphasis s x).2.x1 = x ∧
    (apply_deemphasis s x).2.y1 = (apply_deemphasis s x).1 ∧
    (s.deemphasis = 1 →
      (apply_deemphasis s x).1
        = to_int16 (asr (x * 25222) 15 + asr (s.x1 * 25222) 15 - asr (s.y1 * 17676) 15)) := by
  have h0 : s.deemphasis ≠ 0 := by rcases hk with h | h <;> rw [h] <;> decide
  refine ⟨?_, ?_, ?_⟩
  · simp only [apply_deemphasis, if_neg h0]
  · simp only [apply_deemphasis, if_neg h0]
  · intro h1
    have hi : (to_uint32 (s.deemphasis - 1)).toNat = 0 := by rw [h1]; decide
    simp only [apply_deemphasis, if_neg h0, hi]
    rfl

/-- Witness of C13 (amended): set 1 with `x = 1000`, `x1 = -2000`, `y1 = 3000`. -/
theorem apply_deemphasis_selected_witness :
    (({ demo_raw with deemphasis := 1, x1 := -2000, y1 := 3000 } : rx_dsp Unit).deemphasis = 1 ∨
      ({ demo_raw with deemphasis := 1, x1 := -2000, y1 := 3000 } : rx_dsp Unit).deemphasis = 2) ∧
    (apply_deemphasis { demo_raw with deemphasis := 1, x1 := -2000, y1 := 3000 } 1000).1
      = to_int16 (asr (1000 * 25222) 15 + asr (-2000 * 25222) 15 - asr (3000 * 17676) 15) ∧
    (apply_deemphasis { demo_raw with deemphasis := 1, x1 := -2000, y1 := 3000 } 1000).1 = -2389 ∧
    (apply_deemphasis { demo_raw with deemphasis := 1, x1 := -2000, y1 := 3000 } 1000).2.x1 = 1000 ∧
    (apply_deemphasis { demo_raw with deemphasis := 1, x1 := -2000, y1 := 3000 } 1000).2.y1 = -2389 :=
  ⟨Or.inl rfl,
    (apply_deemphasis_selected { demo_raw with deemphasis := 1, x1 := -2000, y1 := 3000 } 1000
      (Or.inl rfl)).2.2 rfl,
    by decide, by decide, by decide⟩

/-! ## Frequency shifter: the complex multiply -/

/-- The product of a 16-bit sample and a sine-table entry of magnitude at most 32767. -/
theorem mul_table_bound (x c : Int) (hx : -32768 ≤ x ∧ x ≤ 32767)
    (hc : -32767 ≤ c ∧ c ≤ 32767) : -1073709056 ≤ x * c ∧ x * c ≤ 1073709056 := by
  constructor
  · nlinarith [mul_nonneg (by linarith : (0 : Int) ≤ x + 32768) (by linarith : (0 : Int) ≤ c + 32767),
      mul_nonneg (by linarith : (0 : Int) ≤ 32767 - x) (by linarith : (0 : Int) ≤ 32767 - c)]
  · nlinarith [mul_nonneg (by linarith : (0 : Int) ≤ x + 32768) (by linarith : (0 : Int) ≤ 32767 - c),
      mul_nonneg (by linarith : (0 : Int) ≤ 32767 - x) (by linarith : (0 : Int) ≤ c + 32767)]

/-- The table index `(scaled_phase + 512) & 0x7ff` is `(scaled_phase + 512) mod 2048`. -/
theorem land_2047 (n : Nat) : (Int.land ((n : Int) + 512) 2047).toNat = (n + 512) % 2048 := by
  have h : Int.land ((n : Int) + 512) 2047 = (((n + 512) &&& (2 ^ 11 - 1) : Nat) : Int) := rfl
  rw [h, Int.toNat_ofNat, Nat.and_pow_two_sub_one_eq_mod]

set_option maxRecDepth 100000 in
/-- C14 (as stated, refuted): at a phase of 45 degrees (`256 * 2^21`), where
`sin = cos = 23170`, the pair `(32767, 32767)` gives `(i*cos + q*sin + 2^14) >> 15 = 46339`,
which does not fit the 16-bit output: `frequency_shift` leaves `i = -19197`. -/
theorem frequency_shift_output_wraps :
    demo_config_octants.sin_table 256 = 23170 ∧ demo_config_octants.sin_table 768 = 23170 ∧
    asr (32767 * demo_config_octants.sin_table 768
      + 32767 * demo_config_octants.sin_table 256 + 2 ^ 14) 15 = 46339 ∧
    (frequency_shift demo_config_octants { demo_fresh with phase := 256 * 2 ^ 21 }
      32767 32767).1 = -19197 ∧
    ¬ (frequency_shift demo_config_octants { demo_fresh with phase := 256 * 2 ^ 21 }
      32767 32767).1
      = asr (32767 * demo_config_octants.sin_table 768
          + 32767 * demo_config_octants.sin_table 256 + 2 ^ 14) 15 := by
  decide

/-- C14 (amended): for every 32-bit phase accumulator value and every 16-bit pair `(i, q)`,
with a sine table whose entries lie in [-32767, 32767], `frequency_shift` stores in `i` and
`q` the 16-bit values of `(i*cos + q*sin + 2^14) >> 15` and `(q*cos - i*sin + 2^14) >> 15`,
where `sin = sin_table[phase >> 21]` and `cos = sin_table[((phase >> 21) + 512) mod 2048]`
are read from the phase before the update (the 32-bit sums do not overflow), and it
leaves the phase at `(phase + frequency) mod 2^32`. -/
theorem frequency_shift_formula (P : rx_config σ) (s : rx_dsp σ) (i q : Int)
    (hphase : 0 ≤ s.phase ∧ s.phase < 2 ^ 32)
    (htable : ∀ k, -32767 ≤ P.sin_table k ∧ P.sin_table k ≤ 32767)
    (hi : -32768 ≤ i ∧ i ≤ 32767) (hq : -32768 ≤ q ∧ q ≤ 32767) :
    (frequency_shift P s i q).1
      = to_int16 (asr (i * P.sin_table (((s.phase / 2 ^ 21).toNat + 512) % 2048)
          + q * P.sin_table (s.phase / 2 ^ 21).toNat + 2 ^ 14) 15) ∧
    (frequency_shift P s i q).2.1
      = to_int16 (asr (q * P.sin_table (((s.phase / 2 ^ 21).toNat + 512) % 2048)
          - i * P.sin_table (s.phase / 2 ^ 21).toNat + 2 ^ 14) 15) ∧
    (frequency_shift P s i q).2.2.phase = (s.phase + s.frequency) % 2 ^ 32 := by
  have hsp : to_uint16 (s.phase / 2 ^ 21) = ((s.phase / 2 ^ 21).toNat : Int) := by
    unfold to_uint16; omega
  have hc := htable (((s.phase / 2 ^ 21).toNat + 512) % 2048)
  have hs := htable (s.phase / 2 ^ 21).toNat
  have hc16 : to_int16 (P.sin_table (((s.phase / 2 ^ 21).toNat + 512) % 2048))
      = P.sin_table (((s.phase / 2 ^ 21).toNat + 512) % 2048) :=
    to_int16_of_range (by omega) (by omega)
  have hs16 : to_int16 (-P.sin_table (s.phase / 2 ^ 21).toNat)
      = -P.sin_table (s.phase / 2 ^ 21).toNat :=
    to_int16_of_range (by omega) (by omega)
  have b1 := mul_table_bound i _ hi hc
  have b2 := mul_table_bound q _ hq hs
  have b3 := mul_table_bound q _ hq hc
  have b4 := mul_table_bound i _ hi hs
  simp only [frequency_shift, hsp, land_2047, Int.toNat_ofNat, hc16, hs16]
  refine ⟨?_, ?_, rfl⟩
  · rw [to_int32_of_range (by linarith) (by linarith)]
    congr 2
    ring
  · rw [to_int32_of_range (by linarith) (by linarith)]
    congr 2
    ring

/-- Witness of C14 (amended): phase a quarter turn (`512 * 2^21`), where the small table has
`sin = 32767` and `cos = 0`, increment `2^32 - 1`, and the pair `(100, -200)`: the result is
`(-200, -100)` and the phase wraps to `512 * 2^21 - 1`. -/
theorem frequency_shift_formula_witness :
    ((0 : Int) ≤ 512 * 2 ^ 21 ∧ (512 * 2 ^ 21 : Int) < 2 ^ 32 ∧
      ∀ k, -32767 ≤ demo_config.sin_table k ∧ demo_config.sin_table k ≤ 32767) ∧
    (frequency_shift demo_config
        { demo_fresh with phase := 512 * 2 ^ 21, frequency := 4294967295 } 100 (-200)).1
      = to_int16 (asr (100 * demo_config.sin_table
            ((((512 * 2 ^ 21 : Int) / 2 ^ 21).toNat + 512) % 2048)
          + (-200) * demo_config.sin_table ((512 * 2 ^ 21 : Int) / 2 ^ 21).toNat + 2 ^ 14) 15) ∧
    (frequency_shift demo_config
        { demo_fresh with phase := 512 * 2 ^ 21, frequency := 4294967295 } 100 (-200)).1 = -200 ∧
    (frequency_shift demo_config
        { demo_fresh with phase := 512 * 2 ^ 21, frequency := 4294967295 } 100 (-200)).2.1 = -100 ∧
    (frequency_shift demo_config
        { demo_fresh with phase := 512 * 2 ^ 21, frequency := 4294967295 } 100 (-200)).2.2.phase
      = 512 * 2 ^ 21 - 1 :=
  have htab : ∀ k, -32767 ≤ demo_config.sin_table k ∧ demo_config.sin_table k ≤ 32767 := by
    intro k
    show -32767 ≤ demo_sin_table k ∧ demo_sin_table k ≤ 32767
    unfold demo_sin_table
    split_ifs <;> decide
  ⟨⟨by decide, by decide, htab⟩,
    (frequency_shift_formula demo_config
      { demo_fresh with phase := 512 * 2 ^ 21, frequency := 4294967295 } 100 (-200)
      ⟨by decide, by decide⟩ htab (by decide) (by decide)).1,
    by decide, by decide, by decide⟩

/-! ## The first loop of `process_block` -/

/-- The loop body is DC removal, I/Q split, `decimate`, then `sample_store`. -/
theorem sample_step_eq (P : rx_config σ) (samples : Nat → Nat) (idx : Nat)
    (st : sample_locals σ) :
    sample_step P samples idx st =
      sample_store P st (to_int32 (st.sample_accumulator + to_int16 (samples idx)))
        (decimate P st.self
          (iq_split st.self.swap_iq idx (dc_removed st.self.dc (samples idx))).1
          (iq_split st.self.swap_iq idx (dc_removed st.self.dc (samples idx))).2) :=
  rfl

theorem sample_state_succ_eq (P : rx_config σ) (samples : Nat → Nat) (s : rx_dsp σ) (idx : Nat) :
    sample_state P samples s (idx + 1) =
      sample_store P (sample_state P samples s idx)
        (to_int32 ((sample_state P samples s idx).sample_accumulator + to_int16 (samples idx)))
        (decimate P (sample_state P samples s idx).self
          (cic_feed P samples s idx).1 (cic_feed P samples s idx).2) :=
  rfl

theorem process_block_front_eq (P : rx_config σ) (s : rx_dsp σ) (samples : Nat → Nat) :
    process_block_front P s samples = sample_state P samples s P.adc_block_size := by
  unfold process_block_front
  generalize P.adc_block_size = n
  induction n with
  | zero => rfl
  | succ n ih => rw [sample_loop_succ, ih, Nat.zero_add]; rfl

theorem front_frame_refl (s : rx_dsp σ) : front_frame s s := ⟨rfl, rfl, rfl, rfl, rfl⟩

theorem front_frame_trans {s t u : rx_dsp σ} (h1 : front_frame s t) (h2 : front_frame t u) :
    front_frame s u :=
  ⟨h2.1.trans h1.1, h2.2.1.trans h1.2.1, h2.2.2.1.trans h1.2.2.1,
    h2.2.2.2.1.trans h1.2.2.2.1, h2.2.2.2.2.trans h1.2.2.2.2⟩

theorem decimate_front_frame (P : rx_config σ) (s : rx_dsp σ) (i q : Int) :
    front_frame s (decimate P s i q).2.2.2 := by
  unfold decimate front_frame
  simp only []
  split_ifs <;> exact ⟨rfl, rfl, rfl, rfl, rfl⟩

theorem frequency_shift_front_frame (P : rx_config σ) (s : rx_dsp σ) (i q : Int) :
    front_frame s (frequency_shift P s i q).2.2 :=
  ⟨rfl, rfl, rfl, rfl, rfl⟩

theorem sample_store_self (P : rx_config σ) (st : sample_locals σ) (acc : Int)
    (r : Bool × Int × Int × rx_dsp σ) :
    (sample_store P st acc r).self
      = if r.1 = true then (frequency_shift P r.2.2.2 r.2.1 r.2.2.1).2.2 else r.2.2.2 := by
  obtain ⟨b, i, q, s1⟩ := r
  cases b <;> rfl

theorem sample_step_front_frame (P : rx_config σ) (samples : Nat → Nat) (idx : Nat)
    (st : sample_locals σ) : front_frame st.self (sample_step P samples idx st).self := by
  rw [sample_step_eq, sample_store_self]
  split_ifs
  · exact front_frame_trans (decimate_front_frame P _ _ _) (frequency_shift_front_frame P _ _ _)
  · exact decimate_front_frame P _ _ _

theorem sample_state_front_frame (P : rx_config σ) (samples : Nat → Nat) (s : rx_dsp σ)
    (idx : Nat) : front_frame s (sample_state P samples s idx).self := by
  induction idx with
  | zero => exact front_frame_refl s
  | succ idx ih => exact front_frame_trans ih (sample_step_front_frame P samples idx _)

theorem sample_store_accumulator (P : rx_config σ) (st : sample_locals σ) (acc : Int)
    (r : Bool × Int × Int × rx_dsp σ) : (sample_store P st acc r).sample_accumulator = acc := by
  obtain ⟨b, i, q, s1⟩ := r
  cases b <;> rfl

/-- The accumulator holds the exact sum of the samples read so far (no 32-bit overflow for
a block that fits the 16-bit loop counter). -/
theorem sample_state_accumulator (P : rx_config σ) (samples : Nat → Nat) (s : rx_dsp σ)
    (n : Nat) (hn : n < 65536) :
    (sample_state P samples s n).sample_accumulator
        = ((List.range n).map (fun k => to_int16 (samples k))).sum ∧
      -32768 * (n : Int) ≤ ((List.range n).map (fun k => to_int16 (samples k))).sum ∧
      ((List.range n).map (fun k => to_int16 (samples k))).sum ≤ 32767 * (n : Int) := by
  induction n with
  | zero => exact ⟨rfl, by simp, by simp⟩
  | succ n ih =>
    obtain ⟨h1, h2, h3⟩ := ih (by omega)
    have hr := to_int16_range (samples n)
    rw [List.range_succ, List.map_append, List.sum_append]
    simp only [List.map_cons, List.map_nil, List.sum_cons, List.sum_nil, add_zero]
    refine ⟨?_, by push_cast; omega, by push_cast; omega⟩
    rw [sample_state_succ_eq, sample_store_accumulator, h1]
    exact to_int32_of_range (by omega) (by omega)

/-- Truncating division does not increase the magnitude. -/
theorem tdiv_bounds (a b M : Int) (h1 : -M ≤ a) (h2 : a ≤ M) :
    -M ≤ Int.tdiv a b ∧ Int.tdiv a b ≤ M := by
  have h := Int.natAbs_tdiv a b
  have hle : (Int.tdiv a b).natAbs ≤ a.natAbs := by
    rw [h]; exact Nat.div_le_self _ _
  have h3 : |Int.tdiv a b| ≤ |a| := by
    rw [Int.abs_eq_natAbs, Int.abs_eq_natAbs]
    exact_mod_cast hle
  have h4 := abs_le.mp (le_trans h3 (abs_le.mpr ⟨h1, h2⟩))
  exact h4

/-! ## DC removal -/

/-- C15: in every iteration of the first loop of `process_block` the receiver still holds
the `dc` value it had on entry, so the local `sample` is the raw sample (read as signed
16-bit) minus the entry `dc`, stored as 16 bits; and on exit `dc` is the sum of the block's
raw samples (read as signed 16-bit) divided by `adc_block_size` with truncating division. -/
theorem process_block_dc (P : rx_config σ) (s : rx_dsp σ) (samples : Nat → Nat)
    (audio_samples : Nat → Int) :
    (∀ idx, (sample_state P samples s idx).self.dc = s.dc) ∧
    (∀ idx, block_sample P samples s idx = to_int16 (to_int16 (samples idx) - s.dc)) ∧
    (process_block P s samples audio_samples).self.dc
      = Int.tdiv (((List.range P.adc_block_size).map (fun k => to_int16 (samples k))).sum)
          P.adc_block_size := by
  have hdc : ∀ idx, (sample_state P samples s idx).self.dc = s.dc :=
    fun idx => (sample_state_front_frame P samples s idx).1
  refine ⟨hdc, fun idx => ?_, ?_⟩
  · unfold block_sample dc_removed
    rw [hdc]
  · have hacc := sample_state_accumulator P samples s P.adc_block_size P.adc_block_size_fits
    have hsize := P.adc_block_size_fits
    have e : (process_block P s samples audio_samples).self.dc
        = to_int32 (Int.tdiv (process_block_front P s samples).sample_accumulator
            P.adc_block_size) := rfl
    rw [e, process_block_front_eq, hacc.1]
    have hb := tdiv_bounds (((List.range P.adc_block_size).map
      (fun k => to_int16 (samples k))).sum) P.adc_block_size 2147483647 (by omega) (by omega)
    exact to_int32_of_range (by omega) (by omega)

set_option maxRecDepth 100000 in
/-- Witness of C15: the small instance with entry `dc = 100` and the 64 raw samples
`2000 + k`: sample 5 is corrected to `2005 - 100` and the new `dc` is
`(64 * 2000 + 2016) / 64 = 2031`. -/
theorem process_block_dc_witness :
    block_sample demo_config (fun k => 2000 + k) { demo_fresh with dc := 100 } 5 = 1905 ∧
    (process_block demo_config { demo_fresh with dc := 100 } (fun k => 2000 + k)
      (fun _ => 0)).self.dc = 2031 ∧
    Int.tdiv (((List.range demo_config.adc_block_size).map
      (fun k => to_int16 ((2000 + k : Nat) : Int))).sum) demo_config.adc_block_size = 2031 :=
  ⟨((process_block_dc demo_config { demo_fresh with dc := 100 } (fun k => 2000 + k)
      (fun _ => 0)).2.1 5).trans (by decide),
    ((process_block_dc demo_config { demo_fresh with dc := 100 } (fun k => 2000 + k)
      (fun _ => 0)).2.2).trans (by decide),
    by decide⟩

/-! ## I/Q demultiplexer -/

theorem iq_split_zero (idx : Nat) (x : Int) (hx : -32768 ≤ x ∧ x ≤ 32767) :
    iq_split 0 idx x = if idx % 2 = 0 then (x, 0) else (0, x) := by
  have h16 := to_int16_of_range hx.1 hx.2
  unfold iq_split
  rcases Nat.mod_two_eq_zero_or_one idx with h | h
  · rw [h, if_pos rfl]
    show (to_int16 (((1 : Nat) : Int) * x), to_int16 (((0 : Nat) : Int) * x)) = (x, 0)
    simp [h16]
    decide
  · rw [h, if_neg (by decide)]
    show (to_int16 (((0 : Nat) : Int) * x), to_int16 (((1 : Nat) : Int) * x)) = (0, x)
    simp [h16]
    decide

theorem iq_split_one (idx : Nat) (x : Int) (hx : -32768 ≤ x ∧ x ≤ 32767) :
    iq_split 1 idx x = if idx % 2 = 0 then (0, x) else (x, 0) := by
  have h16 := to_int16_of_range hx.1 hx.2
  unfold iq_split
  rcases Nat.mod_two_eq_zero_or_one idx with h | h
  · rw [h, if_pos rfl]
    show (to_int16 (((0 : Nat) : Int) * x), to_int16 (((1 : Nat) : Int) * x)) = (0, x)
    simp [h16]
    decide
  · rw [h, if_neg (by decide)]
    show (to_int16 (((1 : Nat) : Int) * x), to_int16 (((0 : Nat) : Int) * x)) = (x, 0)
    simp [h16]
    decide

theorem block_sample_range (P : rx_config σ) (samples : Nat → Nat) (s : rx_dsp σ) (idx : Nat) :
    -32768 ≤ block_sample P samples s idx ∧ block_sample P samples s idx ≤ 32767 :=
  to_int16_range _

/-- C16: with `swap_iq = 0`, in every iteration `idx` of the first loop of `process_block`
the pair passed to `decimate` is `(sample, 0)` for even `idx` and `(0, sample)` for odd
`idx`, where `sample` is the DC-corrected sample; with `swap_iq = 1` the two routings are
exchanged; `set_swap_iq` stores its argument in `swap_iq`. -/
theorem process_block_iq_routing (P : rx_config σ) (s : rx_dsp σ) (samples : Nat → Nat)
    (idx : Nat) (val : Int) :
    (s.swap_iq = 0 → cic_feed P samples s idx =
      if idx % 2 = 0 then (block_sample P samples s idx, 0)
      else (0, block_sample P samples s idx)) ∧
    (s.swap_iq = 1 → cic_feed P samples s idx =
      if idx % 2 = 0 then (0, block_sample P samples s idx)
      else (block_sample P samples s idx, 0)) ∧
    (set_swap_iq s val).swap_iq = val := by
  have hsw : (sample_state P samples s idx).self.swap_iq = s.swap_iq :=
    (sample_state_front_frame P samples s idx).2.1
  have hr := block_sample_range P samples s idx
  refine ⟨fun h => ?_, fun h => ?_, rfl⟩
  · unfold cic_feed
    rw [hsw, h]
    exact iq_split_zero idx _ hr
  · unfold cic_feed
    rw [hsw, h]
    exact iq_split_one idx _ hr

set_option maxRecDepth 100000 in
/-- Witness of C16: the small instance with entry `dc = 100` and raw samples `2000 + k`:
without swap, iteration 4 feeds `(1904, 0)` and iteration 5 feeds `(0, 1905)`; after
`set_swap_iq(1)` iteration 4 feeds `(0, 1904)`. -/
theorem process_block_iq_routing_witness :
    ({ demo_fresh with dc := 100 } : rx_dsp Unit).swap_iq = 0 ∧
    (set_swap_iq { demo_fresh with dc := 100 } 1).swap_iq = 1 ∧
    cic_feed demo_config (fun k => 2000 + k) { demo_fresh with dc := 100 } 4 = (1904, 0) ∧
    cic_feed demo_config (fun k => 2000 + k) { demo_fresh with dc := 100 } 5 = (0, 1905) ∧
    cic_feed demo_config (fun k => 2000 + k) (set_swap_iq { demo_fresh with dc := 100 } 1) 4
      = (0, 1904) :=
  ⟨rfl, rfl,
    ((process_block_iq_routing demo_config { demo_fresh with dc := 100 } (fun k => 2000 + k) 4
      0).1 rfl).trans (by decide),
    ((process_block_iq_routing demo_config { demo_fresh with dc := 100 } (fun k => 2000 + k) 5
      0).1 rfl).trans (by decide),
    ((process_block_iq_routing demo_config (set_swap_iq { demo_fresh with dc := 100 } 1)
      (fun k => 2000 + k) 4 0).2.1 rfl).trans (by decide)⟩

/-! ## Signal amplitude -/

/-- While the magnitudes lie in `[0, B]` and `n * B` fits in 31 bits, the accumulator holds
the exact sum of the first `n` magnitudes. -/
theorem audio_loop_magnitude_sum (P : rx_config σ) (real imag : Nat → Int) (B : Int) (n : Nat)
    (st : audio_locals σ) (h0 : st.magnitude_sum = 0)
    (hB : ∀ k, k < n → 0 ≤ P.rectangular_2_magnitude (to_int16 (real k)) (to_int16 (imag k)) ∧
      P.rectangular_2_magnitude (to_int16 (real k)) (to_int16 (imag k)) ≤ B)
    (hn : (n : Int) * B ≤ 2147483647) :
    (audio_loop P real imag n 0 st).magnitude_sum
        = ((List.range n).map (fun k =>
            P.rectangular_2_magnitude (to_int16 (real k)) (to_int16 (imag k)))).sum ∧
      0 ≤ ((List.range n).map (fun k =>
            P.rectangular_2_magnitude (to_int16 (real k)) (to_int16 (imag k)))).sum ∧
      ((List.range n).map (fun k =>
            P.rectangular_2_magnitude (to_int16 (real k)) (to_int16 (imag k)))).sum
        ≤ (n : Int) * B := by
  induction n with
  | zero => exact ⟨h0, by simp, by simp⟩
  | succ n ih =>
    have hBn := hB n (by omega)
    have hB0 : 0 ≤ B := le_trans hBn.1 hBn.2
    have hnB : (n : Int) * B ≤ 2147483647 := by
      push_cast at hn; nlinarith
    obtain ⟨h1, h2, h3⟩ := ih (fun k hk => hB k (by omega)) hnB
    rw [List.range_succ, List.map_append, List.sum_append]
    simp only [List.map_cons, List.map_nil, List.sum_cons, List.sum_nil, add_zero]
    push_cast at hn
    refine ⟨?_, by linarith, by push_cast; linarith⟩
    have hn0 : (0 : Int) ≤ (n : Int) * B := mul_nonneg (Int.ofNat_nonneg n) hB0
    have hamp : to_int32 (P.rectangular_2_magnitude (to_int16 (real n)) (to_int16 (imag n)))
        = P.rectangular_2_magnitude (to_int16 (real n)) (to_int16 (imag n)) :=
      to_int32_of_range (by linarith) (by linarith)
    rw [audio_loop_succ, audio_step_magnitude_sum, Nat.zero_add, h1, hamp]
    exact to_int32_of_range (by linarith) (by linarith)

/-- C17: when `rectangular_2_magnitude` maps 16-bit I/Q to values in `[0, B]` with
`adc_block_size * B < 2^31` (any 16-bit magnitude with the block sizes in use), the 32-bit
accumulation of the `adc_block_size / decimation_rate` post-filter magnitudes and the
multiplication by `decimation_rate` do not overflow, and at the end of `process_block`
`signal_amplitude` is `(sum of the magnitudes) * decimation_rate / adc_block_size`,
truncated; when `decimation_rate` divides `adc_block_size` this is the truncated average
of the magnitudes over the block. -/
theorem process_block_signal_amplitude (P : rx_config σ) (s : rx_dsp σ) (samples : Nat → Nat)
    (audio_samples : Nat → Int) (B : Int)
    (hB : ∀ i q, -32768 ≤ i ∧ i ≤ 32767 → -32768 ≤ q ∧ q ≤ 32767 →
      0 ≤ P.rectangular_2_magnitude i q ∧ P.rectangular_2_magnitude i q ≤ B)
    (hN : (P.adc_block_size : Int) * B ≤ 2147483647) :
    ((∀ n, n ≤ P.adc_block_size / P.decimation_rate →
        0 ≤ ((List.range n).map (fun k =>
          P.rectangular_2_magnitude
            (to_int16 ((process_block_filter P (process_block_front P s samples)).2.1 k))
            (to_int16 ((process_block_filter P (process_block_front P s samples)).2.2 k)))).sum ∧
        ((List.range n).map (fun k =>
          P.rectangular_2_magnitude
            (to_int16 ((process_block_filter P (process_block_front P s samples)).2.1 k))
            (to_int16 ((process_block_filter P (process_block_front P s samples)).2.2 k)))).sum
          ≤ 2147483647) ∧
      ((List.range (P.adc_block_size / P.decimation_rate)).map (fun k =>
        P.rectangular_2_magnitude
          (to_int16 ((process_block_filter P (process_block_front P s samples)).2.1 k))
          (to_int16 ((process_block_filter P (process_block_front P s samples)).2.2 k)))).sum
        * P.decimation_rate ≤ 2147483647) ∧
    (process_block P s samples audio_samples).self.signal_amplitude
      = Int.tdiv (((List.range (P.adc_block_size / P.decimation_rate)).map (fun k =>
          P.rectangular_2_magnitude
            (to_int16 ((process_block_filter P (process_block_front P s samples)).2.1 k))
            (to_int16 ((process_block_filter P (process_block_front P s samples)).2.2 k)))).sum
          * P.decimation_rate) P.adc_block_size ∧
    (P.decimation_rate ∣ P.adc_block_size → 0 < P.decimation_rate →
      (process_block P s samples audio_samples).self.signal_amplitude
        = ((List.range (P.adc_block_size / P.decimation_rate)).map (fun k =>
            P.rectangular_2_magnitude
              (to_int16 ((process_block_filter P (process_block_front P s samples)).2.1 k))
              (to_int16 ((process_block_filter P (process_block_front P s samples)).2.2 k)))).sum
          / ((P.adc_block_size / P.decimation_rate : Nat) : Int)) := by
  have hB0 : 0 ≤ B :=
    le_trans (hB 0 0 (by decide) (by decide)).1 (hB 0 0 (by decide) (by decide)).2
  have hcount : ((P.adc_block_size / P.decimation_rate : Nat) : Int) * P.decimation_rate
      ≤ P.adc_block_size := by
    exact_mod_cast Nat.div_mul_le_self P.adc_block_size P.decimation_rate
  have hcB : ((P.adc_block_size / P.decimation_rate : Nat) : Int) * B ≤ 2147483647 := by
    have hle : ((P.adc_block_size / P.decimation_rate : Nat) : Int) ≤ P.adc_block_size := by
      exact_mod_cast Nat.div_le_self _ _
    nlinarith
  have hsums : ∀ n, n ≤ P.adc_block_size / P.decimation_rate →
      0 ≤ ((List.range n).map (fun k =>
        P.rectangular_2_magnitude
          (to_int16 ((process_block_filter P (process_block_front P s samples)).2.1 k))
          (to_int16 ((process_block_filter P (process_block_front P s samples)).2.2 k)))).sum ∧
      ((List.range n).map (fun k =>
        P.rectangular_2_magnitude
          (to_int16 ((process_block_filter P (process_block_front P s samples)).2.1 k))
          (to_int16 ((process_block_filter P (process_block_front P s samples)).2.2 k)))).sum
        ≤ 2147483647 := by
    intro n hn
    have hnB : (n : Int) * B ≤ 2147483647 := by
      have : (n : Int) ≤ ((P.adc_block_size / P.decimation_rate : Nat) : Int) := by
        exact_mod_cast hn
      nlinarith
    obtain ⟨_, p2, p3⟩ := audio_loop_magnitude_sum P
      (process_block_filter P (process_block_front P s samples)).2.1
      (process_block_filter P (process_block_front P s samples)).2.2 B n
      { self := (process_block_filter P (process_block_front P s samples)).1,
        audio_samples := audio_samples, magnitude_sum := 0 } rfl
      (fun k _ => hB _ _ (to_int16_range _) (to_int16_range _)) hnB
    exact ⟨p2, le_trans p3 hnB⟩
  obtain ⟨h1, h2, h3⟩ := audio_loop_magnitude_sum P
    (process_block_filter P (process_block_front P s samples)).2.1
    (process_block_filter P (process_block_front P s samples)).2.2 B
    (P.adc_block_size / P.decimation_rate)
    { self := (process_block_filter P (process_block_front P s samples)).1,
      audio_samples := audio_samples, magnitude_sum := 0 } rfl
    (fun k _ => hB _ _ (to_int16_range _) (to_int16_range _)) hcB
  generalize ((List.range (P.adc_block_size / P.decimation_rate)).map (fun k =>
      P.rectangular_2_magnitude
        (to_int16 ((process_block_filter P (process_block_front P s samples)).2.1 k))
        (to_int16 ((process_block_filter P (process_block_front P s samples)).2.2 k)))).sum
    = S at h1 h2 h3 ⊢
  have hr0 : (0 : Int) ≤ P.decimation_rate := Int.ofNat_nonneg _
  have hprod : S * P.decimation_rate ≤ 2147483647 := by
    have : S * P.decimation_rate
        ≤ ((P.adc_block_size / P.decimation_rate : Nat) : Int) * B * P.decimation_rate :=
      mul_le_mul_of_nonneg_right h3 hr0
    have h4 : ((P.adc_block_size / P.decimation_rate : Nat) : Int) * B * P.decimation_rate
        = ((P.adc_block_size / P.decimation_rate : Nat) : Int) * P.decimation_rate * B := by ring
    have h5 : ((P.adc_block_size / P.decimation_rate : Nat) : Int) * P.decimation_rate * B
        ≤ P.adc_block_size * B := mul_le_mul_of_nonneg_right hcount hB0
    linarith
  have hprod0 : 0 ≤ S * P.decimation_rate := mul_nonneg h2 hr0
  have e : (process_block P s samples audio_samples).self.signal_amplitude
      = to_int32 (Int.tdiv (to_int32 ((audio_loop P
          (process_block_filter P (process_block_front P s samples)).2.1
          (process_block_filter P (process_block_front P s samples)).2.2
          (P.adc_block_size / P.decimation_rate) 0
          { self := (process_block_filter P (process_block_front P s samples)).1,
            audio_samples := audio_samples, magnitude_sum := 0 }).magnitude_sum
        * (P.decimation_rate : Int))) (P.adc_block_size : Int)) := rfl
  have hb := tdiv_bounds (S * P.decimation_rate) P.adc_block_size 2147483647 (by linarith)
    hprod
  have hamp : (process_block P s samples audio_samples).self.signal_amplitude
      = Int.tdiv (S * P.decimation_rate) P.adc_block_size := by
    rw [e, h1, to_int32_of_range (by linarith) hprod]
    exact to_int32_of_range (by linarith [hb.1]) hb.2
  refine ⟨⟨hsums, hprod⟩, hamp, fun hdvd hpos => ?_⟩
  rw [hamp, Int.tdiv_eq_ediv hprod0 (Int.ofNat_nonneg _)]
  obtain ⟨c, hc⟩ := hdvd
  have hcount' : P.adc_block_size / P.decimation_rate = c := by
    rw [hc]; exact Nat.mul_div_cancel_left c hpos
  rw [hcount', hc]
  push_cast
  rw [mul_comm (P.decimation_rate : Int) (c : Int)]
  exact Int.mul_ediv_mul_of_pos_left S (c : Int) (by exact_mod_cast hpos)

/-- The magnitude of the small instance is at most 40960 on 16-bit I/Q. -/
theorem demo_magnitude_range (i q : Int) (hi : -32768 ≤ i ∧ i ≤ 32767)
    (hq : -32768 ≤ q ∧ q ≤ 32767) : 0 ≤ demo_magnitude i q ∧ demo_magnitude i q ≤ 40960 := by
  unfold demo_magnitude
  simp only []
  split_ifs <;>
    (rw [Int.tdiv_eq_ediv (by omega) (by decide)]; omega)

set_option maxRecDepth 100000 in
/-- Witness of C17: the small instance (block of 64, magnitudes at most 40960) on the raw
samples `1000 * k`: the two post-filter magnitudes are 447 and 35638 and `signal_amplitude`
is `36085 * 32 / 64 = 18042`. -/
theorem process_block_signal_amplitude_witness :
    (demo_config.adc_block_size : Int) * 40960 ≤ 2147483647 ∧
    (process_block demo_config demo_fresh (fun k => 1000 * k)
      (fun _ => 0)).self.signal_amplitude
      = Int.tdiv (((List.range (demo_config.adc_block_size / demo_config.decimation_rate)).map
          (fun k => demo_config.rectangular_2_magnitude
            (to_int16 ((process_block_filter demo_config
              (process_block_front demo_config demo_fresh (fun k => 1000 * k))).2.1 k))
            (to_int16 ((process_block_filter demo_config
              (process_block_front demo_config demo_fresh (fun k => 1000 * k))).2.2 k)))).sum
          * demo_config.decimation_rate) demo_config.adc_block_size ∧
    (process_block demo_config demo_fresh (fun k => 1000 * k)
      (fun _ => 0)).self.signal_amplitude = 18042 :=
  ⟨by decide,
    (process_block_signal_amplitude demo_config demo_fresh (fun k => 1000 * k) (fun _ => 0)
      40960 demo_magnitude_range (by decide)).2.1,
    by decide⟩

/-! ## Decimation cycle -/

/-- One call of `decimate` with CIC factor 16 and the counter at `c < 16`: the call returns
true exactly when `c = 15`, and the counter becomes `(c + 1) mod 16`. -/
theorem decimate_count_step (P : rx_config σ) (hrate : P.cic_decimation_rate = 16)
    (s : rx_dsp σ) (i q : Int) (c : Nat) (hc : s.decimate_count = (c : Int)) (hc16 : c < 16) :
    ((decimate P s i q).1 = true ↔ c = 15) ∧
      (decimate P s i q).2.2.2.decimate_count = (((c + 1) % 16 : Nat) : Int) := by
  have hflag := decimate_flag P s i q
  rw [hc, hrate] at hflag
  by_cases h15 : c = 15
  · have hfire : s.decimate_count + 1 ≥ ((P.cic_decimation_rate : Nat) : Int) := by
      rw [hc, hrate]; omega
    refine ⟨⟨fun _ => h15, fun _ => hflag.mpr (by omega)⟩, ?_⟩
    simp only [decimate, hfire, if_true]
    subst h15
    rfl
  · have hfire : ¬ (s.decimate_count + 1 ≥ ((P.cic_decimation_rate : Nat) : Int)) := by
      rw [hc, hrate]; omega
    refine ⟨⟨fun h => absurd (hflag.mp h) (by omega), fun h => absurd h h15⟩, ?_⟩
    simp only [decimate, hfire, if_false]
    rw [hc]
    have : (c + 1) % 16 = c + 1 := Nat.mod_eq_of_lt (by omega)
    rw [this]
    push_cast
    rfl

theorem decimate_run_count (P : rx_config σ) (hrate : P.cic_decimation_rate = 16)
    (i q : Nat → Int) (s : rx_dsp σ) (c0 : Nat) (hc : s.decimate_count = (c0 : Int))
    (hc16 : c0 < 16) (t : Nat) :
    (decimate_run P i q s t).decimate_count = (((c0 + t) % 16 : Nat) : Int) := by
  induction t with
  | zero =>
    show s.decimate_count = _
    rw [hc, Nat.add_zero, Nat.mod_eq_of_lt hc16]
  | succ t ih =>
    have h := (decimate_count_step P hrate (decimate_run P i q s t) (i t) (q t)
      ((c0 + t) % 16) ih (Nat.mod_lt _ (by decide))).2
    show (decimate P (decimate_run P i q s t) (i t) (q t)).2.2.2.decimate_count = _
    rw [h]
    congr 1
    omega

theorem decimate_fires_iff (P : rx_config σ) (hrate : P.cic_decimation_rate = 16)
    (i q : Nat → Int) (s : rx_dsp σ) (c0 : Nat) (hc : s.decimate_count = (c0 : Int))
    (hc16 : c0 < 16) (t : Nat) :
    decimate_fires P i q s t = true ↔ (c0 + t) % 16 = 15 :=
  (decimate_count_step P hrate (decimate_run P i q s t) (i t) (q t) ((c0 + t) % 16)
    (decimate_run_count P hrate i q s c0 hc hc16 t) (Nat.mod_lt _ (by decide))).1

theorem sample_store_index (P : rx_config σ) (st : sample_locals σ) (acc : Int)
    (r : Bool × Int × Int × rx_dsp σ) :
    (sample_store P st acc r).decimated_index
        = (if r.1 = true then to_uint16 (st.decimated_index + 1) else st.decimated_index) ∧
      (sample_store P st acc r).self.decimate_count = r.2.2.2.decimate_count := by
  obtain ⟨b, i, q, s1⟩ := r
  cases b <;> exact ⟨rfl, rfl⟩

/-- Counter and output index in the first loop of `process_block`: after `t` samples the
counter is `(c0 + t) mod 16` and `decimated_index` is `(c0 + t) / 16`. -/
theorem sample_state_count (P : rx_config σ) (hrate : P.cic_decimation_rate = 16)
    (samples : Nat → Nat) (s : rx_dsp σ) (c0 : Nat) (hc : s.decimate_count = (c0 : Int))
    (hc16 : c0 < 16) (t : Nat) (ht : t < 65536) :
    (sample_state P samples s t).self.decimate_count = (((c0 + t) % 16 : Nat) : Int) ∧
      (sample_state P samples s t).decimated_index = (((c0 + t) / 16 : Nat) : Int) := by
  induction t with
  | zero =>
    refine ⟨?_, ?_⟩
    · show s.decimate_count = _
      rw [hc, Nat.add_zero, Nat.mod_eq_of_lt hc16]
    · show (0 : Int) = _
      rw [Nat.add_zero, Nat.div_eq_of_lt hc16]; rfl
  | succ t ih =>
    obtain ⟨h1, h2⟩ := ih (by omega)
    have hstep := decimate_count_step P hrate (sample_state P samples s t).self
      (cic_feed P samples s t).1 (cic_feed P samples s t).2 ((c0 + t) % 16) h1
      (Nat.mod_lt _ (by decide))
    have hidx := sample_store_index P (sample_state P samples s t)
      (to_int32 ((sample_state P samples s t).sample_accumulator + to_int16 (samples t)))
      (decimate P (sample_state P samples s t).self
        (cic_feed P samples s t).1 (cic_feed P samples s t).2)
    rw [sample_state_succ_eq]
    refine ⟨?_, ?_⟩
    · rw [hidx.2, hstep.2]
      congr 1
      omega
    · rw [hidx.1, h2]
      by_cases h15 : (c0 + t) % 16 = 15
      · rw [if_pos (hstep.1.mpr h15)]
        unfold to_uint16
        omega
      · rw [if_neg (fun h => h15 (hstep.1.mp h))]
        congr 1
        omega

/-- C18: with CIC factor 16 and a starting `decimate_count` in 0..15, whatever the samples,
`decimate_count` stays in 0..15, among any 16 consecutive calls of `decimate` exactly one
returns true, and from a counter of 0 it is the 16th call of each cycle; and when
`adc_block_size` is a multiple of 16 the first loop of `process_block` ends with
`decimated_index = adc_block_size / 16`, every store into `real`/`imag` uses an index below
`adc_block_size / 16`, and every such index is stored to. -/
theorem decimate_cycle (P : rx_config σ) (s : rx_dsp σ) (i q : Nat → Int)
    (samples : Nat → Nat) (hrate : P.cic_decimation_rate = 16)
    (hc : 0 ≤ s.decimate_count ∧ s.decimate_count ≤ 15) :
    (∀ t, 0 ≤ (decimate_run P i q s t).decimate_count ∧
      (decimate_run P i q s t).decimate_count ≤ 15) ∧
    (∀ t, ∃! j, j < 16 ∧ decimate_fires P i q s (t + j) = true) ∧
    (s.decimate_count = 0 → ∀ t, decimate_fires P i q s t = true ↔ t % 16 = 15) ∧
    (16 ∣ P.adc_block_size →
      (process_block_front P s samples).decimated_index
        = ((P.adc_block_size / 16 : Nat) : Int) ∧
      (∀ t, t < P.adc_block_size →
        (decimate P (sample_state P samples s t).self
          (cic_feed P samples s t).1 (cic_feed P samples s t).2).1 = true →
        (sample_state P samples s t).decimated_index.toNat < P.adc_block_size / 16) ∧
      (∀ k, k < P.adc_block_size / 16 → ∃ t, t < P.adc_block_size ∧
        (decimate P (sample_state P samples s t).self
          (cic_feed P samples s t).1 (cic_feed P samples s t).2).1 = true ∧
        (sample_state P samples s t).decimated_index.toNat = k)) := by
  obtain ⟨c0, hc0⟩ : ∃ c0 : Nat, s.decimate_count = (c0 : Int) :=
    ⟨s.decimate_count.toNat, by omega⟩
  have hc16 : c0 < 16 := by omega
  have hcount := decimate_run_count P hrate i q s c0 hc0 hc16
  have hfires := decimate_fires_iff P hrate i q s c0 hc0 hc16
  have hsize := P.adc_block_size_fits
  refine ⟨fun t => ?_, fun t => ?_, fun h0 t => ?_, fun hdvd => ⟨?_, fun t ht hf => ?_, fun k hk => ?_⟩⟩
  · rw [hcount t]
    have := Nat.mod_lt (c0 + t) (by decide : 16 > 0)
    omega
  · refine ⟨15 - (c0 + t) % 16, ⟨by omega, (hfires _).mpr (by omega)⟩, fun j hj => ?_⟩
    have := (hfires _).mp hj.2
    omega
  · rw [hfires t]
    have : c0 = 0 := by omega
    subst this
    rw [Nat.zero_add]
  · rw [process_block_front_eq,
      (sample_state_count P hrate samples s c0 hc0 hc16 P.adc_block_size hsize).2]
    congr 1
    omega
  · obtain ⟨h1, h2⟩ := sample_state_count P hrate samples s c0 hc0 hc16 t (by omega)
    have hstep := decimate_count_step P hrate (sample_state P samples s t).self
      (cic_feed P samples s t).1 (cic_feed P samples s t).2 ((c0 + t) % 16) h1
      (Nat.mod_lt _ (by decide))
    have h15 := hstep.1.mp hf
    rw [h2, Int.toNat_ofNat]
    omega
  · have hc0k : c0 ≤ 16 * k + 15 := by omega
    obtain ⟨h1, h2⟩ := sample_state_count P hrate samples s c0 hc0 hc16 (16 * k + 15 - c0)
      (by omega)
    have hstep := decimate_count_step P hrate (sample_state P samples s (16 * k + 15 - c0)).self
      (cic_feed P samples s (16 * k + 15 - c0)).1 (cic_feed P samples s (16 * k + 15 - c0)).2
      ((c0 + (16 * k + 15 - c0)) % 16) h1 (Nat.mod_lt _ (by decide))
    refine ⟨16 * k + 15 - c0, by omega, hstep.1.mpr (by omega), ?_⟩
    rw [h2, Int.toNat_ofNat]
    omega

set_option maxRecDepth 100000 in
/-- Witness of C18: the small instance (block of 64) entered with the counter at 5: the
calls with index 10, 26, 42 and 58 store a decimated sample, and the loop ends with
`decimated_index = 4` and the counter back at 5. -/
theorem decimate_cycle_witness :
    (demo_config.cic_decimation_rate = 16 ∧
      (0 : Int) ≤ ({ demo_fresh with decimate_count := 5 } : rx_dsp Unit).decimate_count ∧
      ({ demo_fresh with decimate_count := 5 } : rx_dsp Unit).decimate_count ≤ 15 ∧
      16 ∣ demo_config.adc_block_size) ∧
    (∃! j, j < 16 ∧ decimate_fires demo_config (fun t => t) (fun t => 2 * t)
      { demo_fresh with decimate_count := 5 } (20 + j) = true) ∧
    decimate_fires demo_config (fun t => t) (fun t => 2 * t)
      { demo_fresh with decimate_count := 5 } 26 = true ∧
    (process_block_front demo_config { demo_fresh with decimate_count := 5 }
      (fun k => 1000 * k)).decimated_index = 4 ∧
    (process_block_front demo_config { demo_fresh with decimate_count := 5 }
      (fun k => 1000 * k)).self.decimate_count = 5 :=
  ⟨⟨rfl, by decide, by decide, by decide⟩,
    (decimate_cycle demo_config { demo_fresh with decimate_count := 5 } (fun t => t)
      (fun t => 2 * t) (fun k => 1000 * k) rfl (by decide)).2.1 20,
    by decide,
    ((decimate_cycle demo_config { demo_fresh with decimate_count := 5 } (fun t => t)
      (fun t => 2 * t) (fun k => 1000 * k) rfl (by decide)).2.2.2 (by decide)).1,
    by decide⟩

/-! ## Mode switch -/

/-- C19: for every state, mode and bandwidth, `set_mode` changes nothing but `mode` and the
`filter_control` fields `lower_sideband`, `upper_sideband`, `start_bin` and `stop_bin`: the
result is the old state with `mode` and `filter_control` replaced, the `capture` and
`enable_auto_notch` flags of `filter_control` are kept, and in particular the CIC
integrators and delays, the decimate counter, the NCO phase and increment, `dc`, the AGC
state, the squelch threshold and the demodulator trackers are unchanged. -/
theorem set_mode_frame (s : rx_dsp σ) (val bw : Int) :
    set_mode s val bw = { s with mode := val, filter_control := (set_mode s val bw).filter_control } ∧
    (set_mode s val bw).filter_control
      = { s.filter_control with
          lower_sideband := decide (val ≠ USB), upper_sideband := decide (val ≠ LSB),
          start_bin := start_bins val.toNat, stop_bin := stop_bins bw.toNat val.toNat } ∧
    ((set_mode s val bw).filter_control.capture = s.filter_control.capture ∧
      (set_mode s val bw).filter_control.enable_auto_notch = s.filter_control.enable_auto_notch) ∧
    ((set_mode s val bw).integratori1 = s.integratori1 ∧
      (set_mode s val bw).integratori2 = s.integratori2 ∧
      (set_mode s val bw).integratori3 = s.integratori3 ∧
      (set_mode s val bw).integratori4 = s.integratori4 ∧
      (set_mode s val bw).integratorq1 = s.integratorq1 ∧
      (set_mode s val bw).integratorq2 = s.integratorq2 ∧
      (set_mode s val bw).integratorq3 = s.integratorq3 ∧
      (set_mode s val bw).integratorq4 = s.integratorq4) ∧
    ((set_mode s val bw).delayi0 = s.delayi0 ∧ (set_mode s val bw).delayi1 = s.delayi1 ∧
      (set_mode s val bw).delayi2 = s.delayi2 ∧ (set_mode s val bw).delayi3 = s.delayi3 ∧
      (set_mode s val bw).delayq0 = s.delayq0 ∧ (set_mode s val bw).delayq1 = s.delayq1 ∧
      (set_mode s val bw).delayq2 = s.delayq2 ∧ (set_mode s val bw).delayq3 = s.delayq3) ∧
    ((set_mode s val bw).decimate_count = s.decimate_count ∧
      (set_mode s val bw).phase = s.phase ∧ (set_mode s val bw).frequency = s.frequency ∧
      (set_mode s val bw).dc = s.dc) ∧
    ((set_mode s val bw).max_hold = s.max_hold ∧ (set_mode s val bw).hang_timer = s.hang_timer ∧
      (set_mode s val bw).attack_factor = s.attack_factor ∧
      (set_mode s val bw).decay_factor = s.decay_factor ∧
      (set_mode s val bw).hang_time = s.hang_time ∧
      (set_mode s val bw).squelch_threshold = s.squelch_threshold) ∧
    ((set_mode s val bw).audio_dc = s.audio_dc ∧ (set_mode s val bw).phi_locked = s.phi_locked ∧
      (set_mode s val bw).freq_locked = s.freq_locked ∧
      (set_mode s val bw).last_phase = s.last_phase ∧
      (set_mode s val bw).cw_sidetone_phase = s.cw_sidetone_phase) :=
  ⟨rfl, rfl, ⟨rfl, rfl⟩, ⟨rfl, rfl, rfl, rfl, rfl, rfl, rfl, rfl⟩,
    ⟨rfl, rfl, rfl, rfl, rfl, rfl, rfl, rfl⟩, ⟨rfl, rfl, rfl, rfl⟩,
    ⟨rfl, rfl, rfl, rfl, rfl, rfl⟩, ⟨rfl, rfl, rfl, rfl, rfl⟩⟩

/-! ## Capture hand-off -/

theorem back_frame_refl (s : rx_dsp σ) : back_frame s s := ⟨rfl, rfl, rfl, rfl⟩

theorem back_frame_trans {s t u : rx_dsp σ} (h1 : back_frame s t) (h2 : back_frame t u) :
    back_frame s u :=
  ⟨h2.1.trans h1.1, h2.2.1.trans h1.2.1, h2.2.2.1.trans h1.2.2.1, h2.2.2.2.trans h1.2.2.2⟩

theorem demodulate_back_frame (P : rx_config σ) (s : rx_dsp σ) (i q : Int) :
    back_frame s (demodulate P s i q).2 := by
  unfold demodulate back_frame
  simp only []
  split_ifs <;> exact ⟨rfl, rfl, rfl, rfl⟩

theorem apply_deemphasis_back_frame (s : rx_dsp σ) (x : Int) :
    back_frame s (apply_deemphasis s x).2 := by
  unfold apply_deemphasis back_frame
  simp only []
  split_ifs <;> exact ⟨rfl, rfl, rfl, rfl⟩

theorem automatic_gain_control_back_frame (s : rx_dsp σ) (x : Int) :
    back_frame s (automatic_gain_control s x).2 := by
  rw [automatic_gain_control_eq]
  unfold agc_track back_frame
  simp only []
  split_ifs <;> exact ⟨rfl, rfl, rfl, rfl⟩

theorem audio_chain_back_frame (P : rx_config σ) (s : rx_dsp σ) (i q : Int) :
    back_frame s (audio_chain P s i q).2 := by
  rw [audio_chain_eq]
  exact back_frame_trans
    (back_frame_trans (demodulate_back_frame P s i q) (apply_deemphasis_back_frame _ _))
    (automatic_gain_control_back_frame _ _)

theorem audio_state_back_frame (P : rx_config σ) (real imag : Nat → Int) (s : rx_dsp σ)
    (k : Nat) : back_frame s (audio_state P real imag s k) := by
  induction k with
  | zero => exact back_frame_refl s
  | succ k ih => exact back_frame_trans ih (audio_chain_back_frame P _ _ _)

set_option maxRecDepth 100000 in
/-- C20 (as stated, refuted): on the small instance, with the capture lock held elsewhere
(no permit) and a snapshot whose `start_bin` is 7, one call of `process_block` does not
acquire the lock (the capture flag is false afterwards) and still replaces the snapshot
by the current filter control, whose `start_bin` is 0. -/
theorem process_block_snapshot_overwritten :
    (sem_try_acquire demo_locked.spectrum_semaphore).1 = false ∧
    demo_locked.capture_filter_control.start_bin = 7 ∧
    (process_block demo_config demo_locked (fun _ => 0)
      (fun _ => 0)).self.filter_control.capture = false ∧
    ¬ (process_block demo_config demo_locked (fun _ => 0)
      (fun _ => 0)).self.capture_filter_control = demo_locked.capture_filter_control ∧
    (get_filter_config (process_block demo_config demo_locked (fun _ => 0)
      (fun _ => 0)).self).start_bin = 0 := by
  decide

/-- C20 (amended): `capture_filter_control` is snapshotted on every call of
`process_block`, whether or not the capture lock was acquired: after the call it is the
filter control handed to the spectral filter for that block, that is the `filter_control`
held on entry with its `capture` flag set to the outcome of the try-acquire (true exactly
when a permit was available); `get_filter_config` returns that value. -/
theorem process_block_snapshot (P : rx_config σ) (s : rx_dsp σ) (samples : Nat → Nat)
    (audio_samples : Nat → Int) :
    (process_block P s samples audio_samples).self.capture_filter_control
      = { s.filter_control with capture := (sem_try_acquire s.spectrum_semaphore).1 } ∧
    (process_block P s samples audio_samples).self.filter_control
      = { s.filter_control with capture := (sem_try_acquire s.spectrum_semaphore).1 } ∧
    get_filter_config (process_block P s samples audio_samples).self
      = { s.filter_control with capture := (sem_try_acquire s.spectrum_semaphore).1 } ∧
    ((sem_try_acquire s.spectrum_semaphore).1 = true ↔ s.spectrum_semaphore ≠ 0) := by
  have hfront := sample_state_front_frame P samples s P.adc_block_size
  rw [← process_block_front_eq] at hfront
  have hback := audio_state_back_frame P
    (process_block_filter P (process_block_front P s samples)).2.1
    (process_block_filter P (process_block_front P s samples)).2.2
    (process_block_filter P (process_block_front P s samples)).1
    (P.adc_block_size / P.decimation_rate)
  have hself := (audio_loop_spec P
    (process_block_filter P (process_block_front P s samples)).2.1
    (process_block_filter P (process_block_front P s samples)).2.2
    (P.adc_block_size / P.decimation_rate)
    { self := (process_block_filter P (process_block_front P s samples)).1,
      audio_samples := audio_samples, magnitude_sum := 0 }).1
  have hmid : (process_block_filter P (process_block_front P s samples)).1.capture_filter_control
        = { s.filter_control with capture := (sem_try_acquire s.spectrum_semaphore).1 } ∧
      (process_block_filter P (process_block_front P s samples)).1.filter_control
        = { s.filter_control with capture := (sem_try_acquire s.spectrum_semaphore).1 } := by
    have e1 : (process_block_filter P (process_block_front P s samples)).1.capture_filter_control
        = { (process_block_front P s samples).self.filter_control with
            capture := (sem_try_acquire
              (process_block_front P s samples).self.spectrum_semaphore).1 } := rfl
    have e2 : (process_block_filter P (process_block_front P s samples)).1.filter_control
        = { (process_block_front P s samples).self.filter_control with
            capture := (sem_try_acquire
              (process_block_front P s samples).self.spectrum_semaphore).1 } := rfl
    rw [e1, e2, hfront.2.2.1, hfront.2.2.2.2]
    exact ⟨rfl, rfl⟩
  have hcap : (process_block P s samples audio_samples).self.capture_filter_control
      = { s.filter_control with capture := (sem_try_acquire s.spectrum_semaphore).1 } := by
    have e : (process_block P s samples audio_samples).self.capture_filter_control
        = (audio_loop P (process_block_filter P (process_block_front P s samples)).2.1
            (process_block_filter P (process_block_front P s samples)).2.2
            (P.adc_block_size / P.decimation_rate) 0
            { self := (process_block_filter P (process_block_front P s samples)).1,
              audio_samples := audio_samples,
              magnitude_sum := 0 }).self.capture_filter_control := rfl
    rw [e, hself, hback.2.1, hmid.1]
  have hfc : (process_block P s samples audio_samples).self.filter_control
      = { s.filter_control with capture := (sem_try_acquire s.spectrum_semaphore).1 } := by
    have e : (process_block P s samples audio_samples).self.filter_control
        = (audio_loop P (process_block_filter P (process_block_front P s samples)).2.1
            (process_block_filter P (process_block_front P s samples)).2.2
            (P.adc_block_size / P.decimation_rate) 0
            { self := (process_block_filter P (process_block_front P s samples)).1,
              audio_samples := audio_samples,
              magnitude_sum := 0 }).self.filter_control := rfl
    rw [e, hself, hback.1, hmid.2]
  refine ⟨hcap, hfc, hcap, ?_⟩
  unfold sem_try_acquire
  split_ifs with h
  · simp [h]
  · simp [h]

/-! ## Bit-growth removal in `decimate` -/

/-- Shifting after subtracting half an LSB gives, as a 16-bit value, one less than shifting
after adding it. -/
theorem shift_bias_subtracted (x : Int) (n : Nat) (hn : 1 ≤ n ∧ n ≤ 16) :
    to_int16 (asr (to_int32 (x - 2 ^ (n - 1))) n) = to_int16 (spec_rounded_shift x n - 1) := by
  obtain ⟨h1, h2⟩ := hn
  unfold spec_rounded_shift to_int16 asr to_int32
  interval_cases n <;> simp only [Nat.reduceSub, Nat.reducePow, Int.reducePow] <;> omega

set_option maxRecDepth 100000 in
/-- C21 (as stated, refuted): on the small instance (`n = 14`), the 16th zero sample after
construction completes a decimation cycle with `combi4 = 0`, for which
`(combi4 + 2^13) >> 14` is 0, and `decimate` returns -1 on both channels; the 64th sample
of the constant 100 has `combi4 = 100 * 2^16`, for which `(combi4 + 2^13) >> 14` is 400,
and `decimate` returns 399. -/
theorem decimate_output_below_rounded :
    (decimate demo_config (decimate_state demo_config 0 0 demo_fresh 15) 0 0).1 = true ∧
    decimate_combi4 (decimate_state demo_config 0 0 demo_fresh 15) 0 = 0 ∧
    spec_rounded_shift 0 (demo_config.cic_bit_growth - demo_config.extra_bits) = 0 ∧
    (decimate demo_config (decimate_state demo_config 0 0 demo_fresh 15) 0 0).2.1 = -1 ∧
    (decimate demo_config (decimate_state demo_config 0 0 demo_fresh 15) 0 0).2.2.1 = -1 ∧
    ¬ (decimate demo_config (decimate_state demo_config 0 0 demo_fresh 15) 0 0).2.1
      = spec_rounded_shift (decimate_combi4 (decimate_state demo_config 0 0 demo_fresh 15) 0)
          (demo_config.cic_bit_growth - demo_config.extra_bits) ∧
    decimate_combi4 (decimate_state demo_config 100 100 demo_fresh 63) 100 = 100 * 2 ^ 16 ∧
    spec_rounded_shift (100 * 2 ^ 16) (demo_config.cic_bit_growth - demo_config.extra_bits)
      = 400 ∧
    (decimate demo_config (decimate_state demo_config 100 100 demo_fresh 63) 100 100).2.1
      = 399 := by
  decide

/-- C21 (amended): on every call of `decimate` that completes a decimation cycle, with
`n = cic_bit_growth - extra_bits` between 1 and 16, the outputs are the 4th comb stage with
the bias `2^(n-1)` subtracted before the shift, `i = (combi4 - 2^(n-1)) >> n` and
`q = (combq4 - 2^(n-1)) >> n`, stored as 16-bit values; each is one LSB below the comb
value divided by `2^n` and rounded to nearest. -/
theorem decimate_bias_subtracted (P : rx_config σ) (s : rx_dsp σ) (i q : Int)
    (hfire : s.decimate_count + 1 ≥ ((P.cic_decimation_rate : Nat) : Int))
    (hn : 1 ≤ P.cic_bit_growth - P.extra_bits ∧ P.cic_bit_growth - P.extra_bits ≤ 16) :
    (decimate P s i q).1 = true ∧
    ((decimate P s i q).2.1 = to_int16 (asr (to_int32 (decimate_combi4 s i
        - 2 ^ (P.cic_bit_growth - P.extra_bits - 1))) (P.cic_bit_growth - P.extra_bits)) ∧
      (decimate P s i q).2.2.1 = to_int16 (asr (to_int32 (decimate_combq4 s q
        - 2 ^ (P.cic_bit_growth - P.extra_bits - 1))) (P.cic_bit_growth - P.extra_bits))) ∧
    ((decimate P s i q).2.1
        = to_int16 (spec_rounded_shift (decimate_combi4 s i)
            (P.cic_bit_growth - P.extra_bits) - 1) ∧
      (decimate P s i q).2.2.1
        = to_int16 (spec_rounded_shift (decimate_combq4 s q)
            (P.cic_bit_growth - P.extra_bits) - 1)) := by
  have ei : (decimate P s i q).2.1 = to_int16 (asr (to_int32 (decimate_combi4 s i
      - 2 ^ (P.cic_bit_growth - P.extra_bits - 1))) (P.cic_bit_growth - P.extra_bits)) := by
    simp only [decimate, hfire, if_true]
    rfl
  have eq : (decimate P s i q).2.2.1 = to_int16 (asr (to_int32 (decimate_combq4 s q
      - 2 ^ (P.cic_bit_growth - P.extra_bits - 1))) (P.cic_bit_growth - P.extra_bits)) := by
    simp only [decimate, hfire, if_true]
    rfl
  have hi := shift_bias_subtracted (decimate_combi4 s i) _ hn
  have hq := shift_bias_subtracted (decimate_combq4 s q) _ hn
  refine ⟨?_, ⟨ei, eq⟩, ⟨ei.trans hi, eq.trans hq⟩⟩
  simp only [decimate, hfire, if_true]

set_option maxRecDepth 100000 in
/-- Witness of C21 (amended): on the small instance (`n = 14`), the 64th sample of the
constant pair `(100, -7)`: `combi4 = 100 * 2^16` gives `(6553600 - 8192) >> 14 = 399`, one
below the rounded value 400, and `combq4 = -7 * 2^16` gives -29, one below -28. -/
theorem decimate_bias_subtracted_witness :
    ((decimate_state demo_config 100 (-7) demo_fresh 63).decimate_count + 1
        ≥ ((demo_config.cic_decimation_rate : Nat) : Int) ∧
      1 ≤ demo_config.cic_bit_growth - demo_config.extra_bits ∧
      demo_config.cic_bit_growth - demo_config.extra_bits ≤ 16) ∧
    ((decimate demo_config (decimate_state demo_config 100 (-7) demo_fresh 63) 100 (-7)).2.1
        = to_int16 (asr (to_int32
            (decimate_combi4 (decimate_state demo_config 100 (-7) demo_fresh 63) 100
              - 2 ^ (demo_config.cic_bit_growth - demo_config.extra_bits - 1)))
            (demo_config.cic_bit_growth - demo_config.extra_bits)) ∧
      (decimate demo_config (decimate_state demo_config 100 (-7) demo_fresh 63) 100 (-7)).2.2.1
        = to_int16 (asr (to_int32
            (decimate_combq4 (decimate_state demo_config 100 (-7) demo_fresh 63) (-7)
              - 2 ^ (demo_config.cic_bit_growth - demo_config.extra_bits - 1)))
            (demo_config.cic_bit_growth - demo_config.extra_bits))) ∧
    decimate_combi4 (decimate_state demo_config 100 (-7) demo_fresh 63) 100 = 100 * 2 ^ 16 ∧
    decimate_combq4 (decimate_state demo_config 100 (-7) demo_fresh 63) (-7) = -7 * 2 ^ 16 ∧
    (decimate demo_config (decimate_state demo_config 100 (-7) demo_fresh 63) 100 (-7)).2.1
      = 399 ∧
    (decimate demo_config (decimate_state demo_config 100 (-7) demo_fresh 63) 100 (-7)).2.2.1
      = -29 ∧
    spec_rounded_shift (-7 * 2 ^ 16) 14 = -28 :=
  ⟨⟨by decide, by decide, by decide⟩,
    (decimate_bias_subtracted demo_config (decimate_state demo_config 100 (-7) demo_fresh 63)
      100 (-7) (by decide) ⟨by decide, by decide⟩).2.1,
    by decide, by decide, by decide, by decide, by decide⟩

/-! ## De-emphasis: the coefficients applied -/

/-- C22 (what the code does): with set A selected (`deemphasis == 1`) the three coefficients
applied are `(25222, 25222, 17676)`, those of set A; with set B selected (`deemphasis == 2`)
the two feed-forward coefficients are those of set B, `17500` and `17500`, but the feedback
coefficient is `17676`, the one of set A, not `2231`: the feedback term reads
`deemph_taps[0][2]` whatever the selection. -/
theorem apply_deemphasis_feedback_tap (s : rx_dsp σ) (x : Int)
    (hk : s.deemphasis = 1 ∨ s.deemphasis = 2) :
    (s.deemphasis = 1 →
      (apply_deemphasis s x).1
        = to_int16 (asr (x * deemph_taps 0 0) 15 + asr (s.x1 * deemph_taps 0 1) 15
            - asr (s.y1 * deemph_taps 0 2) 15)) ∧
    (s.deemphasis = 2 →
      (apply_deemphasis s x).1
        = to_int16 (asr (x * deemph_taps 1 0) 15 + asr (s.x1 * deemph_taps 1 1) 15
            - asr (s.y1 * deemph_taps 0 2) 15)) ∧
    (deemph_taps 0 0 = 25222 ∧ deemph_taps 0 1 = 25222 ∧ deemph_taps 0 2 = 17676) ∧
    (deemph_taps 1 0 = 17500 ∧ deemph_taps 1 1 = 17500 ∧ deemph_taps 1 2 = 2231) := by
  have h0 : s.deemphasis ≠ 0 := by rcases hk with h | h <;> rw [h] <;> decide
  refine ⟨?_, ?_, ⟨rfl, rfl, rfl⟩, ⟨rfl, rfl, rfl⟩⟩
  · intro h1
    have hi : (to_uint32 (s.deemphasis - 1)).toNat = 0 := by rw [h1]; decide
    simp only [apply_deemphasis, if_neg h0, hi]
  · intro h2
    have hi : (to_uint32 (s.deemphasis - 1)).toNat = 1 := by rw [h2]; decide
    simp only [apply_deemphasis, if_neg h0, hi]

/-- Witness of C22: set B with `x = 0`, `x1 = 0` and `y1 = 1000`.  The code returns
`-((1000 * 17676) >> 15) = -539`; with the feedback coefficient of set B the value would be
`-((1000 * 2231) >> 15) = -68`. -/
theorem apply_deemphasis_feedback_tap_witness :
    (({ demo_raw with deemphasis := 2, x1 := 0, y1 := 1000 } : rx_dsp Unit).deemphasis = 1 ∨
      ({ demo_raw with deemphasis := 2, x1 := 0, y1 := 1000 } : rx_dsp Unit).deemphasis = 2) ∧
    (apply_deemphasis { demo_raw with deemphasis := 2, x1 := 0, y1 := 1000 } 0).1
      = to_int16 (asr (0 * deemph_taps 1 0) 15 + asr (0 * deemph_taps 1 1) 15
          - asr (1000 * deemph_taps 0 2) 15) ∧
    (apply_deemphasis { demo_raw with deemphasis := 2, x1 := 0, y1 := 1000 } 0).1 = -539 ∧
    to_int16 (asr (0 * deemph_taps 1 0) 15 + asr (0 * deemph_taps 1 1) 15
      - asr (1000 * deemph_taps 1 2) 15) = -68 ∧
    ¬ (apply_deemphasis { demo_raw with deemphasis := 2, x1 := 0, y1 := 1000 } 0).1
      = to_int16 (asr (0 * deemph_taps 1 0) 15 + asr (0 * deemph_taps 1 1) 15
          - asr (1000 * deemph_taps 1 2) 15) :=
  ⟨Or.inr rfl,
    (apply_deemphasis_feedback_tap { demo_raw with deemphasis := 2, x1 := 0, y1 := 1000 } 0
      (Or.inr rfl)).2.1 rfl,
    by decide, by decide, by decide⟩

/-! ## Automatic gain control: the peak tracker -/

/-- The three phases of the leaky maximum on a 32-bit `max_hold`, for an input whose scaled
value exceeds `max_hold` by no more than fits in 32 bits. -/
theorem agc_track_phases (s : rx_dsp σ) (x : Int) (hx : -32768 ≤ x ∧ x ≤ 32767)
    (hm : -2147483648 ≤ s.max_hold ∧ s.max_hold ≤ 2147483647)
    (hsub : x * 2 ^ 16 - s.max_hold ≤ 2147483647) :
    (x * 2 ^ 16 > s.max_hold →
      (agc_track s x).max_hold
        = s.max_hold + asr (x * 2 ^ 16 - s.max_hold) s.attack_factor.toNat ∧
      (agc_track s x).hang_timer = s.hang_time) ∧
    (x * 2 ^ 16 ≤ s.max_hold → s.hang_timer ≠ 0 →
      (agc_track s x).max_hold = s.max_hold ∧
      (agc_track s x).hang_timer = s.hang_timer - 1) ∧
    (x * 2 ^ 16 ≤ s.max_hold → s.hang_timer = 0 →
      (agc_track s x).max_hold
        = (if s.max_hold > 0 then s.max_hold - asr s.max_hold s.decay_factor.toNat
           else s.max_hold) ∧
      (agc_track s x).hang_timer = 0) := by
  have hs : to_int32 (x * 2 ^ 16) = x * 2 ^ 16 := to_int32_of_range (by omega) (by omega)
  refine ⟨fun hgt => ?_, fun hle ht => ?_, fun hle ht => ?_⟩
  · have hb := gap_step_bounds s.attack_factor.toNat (x * 2 ^ 16 - s.max_hold) (by omega)
    have hd : to_int32 (x * 2 ^ 16 - s.max_hold) = x * 2 ^ 16 - s.max_hold :=
      to_int32_of_range (by omega) (by omega)
    unfold agc_track
    rw [hs, if_pos hgt, hd]
    refine ⟨?_, rfl⟩
    show to_int32 (s.max_hold + asr (x * 2 ^ 16 - s.max_hold) s.attack_factor.toNat) = _
    unfold asr
    exact to_int32_of_range (by omega) (by omega)
  · unfold agc_track
    rw [hs, if_neg (by omega), if_pos ht]
    exact ⟨rfl, rfl⟩
  · unfold agc_track
    rw [hs, if_neg (by omega), if_neg (by simp [ht])]
    by_cases hpos : s.max_hold > 0
    · have hb := gap_step_bounds s.decay_factor.toNat s.max_hold (by omega)
      rw [if_pos hpos, if_pos hpos]
      refine ⟨?_, ht⟩
      show to_int32 (s.max_hold - asr s.max_hold s.decay_factor.toNat) = _
      unfold asr
      exact to_int32_of_range (by omega) (by omega)
    · rw [if_neg hpos, if_neg hpos]
      exact ⟨rfl, ht⟩

/-- C23: one call of `automatic_gain_control` updates the peak tracker by the three-phase
rule, for every state whose `max_hold` is a 32-bit value and every 16-bit input `x` for
which the difference `x * 2^16 - max_hold` fits in 32 bits (every state with
`max_hold ≥ -65535`).  Attack: if `x * 2^16 > max_hold` then `max_hold` increases by
`(x * 2^16 - max_hold) >> attack_factor` and `hang_timer := hang_time`.  Hang: otherwise, if
`hang_timer != 0`, `max_hold` is unchanged and `hang_timer` decreases by 1.  Decay:
otherwise `max_hold` decreases by `max_hold >> decay_factor` when it is positive (and is
unchanged when it is not) and `hang_timer` stays 0. -/
theorem automatic_gain_control_three_phase (s : rx_dsp σ) (x : Int)
    (hx : -32768 ≤ x ∧ x ≤ 32767)
    (hm : -2147483648 ≤ s.max_hold ∧ s.max_hold ≤ 2147483647)
    (hsub : x * 2 ^ 16 - s.max_hold ≤ 2147483647) :
    (x * 2 ^ 16 > s.max_hold →
      (automatic_gain_control s x).2.max_hold
        = s.max_hold + asr (x * 2 ^ 16 - s.max_hold) s.attack_factor.toNat ∧
      (automatic_gain_control s x).2.hang_timer = s.hang_time) ∧
    (x * 2 ^ 16 ≤ s.max_hold → s.hang_timer ≠ 0 →
      (automatic_gain_control s x).2.max_hold = s.max_hold ∧
      (automatic_gain_control s x).2.hang_timer = s.hang_timer - 1) ∧
    (x * 2 ^ 16 ≤ s.max_hold → s.hang_timer = 0 →
      (automatic_gain_control s x).2.max_hold
        = (if s.max_hold > 0 then s.max_hold - asr s.max_hold s.decay_factor.toNat
           else s.max_hold) ∧
      (automatic_gain_control s x).2.hang_timer = 0) := by
  rw [automatic_gain_control_eq]
  exact agc_track_phases s x hx hm hsub

/-- Witness of C23: on the fresh receiver of the small instance (attack factor 2, decay
factor 14, hang time 31250): attack from `max_hold = 0` with the input 100 (to
`100 * 2^16 / 4 = 1638400`), hang with `hang_timer = 5`, and decay of
`max_hold = 1638400` by `1638400 >> 14 = 100`. -/
theorem automatic_gain_control_three_phase_witness :
    ((-32768 : Int) ≤ 100 ∧ (100 : Int) ≤ 32767 ∧
      -2147483648 ≤ demo_fresh.max_hold ∧ demo_fresh.max_hold ≤ 2147483647 ∧
      100 * 2 ^ 16 - demo_fresh.max_hold ≤ 2147483647 ∧
      100 * 2 ^ 16 > demo_fresh.max_hold) ∧
    ((automatic_gain_control demo_fresh 100).2.max_hold
        = demo_fresh.max_hold + asr (100 * 2 ^ 16 - demo_fresh.max_hold)
            demo_fresh.attack_factor.toNat ∧
      (automatic_gain_control demo_fresh 100).2.hang_timer = demo_fresh.hang_time) ∧
    (automatic_gain_control demo_fresh 100).2.max_hold = 1638400 ∧
    (automatic_gain_control demo_fresh 100).2.hang_timer = 31250 ∧
    (automatic_gain_control { demo_fresh with max_hold := 1638400, hang_timer := 5 } 3).2.max_hold
      = 1638400 ∧
    (automatic_gain_control { demo_fresh with max_hold := 1638400, hang_timer := 5 } 3).2.hang_timer
      = 4 ∧
    (automatic_gain_control { demo_fresh with max_hold := 1638400, hang_timer := 0 } 3).2.max_hold
      = 1638300 ∧
    (automatic_gain_control { demo_fresh with max_hold := 1638400, hang_timer := 0 } 3).2.hang_timer
      = 0 :=
  ⟨⟨by decide, by decide, by decide, by decide, by decide, by decide⟩,
    (automatic_gain_control_three_phase demo_fresh 100 ⟨by decide, by decide⟩
      ⟨by decide, by decide⟩ (by decide)).1 (by decide),
    by decide, by decide, by decide, by decide, by decide, by decide⟩

/-! ## Automatic gain control: the gain -/

/-- The tracked `max_hold` stays a 32-bit value. -/
theorem agc_track_max_hold_range (s : rx_dsp σ) (x : Int)
    (hm : -2147483648 ≤ s.max_hold ∧ s.max_hold ≤ 2147483647) :
    -2147483648 ≤ (agc_track s x).max_hold ∧ (agc_track s x).max_hold ≤ 2147483647 := by
  unfold agc_track
  split_ifs
  · exact to_int32_range _
  · exact hm
  · exact to_int32_range _
  · exact hm

/-- The 16-bit `magnitude` of a 32-bit `max_hold` is `max_hold >> 16` itself. -/
theorem agc_magnitude_eq (m : Int) (hm : -2147483648 ≤ m ∧ m ≤ 2147483647) :
    to_int16 (asr m 16) = asr m 16 := by
  unfold to_int16 asr
  omega

/-- The quotient `16383 / magnitude` for a positive magnitude is between 0 and 16383. -/
theorem agc_quotient_range (g : Int) (hg : 0 < g) :
    Int.tdiv agc_setpoint g = 16383 / g ∧ 0 ≤ 16383 / g ∧ 16383 / g ≤ 16383 := by
  have hs : agc_setpoint = 16383 := by decide
  rw [hs, Int.tdiv_eq_ediv (by decide) (le_of_lt hg)]
  exact ⟨rfl, Int.ediv_nonneg (by decide) (le_of_lt hg), Int.ediv_le_self _ (by decide)⟩

/-- The gain stage for a 32-bit `max_hold` and a 16-bit sample. -/
theorem agc_apply_gain_cases (m x : Int) (hm : -2147483648 ≤ m ∧ m ≤ 2147483647)
    (hx : -32768 ≤ x ∧ x ≤ 32767) :
    agc_apply_gain_checked m x = some (agc_apply_gain m x) ∧
    (0 < asr m 16 → agc_apply_gain m x = x * max 1 (Int.tdiv 16383 (asr m 16))) ∧
    (asr m 16 ≤ 0 → agc_apply_gain m x = x) := by
  have hmag := agc_magnitude_eq m hm
  have hs : agc_setpoint = 16383 := by decide
  refine ⟨?_, fun hpos => ?_, fun hle => ?_⟩
  · unfold agc_apply_gain_checked agc_apply_gain
    simp only [hmag]
    by_cases hpos : asr m 16 > 0
    · have hne : asr m 16 ≠ 0 := by omega
      simp only [if_pos hpos, checked_div, if_neg hne, Option.map_some']
    · simp only [if_neg hpos]
  · obtain ⟨hq, hq0, hq1⟩ := agc_quotient_range (asr m 16) hpos
    have hq16 : to_int16 (16383 / asr m 16) = 16383 / asr m 16 :=
      to_int16_of_range (by omega) (by omega)
    have ht : Int.tdiv 16383 (asr m 16) = 16383 / asr m 16 :=
      Int.tdiv_eq_ediv (by decide) (le_of_lt hpos)
    unfold agc_apply_gain
    rw [hmag, if_pos hpos, hq, hq16, ht]
    have hgain : (if 16383 / asr m 16 < 1 then 1 else 16383 / asr m 16)
        = max 1 (16383 / asr m 16) := by
      by_cases h : 16383 / asr m 16 < 1
      · rw [if_pos h, max_eq_left (by omega)]
      · rw [if_neg h, max_eq_right (by omega)]
    rw [hgain]
    have hg1 : 1 ≤ max 1 (16383 / asr m 16) := le_max_left _ _
    have hg2 : max 1 (16383 / asr m 16) ≤ 16383 := max_le (by decide) hq1
    have hb := mul_table_bound x (max 1 (16383 / asr m 16)) hx ⟨by omega, by omega⟩
    apply to_int32_of_range
    · linarith [hb.1]
    · linarith [hb.2]
  · unfold agc_apply_gain
    rw [hmag, if_neg (by omega)]

/-- C24: for every state whose `max_hold` is a 32-bit value and every 16-bit input, with
`magnitude = max_hold >> 16` taken from the tracked `max_hold` of the call: the division
`setpoint / magnitude` is never evaluated with a zero divisor (the checked gain stage
always has a result, the one the call uses); when `magnitude > 0` the audio is multiplied
by `max(1, 16383 / magnitude)`, which is at least 1; when `magnitude <= 0` the audio is
passed on as it is. -/
theorem automatic_gain_control_gain (s : rx_dsp σ) (x : Int)
    (hx : -32768 ≤ x ∧ x ≤ 32767)
    (hm : -2147483648 ≤ s.max_hold ∧ s.max_hold ≤ 2147483647) :
    (automatic_gain_control s x).1
      = to_int16 (hard_clamp (soft_clip
          (agc_apply_gain (automatic_gain_control s x).2.max_hold x))) ∧
    agc_apply_gain_checked (automatic_gain_control s x).2.max_hold x
      = some (agc_apply_gain (automatic_gain_control s x).2.max_hold x) ∧
    (0 < asr (automatic_gain_control s x).2.max_hold 16 →
      agc_apply_gain (automatic_gain_control s x).2.max_hold x
        = x * max 1 (Int.tdiv 16383 (asr (automatic_gain_control s x).2.max_hold 16)) ∧
      1 ≤ max 1 (Int.tdiv 16383 (asr (automatic_gain_control s x).2.max_hold 16))) ∧
    (asr (automatic_gain_control s x).2.max_hold 16 ≤ 0 →
      agc_apply_gain (automatic_gain_control s x).2.max_hold x = x) := by
  rw [automatic_gain_control_eq]
  have hr := agc_track_max_hold_range s x hm
  have hc := agc_apply_gain_cases (agc_track s x).max_hold x hr hx
  exact ⟨rfl, hc.1, fun h => ⟨hc.2.1 h, le_max_left _ _⟩, hc.2.2⟩

/-- Witness of C24: the fresh receiver of the small instance with `max_hold = 200 * 2^16`
held (magnitude 200, gain `16383 / 200 = 81`) and the input 50, which leaves as
`50 * 81 = 4050`; with `max_hold = 20000 * 2^16` the quotient `16383 / 20000` is 0 and the
gain is 1; with `max_hold = 0` the magnitude is 0 and the input is passed on. -/
theorem automatic_gain_control_gain_witness :
    ((-32768 : Int) ≤ 50 ∧ (50 : Int) ≤ 32767 ∧
      -2147483648 ≤ ({ demo_fresh with max_hold := 200 * 2 ^ 16, hang_timer := 9 }
        : rx_dsp Unit).max_hold ∧
      ({ demo_fresh with max_hold := 200 * 2 ^ 16, hang_timer := 9 }
        : rx_dsp Unit).max_hold ≤ 2147483647) ∧
    agc_apply_gain_checked
        (automatic_gain_control { demo_fresh with max_hold := 200 * 2 ^ 16, hang_timer := 9 }
          50).2.max_hold 50
      = some (agc_apply_gain
          (automatic_gain_control { demo_fresh with max_hold := 200 * 2 ^ 16, hang_timer := 9 }
            50).2.max_hold 50) ∧
    agc_apply_gain (200 * 2 ^ 16) 50 = 4050 ∧
    (automatic_gain_control { demo_fresh with max_hold := 200 * 2 ^ 16, hang_timer := 9 } 50).1
      = 4050 ∧
    agc_apply_gain (20000 * 2 ^ 16) 50 = 50 ∧
    agc_apply_gain 0 (-50) = -50 ∧
    agc_apply_gain_checked 0 (-50) = some (-50) :=
  ⟨⟨by decide, by decide, by decide, by decide⟩,
    (automatic_gain_control_gain { demo_fresh with max_hold := 200 * 2 ^ 16, hang_timer := 9 } 50
      ⟨by decide, by decide⟩ ⟨by decide, by decide⟩).2.1,
    by decide, by decide, by decide, by decide, by decide⟩

/-! ## Synchronous AM: the loop state -/

/-- In AMSYNC mode `demodulate` leaves in `freq_locked` and `phi_locked` the values of the
loop filter for the phase error of the sample. -/
theorem demodulate_amsync_loop (P : rx_config σ) (s : rx_dsp σ) (i q : Int)
    (hmode : s.mode = AMSYNC) :
    (demodulate P s i q).2.freq_locked
      = amsync_freq_locked s.freq_locked (amsync_err P s i q) ∧
    (demodulate P s i q).2.phi_locked
      = amsync_phi_locked s.phi_locked s.freq_locked (amsync_err P s i q) := by
  have h0 : ¬ s.mode = AM := by rw [hmode]; decide
  simp only [demodulate, if_neg h0, if_pos hmode]
  exact ⟨rfl, rfl⟩

/-- Loop filter, clamp and wrap for a 16-bit phase error: from a tracked frequency in
[-419, 419] and a tracked phase in [-32767, 32767] the new values are again in these
ranges. -/
theorem amsync_loop_range (f p err : Int) (herr : -32768 ≤ err ∧ err ≤ 32767)
    (hf : -419 ≤ f ∧ f ≤ 419) (hp : -32767 ≤ p ∧ p ≤ 32767) :
    (-419 ≤ amsync_freq_locked f err ∧ amsync_freq_locked f err ≤ 419) ∧
    (-32767 ≤ amsync_phi_locked p f err ∧ amsync_phi_locked p f err ≤ 32767) := by
  have hb : asr (AMSYNC_BETA * err) 15 = 4531 * err / 32768 := rfl
  have ha : asr (AMSYNC_ALPHA * err) 15 = 4225 * err / 32768 := rfl
  have hfmax : AMSYNC_F_MAX = 419 := rfl
  have hfmin : AMSYNC_F_MIN = -419 := rfl
  have hfix : AMSYNC_FIX_MAX = 32767 := rfl
  have h1 : to_int32 (f + 4531 * err / 32768) = f + 4531 * err / 32768 :=
    to_int32_of_range (by omega) (by omega)
  have h2 : to_int32 (p + (f + 4531 * err / 32768 + 4225 * err / 32768))
      = p + (f + 4531 * err / 32768 + 4225 * err / 32768) :=
    to_int32_of_range (by omega) (by omega)
  unfold amsync_freq_locked amsync_phi_locked
  simp only [hb, ha, hfmax, hfmin, hfix, h1, h2]
  refine ⟨⟨?_, ?_⟩, ⟨?_, ?_⟩⟩ <;> split_ifs <;> omega

/-- C25: for every sample `(i, q)` and every value the phase detector produces, if before a
call of `demodulate` in AMSYNC mode the tracked frequency `freq_locked` is in [-419, 419]
and the tracked phase `phi_locked` is in [-32767, 32767], then after the call
`freq_locked` is again in [-419, 419] and `phi_locked` again in [-32767, 32767]. -/
theorem demodulate_amsync_range (P : rx_config σ) (s : rx_dsp σ) (i q : Int)
    (hmode : s.mode = AMSYNC)
    (hf : -419 ≤ s.freq_locked ∧ s.freq_locked ≤ 419)
    (hp : -32767 ≤ s.phi_locked ∧ s.phi_locked ≤ 32767) :
    (-419 ≤ (demodulate P s i q).2.freq_locked ∧ (demodulate P s i q).2.freq_locked ≤ 419) ∧
    (-32767 ≤ (demodulate P s i q).2.phi_locked ∧
      (demodulate P s i q).2.phi_locked ≤ 32767) := by
  obtain ⟨e1, e2⟩ := demodulate_amsync_loop P s i q hmode
  rw [e1, e2]
  exact amsync_loop_range s.freq_locked s.phi_locked (amsync_err P s i q)
    (to_int16_range _) hf hp

set_option maxRecDepth 100000 in
/-- Witness of C25: the small instance with a phase detector that always reports -20000
(phase error 20000), from `freq_locked = 419` and `phi_locked = 32000`: the frequency
`419 + 2765` is clamped to 419, and the phase `32000 + 3184 + 2578 = 37762` is wrapped to
4994. -/
theorem demodulate_amsync_range_witness :
    (({ demo_fresh with mode := AMSYNC, freq_locked := 419, phi_locked := 32000 }
        : rx_dsp Unit).mode = AMSYNC ∧
      amsync_err demo_config_lagging
        { demo_fresh with mode := AMSYNC, freq_locked := 419, phi_locked := 32000 } 1000 0
        = 20000) ∧
    ((-419 ≤ (demodulate demo_config_lagging
          { demo_fresh with mode := AMSYNC, freq_locked := 419, phi_locked := 32000 }
          1000 0).2.freq_locked ∧
        (demodulate demo_config_lagging
          { demo_fresh with mode := AMSYNC, freq_locked := 419, phi_locked := 32000 }
          1000 0).2.freq_locked ≤ 419) ∧
      (-32767 ≤ (demodulate demo_config_lagging
          { demo_fresh with mode := AMSYNC, freq_locked := 419, phi_locked := 32000 }
          1000 0).2.phi_locked ∧
        (demodulate demo_config_lagging
          { demo_fresh with mode := AMSYNC, freq_locked := 419, phi_locked := 32000 }
          1000 0).2.phi_locked ≤ 32767)) ∧
    (demodulate demo_config_lagging
      { demo_fresh with mode := AMSYNC, freq_locked := 419, phi_locked := 32000 }
      1000 0).2.freq_locked = 419 ∧
    (demodulate demo_config_lagging
      { demo_fresh with mode := AMSYNC, freq_locked := 419, phi_locked := 32000 }
      1000 0).2.phi_locked = 4994 :=
  ⟨⟨rfl, by decide⟩,
    demodulate_amsync_range demo_config_lagging
      { demo_fresh with mode := AMSYNC, freq_locked := 419, phi_locked := 32000 } 1000 0
      rfl ⟨by decide, by decide⟩ ⟨by decide, by decide⟩,
    by decide, by decide⟩

/-! ## FM discriminator -/

/-- C26: in FM mode, with `p0 = last_phase` the previous phase and
`p1 = rectangular_2_phase(i, q)` a signed 16-bit value, `demodulate` returns a signed
16-bit value congruent to `p1 - p0` modulo `2^16`, which is the only such value, and sets
`last_phase := p1`; when `p1 = p0` the output is 0. -/
theorem demodulate_fm_wrapped_difference (P : rx_config σ) (s : rx_dsp σ) (i q : Int)
    (hmode : s.mode = FM)
    (hp1 : -32768 ≤ P.rectangular_2_phase i q ∧ P.rectangular_2_phase i q ≤ 32767) :
    ((-32768 ≤ (demodulate P s i q).1 ∧ (demodulate P s i q).1 ≤ 32767) ∧
      ((demodulate P s i q).1 - (P.rectangular_2_phase i q - s.last_phase)) % 65536 = 0) ∧
    (∀ v : Int, -32768 ≤ v → v ≤ 32767 →
      (v - (P.rectangular_2_phase i q - s.last_phase)) % 65536 = 0 →
      v = (demodulate P s i q).1) ∧
    (demodulate P s i q).2.last_phase = P.rectangular_2_phase i q ∧
    (P.rectangular_2_phase i q = s.last_phase → (demodulate P s i q).1 = 0) := by
  have h0 : ¬ s.mode = AM := by rw [hmode]; decide
  have h1 : ¬ s.mode = AMSYNC := by rw [hmode]; decide
  have hp : to_int16 (P.rectangular_2_phase i q) = P.rectangular_2_phase i q :=
    to_int16_of_range hp1.1 hp1.2
  have e1 : (demodulate P s i q).1
      = to_int16 (P.rectangular_2_phase i q - s.last_phase) := by
    simp only [demodulate, if_neg h0, if_neg h1, if_pos hmode, hp]
  have e2 : (demodulate P s i q).2.last_phase = P.rectangular_2_phase i q := by
    simp only [demodulate, if_neg h0, if_neg h1, if_pos hmode, hp]
  rw [e1, e2]
  generalize P.rectangular_2_phase i q = p1 at *
  generalize s.last_phase = p0 at *
  refine ⟨⟨⟨?_, ?_⟩, ?_⟩, ?_, rfl, ?_⟩
  · unfold to_int16; omega
  · unfold to_int16; omega
  · unfold to_int16; omega
  · intro v hv1 hv2 hv
    unfold to_int16
    omega
  · intro h
    rw [h]
    unfold to_int16
    omega

/-- Witness of C26: the small instance in FM mode with a phase function that reports
-20000 and the previous phase 20000: the difference -40000 is returned as
`-40000 + 65536 = 25536` and `last_phase` becomes -20000; with the previous phase -20000
(constant phase) the output is 0. -/
theorem demodulate_fm_wrapped_difference_witness :
    (({ demo_fresh with mode := FM, last_phase := 20000 } : rx_dsp Unit).mode = FM ∧
      -32768 ≤ demo_config_lagging.rectangular_2_phase 1000 0 ∧
      demo_config_lagging.rectangular_2_phase 1000 0 ≤ 32767) ∧
    (((-32768 ≤ (demodulate demo_config_lagging
            { demo_fresh with mode := FM, last_phase := 20000 } 1000 0).1 ∧
        (demodulate demo_config_lagging
            { demo_fresh with mode := FM, last_phase := 20000 } 1000 0).1 ≤ 32767) ∧
      ((demodulate demo_config_lagging
            { demo_fresh with mode := FM, last_phase := 20000 } 1000 0).1
          - (demo_config_lagging.rectangular_2_phase 1000 0
            - ({ demo_fresh with mode := FM, last_phase := 20000 } : rx_dsp Unit).last_phase))
        % 65536 = 0)) ∧
    (demodulate demo_config_lagging
      { demo_fresh with mode := FM, last_phase := 20000 } 1000 0).1 = 25536 ∧
    (demodulate demo_config_lagging
      { demo_fresh with mode := FM, last_phase := 20000 } 1000 0).2.last_phase = -20000 ∧
    (demodulate demo_config_lagging
      { demo_fresh with mode := FM, last_phase := -20000 } 1000 0).1 = 0 :=
  ⟨⟨rfl, by decide, by decide⟩,
    (demodulate_fm_wrapped_difference demo_config_lagging
      { demo_fresh with mode := FM, last_phase := 20000 } 1000 0 rfl
      ⟨by decide, by decide⟩).1,
    by decide, by decide, by decide⟩

/-! ## Automatic gain control: range of the peak tracker -/

/-- C27: for every 16-bit input and every attack and decay factor, if
`0 ≤ max_hold ≤ 32767 * 2^16` before a call of `automatic_gain_control` then the same holds
after it; the subtraction `(x * 2^16) - max_hold` of the attack branch is then positive and
fits in 32 bits, and the 16-bit `magnitude = max_hold >> 16` of the call is in
[0, 32767]. -/
theorem automatic_gain_control_max_hold_invariant (s : rx_dsp σ) (x : Int)
    (hx : -32768 ≤ x ∧ x ≤ 32767)
    (hinv : 0 ≤ s.max_hold ∧ s.max_hold ≤ 32767 * 2 ^ 16) :
    (0 ≤ (automatic_gain_control s x).2.max_hold ∧
      (automatic_gain_control s x).2.max_hold ≤ 32767 * 2 ^ 16) ∧
    (to_int32 (x * 2 ^ 16) > s.max_hold →
      to_int32 (to_int32 (x * 2 ^ 16) - s.max_hold) = x * 2 ^ 16 - s.max_hold ∧
      0 < x * 2 ^ 16 - s.max_hold ∧ x * 2 ^ 16 - s.max_hold ≤ 2147483647) ∧
    (to_int16 (asr (automatic_gain_control s x).2.max_hold 16)
        = asr (automatic_gain_control s x).2.max_hold 16 ∧
      0 ≤ to_int16 (asr (automatic_gain_control s x).2.max_hold 16) ∧
      to_int16 (asr (automatic_gain_control s x).2.max_hold 16) ≤ 32767) := by
  have hs : to_int32 (x * 2 ^ 16) = x * 2 ^ 16 := to_int32_of_range (by omega) (by omega)
  have hph := agc_track_phases s x hx ⟨by omega, by omega⟩ (by omega)
  have hrange : 0 ≤ (automatic_gain_control s x).2.max_hold ∧
      (automatic_gain_control s x).2.max_hold ≤ 32767 * 2 ^ 16 := by
    rw [automatic_gain_control_eq]
    show 0 ≤ (agc_track s x).max_hold ∧ (agc_track s x).max_hold ≤ 32767 * 2 ^ 16
    by_cases hgt : x * 2 ^ 16 > s.max_hold
    · have hb := gap_step_bounds s.attack_factor.toNat (x * 2 ^ 16 - s.max_hold) (by omega)
      rw [(hph.1 hgt).1]
      unfold asr
      omega
    · by_cases ht : s.hang_timer = 0
      · rw [(hph.2.2 (by omega) ht).1]
        by_cases hpos : s.max_hold > 0
        · have hb := gap_step_bounds s.decay_factor.toNat s.max_hold (by omega)
          rw [if_pos hpos]
          unfold asr
          omega
        · rw [if_neg hpos]
          exact hinv
      · rw [(hph.2.1 (by omega) ht).1]
        exact hinv
  refine ⟨hrange, ?_, ?_⟩
  · intro hgt
    rw [hs] at hgt ⊢
    exact ⟨to_int32_of_range (by omega) (by omega), by omega, by omega⟩
  · obtain ⟨h1, h2⟩ := hrange
    generalize (automatic_gain_control s x).2.max_hold = m at h1 h2 ⊢
    unfold to_int16 asr
    omega

/-- Witness of C27: the fresh receiver of the small instance with `max_hold` at the upper
end `32767 * 2^16` and the largest input 32767 (neither attack nor decay while the hang
timer runs), and with `max_hold = 0` and the input 32767 (attack to `32767 * 2^16 / 4`). -/
theorem automatic_gain_control_max_hold_invariant_witness :
    ((-32768 : Int) ≤ 32767 ∧ (32767 : Int) ≤ 32767 ∧
      0 ≤ demo_fresh.max_hold ∧ demo_fresh.max_hold ≤ 32767 * 2 ^ 16) ∧
    (0 ≤ (automatic_gain_control demo_fresh 32767).2.max_hold ∧
      (automatic_gain_control demo_fresh 32767).2.max_hold ≤ 32767 * 2 ^ 16) ∧
    (automatic_gain_control demo_fresh 32767).2.max_hold = 536854528 ∧
    to_int16 (asr (automatic_gain_control demo_fresh 32767).2.max_hold 16) = 8191 ∧
    (automatic_gain_control { demo_fresh with max_hold := 32767 * 2 ^ 16, hang_timer := 3 }
      32767).2.max_hold = 32767 * 2 ^ 16 :=
  ⟨⟨by decide, by decide, by decide, by decide⟩,
    (automatic_gain_control_max_hold_invariant demo_fresh 32767 ⟨by decide, by decide⟩
      ⟨by decide, by decide⟩).1,
    by decide, by decide, by decide⟩

/-! ## Spectrum read-out: the long-term minimum and maximum -/

/-- The scan for `new_max` and `new_min` keeps both within the 16-bit unsigned range. -/
theorem minmax_loop_range (capture : Nat → Int) (n i : Nat) (st : Int × Int)
    (h1 : 0 ≤ st.1 ∧ st.1 ≤ 65535) (h2 : 0 ≤ st.2 ∧ st.2 ≤ 65535) :
    (0 ≤ (minmax_loop capture n i st).1 ∧ (minmax_loop capture n i st).1 ≤ 65535) ∧
    (0 ≤ (minmax_loop capture n i st).2 ∧ (minmax_loop capture n i st).2 ≤ 65535) := by
  induction n generalizing i st with
  | zero => exact ⟨h1, h2⟩
  | succ n ih =>
    obtain ⟨a, b⟩ := st
    have hm : 0 ≤ to_uint16 (capture i) ∧ to_uint16 (capture i) ≤ 65535 := by
      unfold to_uint16
      omega
    simp only [minmax_loop]
    apply ih
    · split_ifs <;> simp only <;> omega
    · split_ifs <;> simp only <;> omega

/-- C28: for every capture buffer, when `get_spectrum` gets the capture lock and the
long-term trackers are 16-bit unsigned values with the minimum at least 1, the call
returns, the new minimum `min - (min >> 1) + (new_min >> 1)` and the new maximum
`max - (max >> 1) + (new_max >> 1)` are stored without overflowing 16 bits, the new minimum
is again at least 1, and the integer division `max / min` for the dB-per-division scale is
by that non-zero minimum. -/
theorem get_spectrum_trackers (P : rx_config σ) (s : rx_dsp σ) (spectrum : Nat → Int)
    (hsem : s.spectrum_semaphore ≠ 0)
    (hmin : 1 ≤ s.min ∧ s.min ≤ 65535) (hmax : 0 ≤ s.max ∧ s.max ≤ 65535) :
    ∃ r, get_spectrum P s spectrum = some r ∧
      (1 ≤ r.self.min ∧ r.self.min ≤ 65535) ∧
      r.self.min = s.min - asr s.min 1 + asr (minmax_loop s.capture 256 0 (0, 65535)).2 1 ∧
      (0 ≤ r.self.max ∧ r.self.max ≤ 65535) ∧
      r.self.max = s.max - asr s.max 1 + asr (minmax_loop s.capture 256 0 (0, 65535)).1 1 ∧
      checked_div r.self.max r.self.min = some (Int.tdiv r.self.max r.self.min) ∧
      r.dB10 = to_uint8 (P.dB10_of (Int.tdiv r.self.max r.self.min)) := by
  have hr := minmax_loop_range s.capture 256 0 (0, 65535) ⟨by decide, by decide⟩
    ⟨by decide, by decide⟩
  obtain ⟨⟨ha1, ha2⟩, ⟨hb1, hb2⟩⟩ := hr
  have emin : to_uint16 (s.min - s.min / 2 + (minmax_loop s.capture 256 0 (0, 65535)).2 / 2)
      = s.min - s.min / 2 + (minmax_loop s.capture 256 0 (0, 65535)).2 / 2 := by
    unfold to_uint16
    omega
  have emax : to_uint16 (s.max - s.max / 2 + (minmax_loop s.capture 256 0 (0, 65535)).1 / 2)
      = s.max - s.max / 2 + (minmax_loop s.capture 256 0 (0, 65535)).1 / 2 := by
    unfold to_uint16
    omega
  have hne : s.min - s.min / 2 + (minmax_loop s.capture 256 0 (0, 65535)).2 / 2 ≠ 0 := by
    omega
  unfold get_spectrum
  rw [if_neg hsem]
  refine ⟨_, rfl, ?_⟩
  simp only [emin, emax, checked_div, if_neg hne, asr, pow_one]
  refine ⟨⟨by omega, by omega⟩, trivial, ⟨by omega, by omega⟩, trivial, trivial, trivial⟩

set_option maxRecDepth 100000 in
/-- Witness of C28: the fresh receiver of the small instance (minimum 1, maximum 65523)
with an all-zero capture buffer, where the minimum becomes `1 - 0 + 32767 = 32768` and the
maximum `65523 - 32761 + 0 = 32762`; and with a single bin of magnitude 1, where the
minimum stays at `1 - 0 + 0 = 1`. -/
theorem get_spectrum_trackers_witness :
    (demo_fresh.spectrum_semaphore ≠ 0 ∧ (1 ≤ demo_fresh.min ∧ demo_fresh.min ≤ 65535) ∧
      (0 ≤ demo_fresh.max ∧ demo_fresh.max ≤ 65535)) ∧
    (∃ r, get_spectrum demo_config demo_fresh (fun _ => 0) = some r ∧
      (1 ≤ r.self.min ∧ r.self.min ≤ 65535) ∧
      r.self.min = demo_fresh.min - asr demo_fresh.min 1
        + asr (minmax_loop demo_fresh.capture 256 0 (0, 65535)).2 1 ∧
      (0 ≤ r.self.max ∧ r.self.max ≤ 65535) ∧
      r.self.max = demo_fresh.max - asr demo_fresh.max 1
        + asr (minmax_loop demo_fresh.capture 256 0 (0, 65535)).1 1 ∧
      checked_div r.self.max r.self.min = some (Int.tdiv r.self.max r.self.min) ∧
      r.dB10 = to_uint8 (demo_config.dB10_of (Int.tdiv r.self.max r.self.min))) ∧
    (get_spectrum demo_config demo_fresh (fun _ => 0)).map (fun r => (r.self.min, r.self.max))
      = some (32768, 32762) ∧
    (get_spectrum demo_config demo_captured (fun _ => 0)).map
      (fun r => (r.self.min, r.self.max)) = some (1, 32762) :=
  ⟨⟨by decide, ⟨by decide, by decide⟩, ⟨by decide, by decide⟩⟩,
    get_spectrum_trackers demo_config demo_fresh (fun _ => 0) (by decide)
      ⟨by decide, by decide⟩ ⟨by decide, by decide⟩,
    by decide, by decide⟩

/-! ## The all-zero block: what reaches the spectral filter -/

end PicoRX
